import Mathlib

/-!
Verification of the ninja-rs build-file front end: a shallow embedding of
the lexer (src/lex.rs), the scope and declaration model (src/ast.rs), the
intern table (src/intern.rs) and the recursive-descent parser
(src/parse.rs), together with theorems settling the frozen claims about
the specification.

Conventions of the embedding:
* Bytes are `Nat` (the Rust code works on a flat `&[u8]` buffer).
* Rust loops become fuel-indexed structural recursion.  Every function
  passes its own fuel unchanged to callees and recurses on the
  predecessor only for its own loop, so a single fuel larger than the
  number of unread input bytes is enough everywhere; this is proved
  below and the public entry point `Parser.parse` supplies
  `input.length + 1`.  Running out of fuel is a distinct result
  (`LRes.oof` / `PRes.oof`) which the sufficiency theorems exclude.
* Mutation of `&mut self` / `&mut Table` is modeled by returning the new
  state next to the result, in every branch, also on errors (Rust leaves
  the borrowed state in place when an `Err` is returned).
* The `todo!()` stubs in the `DeclKind::Subninja` / `DeclKind::Include`
  arms of `Parser::parse` abort the process; this is the distinct result
  `PRes.panicked`.
-/

deriving instance DecidableEq for Except

namespace NinjaRs

/-! ## src/blob.rs

`Blob` is an immutable owned byte sequence with content equality, and
`Builder` an append-only accumulator frozen once into a `Blob`; both are
faithfully a `List` of bytes here (content equality is list equality,
`Builder.push`/`extend` are appends, `freeze` is the identity). -/

abbrev Byte := Nat

abbrev Blob := List Byte

/-- ASCII bytes of a literal, used to write concrete inputs. -/
def bs (s : String) : List Byte := s.data.map Char.toNat

/-! ## src/intern.rs -/

structure Symbol where
  id : Nat
deriving DecidableEq, Repr

structure Table where
  ids : List (List Byte)
deriving DecidableEq, Repr

def Table.new : Table := ⟨[]⟩

/-- First index of `bytes` in `ids`, if present.  This is
`Table.hash.get(bytes)` of the Rust code: the hash map sends content to
the `Symbol` allocated at its first insertion, which is its (unique)
index in the `ids` vector since both are updated together. -/
def idsLookup : List (List Byte) → List Byte → Option Nat
  | [], _ => none
  | c :: rest, bytes =>
    if c = bytes then some 0
    else (idsLookup rest bytes).map (· + 1)

/-- `Table::insert`: return the existing `Symbol` for already-seen
content, else allocate the next ordinal and retain a copy. -/
def Table.insert (t : Table) (bytes : List Byte) : Symbol × Table :=
  match idsLookup t.ids bytes with
  | some i => (⟨i⟩, t)
  | none => (⟨t.ids.length⟩, ⟨t.ids ++ [bytes]⟩)

/-! ## src/lex.rs -/

structure Identifier where
  id : Symbol
deriving DecidableEq, Repr

/-- `Identifier::new`: intern the name. -/
def Identifier.new (arena : Table) (name : List Byte) : Identifier × Table :=
  match Table.insert arena name with
  | (id, arena1) => (⟨id⟩, arena1)

inductive ValuePart where
  | Text : Blob → ValuePart
  | Variable : Identifier → ValuePart
deriving DecidableEq, Repr

structure Value where
  parts : List ValuePart
deriving DecidableEq, Repr

/-- `Value::new` (always `Some`). -/
def Value.new (parts : List ValuePart) : Option Value := some ⟨parts⟩

inductive TokenKind where
  | Pipe | PipePipe | Equal | Colon | Identifier | Newline | Indent
deriving DecidableEq, Repr

inductive DeclKind where
  | Default | Rule | Build | Pool | Include | Subninja | Identifier | Newline
deriving DecidableEq, Repr

structure SourceLocation where
  range : Nat × Nat
  line : Nat
deriving DecidableEq, Repr

structure Token (Kind : Type) where
  kind : Kind
  location : SourceLocation
deriving DecidableEq, Repr

inductive Lexed where
  | Token : Token TokenKind → Lexed
  | Eof
  | Comment
deriving DecidableEq, Repr

inductive LexError where
  | UnknownToken
  | InvalidDeclStart
deriving DecidableEq, Repr

/-- Result of a fueled lexer operation; `oof` is exhaustion of the fuel
that replaces the Rust loops, excluded by the sufficiency theorems. -/
inductive LRes (α : Type) where
  | ok : α → LRes α
  | err : LexError → LRes α
  | oof : LRes α
deriving DecidableEq, Repr

structure Lexer where
  input : List Byte
  curStart : Nat
  curEnd : Nat
  line : Nat
deriving DecidableEq, Repr

def Lexer.new (input : List Byte) : Lexer := ⟨input, 0, 0, 1⟩

def Lexer.peek (s : Lexer) : Option Byte := s.input.get? s.curEnd

def Lexer.advance (s : Lexer) : Lexer := { s with curEnd := s.curEnd + 1 }

def Lexer.startNextToken (s : Lexer) : Lexer := { s with curStart := s.curEnd }

def Lexer.lexeme {Kind : Type} (s : Lexer) (token : Token Kind) : List Byte :=
  (s.input.drop token.location.range.1).take
    (token.location.range.2 - token.location.range.1)

/-- `Lexer::try_indent`: is the next byte a space? -/
def Lexer.tryIndent (s : Lexer) : Bool := s.peek = some 32

/-- Letters, digits, underscore, hyphen. -/
def is_bare_identifier (b : Byte) : Bool :=
  (97 ≤ b && b ≤ 122) || (65 ≤ b && b ≤ 90) || (48 ≤ b && b ≤ 57) || b == 95 || b == 45

/-- Bare-identifier bytes plus the dot. -/
def is_identifier (b : Byte) : Bool :=
  is_bare_identifier b || b == 46

/-- `Lexer::token`: freeze the current span into a token carrying the
current line, bump the line counter when the token is a newline, and
start the next span. -/
def Lexer.token (s : Lexer) (kind : TokenKind) : Lexed × Lexer :=
  let range := (s.curStart, s.curEnd)
  let line := s.line
  let s1 := if kind = TokenKind.Newline then { s with line := s.line + 1 } else s
  (Lexed.Token ⟨kind, ⟨range, line⟩⟩, s1.startNextToken)

/-- `Lexer::skip_whitespace` (its Rust return type is
`Result<(), LexError>` but no branch produces an error; the fuel gives
`none` here instead).  Consumes spaces and escaped line continuations
(`$` newline, `$` space, `$` CRLF), restoring the cursor to the `$` and
stopping when the escape is not one of those. -/
def Lexer.skipWhitespace : Nat → Lexer → Option Lexer
  | 0, _ => none
  | fuel + 1, s =>
    match s.peek with
    | some 32 => Lexer.skipWhitespace fuel s.advance
    | some 36 =>
      match s.advance.peek with
      | some 10 => Lexer.skipWhitespace fuel s.advance.advance
      | some 32 => Lexer.skipWhitespace fuel s.advance.advance
      | some 13 =>
        match s.advance.advance.peek with
        | some 10 => Lexer.skipWhitespace fuel s.advance.advance.advance
        | _ => some ({ s.advance.advance with curEnd := s.curEnd }).startNextToken
      | _ => some ({ s.advance with curEnd := s.curEnd }).startNextToken
    | _ => some s.startNextToken

/-- The braced-variable loop of `Lexer::lex_dollar`: identifier bytes up
to a mandatory closing brace, anything else is `UnknownToken`. -/
def Lexer.lexBracedLoop : Nat → Lexer → List Byte → LRes (List Byte) × Lexer
  | 0, s, _ => (.oof, s)
  | fuel + 1, s, acc =>
    match s.peek with
    | some b =>
      if is_identifier b then Lexer.lexBracedLoop fuel s.advance (acc ++ [b])
      else if b = 125 then (.ok acc, s.advance)
      else (.err .UnknownToken, s)
    | none => (.err .UnknownToken, s)

/-- The bare-variable loop of `Lexer::lex_dollar`: the maximal run of
bare-identifier bytes. -/
def Lexer.lexBareLoop : Nat → Lexer → List Byte → Option (List Byte × Lexer)
  | 0, _, _ => none
  | fuel + 1, s, acc =>
    match s.peek with
    | some b =>
      if is_bare_identifier b then Lexer.lexBareLoop fuel s.advance (acc ++ [b])
      else some (acc, s)
    | none => some (acc, s)

/-- `Lexer::lex_dollar`: interpret the byte after an unescaped `$`
inside a value or target. -/
def Lexer.lexDollar (fuel : Nat) (s : Lexer) (arena : Table) :
    LRes ValuePart × Lexer × Table :=
  match s.peek with
  | none => (.err .UnknownToken, s, arena)
  | some b =>
    if b = 32 || b = 58 || b = 36 then
      (.ok (.Text [b]), s.advance, arena)
    else if b = 10 then
      match Lexer.skipWhitespace fuel s.advance with
      | some s1 => (.ok (.Text []), s1, arena)
      | none => (.oof, s.advance, arena)
    else if b = 13 then
      match s.advance.peek with
      | some 10 =>
        match Lexer.skipWhitespace fuel s.advance.advance with
        | some s2 => (.ok (.Text []), s2, arena)
        | none => (.oof, s.advance.advance, arena)
      | _ => (.err .UnknownToken, s.advance, arena)
    else if b = 123 then
      match Lexer.lexBracedLoop fuel s.advance [] with
      | (.ok var, s1) =>
        match Identifier.new arena var with
        | (v, arena1) => (.ok (.Variable v), s1, arena1)
      | (.err e, s1) => (.err e, s1, arena)
      | (.oof, s1) => (.oof, s1, arena)
    else if is_bare_identifier b then
      match Lexer.lexBareLoop fuel s.advance [b] with
      | some (var, s1) =>
        match Identifier.new arena var with
        | (v, arena1) => (.ok (.Variable v), s1, arena1)
      | none => (.oof, s.advance, arena)
    else (.err .UnknownToken, s, arena)

/-- The accumulation loop of `Lexer::lex_value`: text and variable parts
until an unescaped (unconsumed) newline; end of input fails. -/
def Lexer.lexValueLoop : Nat → Lexer → Table → List ValuePart →
    LRes (List ValuePart) × Lexer × Table
  | 0, s, arena, _ => (.oof, s, arena)
  | fuel + 1, s, arena, parts =>
    match s.peek with
    | none => (.err .UnknownToken, s, arena)
    | some b =>
      if b = 10 then (.ok parts, s, arena)
      else if b = 36 then
        match Lexer.lexDollar (fuel + 1) s.advance arena with
        | (.ok part, s1, arena1) => Lexer.lexValueLoop fuel s1 arena1 (parts ++ [part])
        | (.err e, s1, arena1) => (.err e, s1, arena1)
        | (.oof, s1, arena1) => (.oof, s1, arena1)
      else Lexer.lexValueLoop fuel s.advance arena (parts ++ [.Text [b]])

/-- `Lexer::lex_value`. -/
def Lexer.lexValue (fuel : Nat) (s : Lexer) (arena : Table) :
    LRes (Option Value) × Lexer × Table :=
  match Lexer.lexValueLoop fuel s arena [] with
  | (.ok parts, s1, arena1) => (.ok (Value.new parts), s1.startNextToken, arena1)
  | (.err e, s1, arena1) => (.err e, s1, arena1)
  | (.oof, s1, arena1) => (.oof, s1, arena1)

/-- The accumulation loop of `Lexer::lex_target`: like a value but also
stopping (without consuming) at `|`, `:` and space. -/
def Lexer.lexTargetLoop : Nat → Lexer → Table → List ValuePart →
    LRes (List ValuePart) × Lexer × Table
  | 0, s, arena, _ => (.oof, s, arena)
  | fuel + 1, s, arena, parts =>
    match s.peek with
    | none => (.err .UnknownToken, s, arena)
    | some b =>
      if b = 124 || b = 58 || b = 32 || b = 10 then (.ok parts, s, arena)
      else if b = 36 then
        match Lexer.lexDollar (fuel + 1) s.advance arena with
        | (.ok part, s1, arena1) => Lexer.lexTargetLoop fuel s1 arena1 (parts ++ [part])
        | (.err e, s1, arena1) => (.err e, s1, arena1)
        | (.oof, s1, arena1) => (.oof, s1, arena1)
      else Lexer.lexTargetLoop fuel s.advance arena (parts ++ [.Text [b]])

/-- `Lexer::lex_target`: `ok none` is the no-target-here signal (the
loop stopped before accumulating any part). -/
def Lexer.lexTarget (fuel : Nat) (s : Lexer) (arena : Table) :
    LRes (Option Value) × Lexer × Table :=
  match Lexer.lexTargetLoop fuel s arena [] with
  | (.ok parts, s1, arena1) =>
    match Lexer.skipWhitespace fuel s1 with
    | some s2 =>
      let s3 := s2.startNextToken
      if parts = [] then (.ok none, s3, arena1)
      else (.ok (Value.new parts), s3, arena1)
    | none => (.oof, s1, arena1)
  | (.err e, s1, arena1) => (.err e, s1, arena1)
  | (.oof, s1, arena1) => (.oof, s1, arena1)

/-- The identifier run inside `Lexer::lex_one`. -/
def Lexer.lexIdentLoop : Nat → Lexer → Option Lexer
  | 0, _ => none
  | fuel + 1, s =>
    match s.peek with
    | some b => if is_identifier b then Lexer.lexIdentLoop fuel s.advance else some s
    | none => some s

/-- The space run inside `Lexer::lex_one` (an `Indent` token). -/
def Lexer.lexSpacesLoop : Nat → Lexer → Option Lexer
  | 0, _ => none
  | fuel + 1, s =>
    match s.peek with
    | some 32 => Lexer.lexSpacesLoop fuel s.advance
    | _ => some s

/-- The comment loop inside `Lexer::lex_one`: discard bytes to the
newline, which bumps the line counter; end of input is `UnknownToken`.
Note the line counter moves here with no Newline token produced. -/
def Lexer.lexCommentLoop : Nat → Lexer → LRes Unit × Lexer
  | 0, s => (.oof, s)
  | fuel + 1, s =>
    match s.peek with
    | some 10 => (.ok (), ({ s with line := s.line + 1 }).advance.startNextToken)
    | none => (.err .UnknownToken, s)
    | some _ => Lexer.lexCommentLoop fuel s.advance

/-- `Lexer::lex_one`: one generic token, `Eof`, or a discarded comment.
The byte dispatch follows the order of the Rust match arms. -/
def Lexer.lexOne (fuel : Nat) (s : Lexer) : LRes Lexed × Lexer :=
  match s.peek with
  | none => (.ok .Eof, s)
  | some b =>
    if b = 61 then
      match s.advance.token .Equal with
      | (l, s1) => (.ok l, s1)
    else if b = 58 then
      match s.advance.token .Colon with
      | (l, s1) => (.ok l, s1)
    else if b = 124 then
      match s.advance.peek with
      | some 124 =>
        match s.advance.advance.token .PipePipe with
        | (l, s2) => (.ok l, s2)
      | _ =>
        match s.advance.token .Pipe with
        | (l, s2) => (.ok l, s2)
    else if is_identifier b then
      match Lexer.lexIdentLoop fuel s.advance with
      | some s1 =>
        match s1.token .Identifier with
        | (l, s2) => (.ok l, s2)
      | none => (.oof, s.advance)
    else if b = 32 then
      match Lexer.lexSpacesLoop fuel s.advance with
      | some s1 =>
        match s1.token .Indent with
        | (l, s2) => (.ok l, s2)
      | none => (.oof, s.advance)
    else if b = 13 then
      match s.advance.peek with
      | some 10 =>
        match s.advance.advance.token .Newline with
        | (l, s2) => (.ok l, s2)
      | _ => (.err .UnknownToken, s.advance)
    else if b = 10 then
      match s.advance.token .Newline with
      | (l, s1) => (.ok l, s1)
    else if b = 35 then
      match Lexer.lexCommentLoop fuel s.advance with
      | (.ok _, s1) => (.ok .Comment, s1)
      | (.err e, s1) => (.err e, s1)
      | (.oof, s1) => (.oof, s1)
    else (.err .UnknownToken, s)

/-- `Lexer::lex`: loop over `lex_one`, discarding comments; trailing
spaces are consumed after any non-newline token. -/
def Lexer.lex : Nat → Lexer → LRes (Option (Token TokenKind)) × Lexer
  | 0, s => (.oof, s)
  | fuel + 1, s =>
    match Lexer.lexOne (fuel + 1) s with
    | (.ok (.Token token), s1) =>
      if token.kind ≠ TokenKind.Newline then
        match Lexer.skipWhitespace (fuel + 1) s1 with
        | some s2 => (.ok (some token), s2)
        | none => (.oof, s1)
      else (.ok (some token), s1)
    | (.ok .Eof, s1) => (.ok none, s1)
    | (.ok .Comment, s1) => Lexer.lex fuel s1
    | (.err e, s1) => (.err e, s1)
    | (.oof, s1) => (.oof, s1)

/-- `Lexer::keyword`: match the exact lexeme of an identifier token
against the fixed keyword table. -/
def Lexer.keyword (s : Lexer) (token : Token TokenKind) : DeclKind :=
  let lexeme := s.lexeme token
  if lexeme = bs "default" then .Default
  else if lexeme = bs "rule" then .Rule
  else if lexeme = bs "build" then .Build
  else if lexeme = bs "pool" then .Pool
  else if lexeme = bs "include" then .Include
  else if lexeme = bs "subninja" then .Subninja
  else .Identifier

/-- `Lexer::decl`: reclassify a generic token as a declaration token. -/
def Lexer.decl (s : Lexer) (token : Token TokenKind) : Option (Token DeclKind) :=
  match token.kind with
  | .Newline => some ⟨.Newline, token.location⟩
  | .Identifier => some ⟨s.keyword token, token.location⟩
  | _ => none

/-- `Lexer::lex_decl`. -/
def Lexer.lexDecl (fuel : Nat) (s : Lexer) :
    LRes (Option (Token DeclKind)) × Lexer :=
  match Lexer.lex fuel s with
  | (.ok (some token), s1) =>
    match s1.decl token with
    | some d => (.ok (some d), s1)
    | none => (.err .InvalidDeclStart, s1)
  | (.ok none, s1) => (.ok none, s1)
  | (.err e, s1) => (.err e, s1)
  | (.oof, s1) => (.oof, s1)

/-! ## src/ast.rs

The scope model.  `Scope::bindings` is a `HashMap<Identifier, Blob>` in
Rust, queried only by key (`get`) and by size; it is modeled as an
association list with unique keys.  `HashMap::insert` on a present key
replaces the value and returns the old one, upon which `Scope::push`
returns `DuplicateBinding`; since every caller aborts the whole parse on
that error the replaced state is unobservable, and `push` is modeled as
a membership test. -/

inductive AstError where
  | DuplicateBinding
deriving DecidableEq, Repr

structure Binding where
  id : Identifier
  value : Blob
deriving DecidableEq, Repr

structure Scope where
  bindings : List (Identifier × Blob)
  parent : Option Nat
deriving DecidableEq, Repr

def Scope.empty (parent : Option Nat) : Scope := ⟨[], parent⟩

/-- `Scope::get` (single scope, no chaining). -/
def Scope.get (sc : Scope) (identifier : Identifier) : Option Blob :=
  (sc.bindings.find? (fun p => p.1 == identifier)).map (·.2)

/-- `Scope::push`. -/
def Scope.push (sc : Scope) (binding : Binding) : Except AstError Scope :=
  if sc.bindings.any (fun p => p.1 == binding.id) then
    .error .DuplicateBinding
  else
    .ok { sc with bindings := sc.bindings ++ [(binding.id, binding.value)] }

/-- `Scope::new`: push each given binding in order. -/
def Scope.newFrom (sc : Scope) : List Binding → Except AstError Scope
  | [] => .ok sc
  | binding :: rest =>
    match sc.push binding with
    | .error e => .error e
    | .ok sc1 => Scope.newFrom sc1 rest

def Scope.new (newBindings : List Binding) (parent : Option Nat) :
    Except AstError Scope :=
  Scope.newFrom (Scope.empty parent) newBindings

def Scope.size (sc : Scope) : Nat := sc.bindings.length

structure Scopes where
  arena : List Scope
  top : Nat
deriving DecidableEq, Repr

/-- `Scopes::new`: one empty, parentless top scope. -/
def Scopes.new : Scopes := ⟨[Scope.empty none], 0⟩

/-- `Scopes::new_scope`: the parent of the new scope is unconditionally
the top scope.  The returned arena id is the insertion index. -/
def Scopes.newScope (ss : Scopes) (bindings : List Binding) :
    Except AstError (Nat × Scopes) :=
  match Scope.new bindings (some ss.top) with
  | .error e => .error e
  | .ok scope => .ok (ss.arena.length, { ss with arena := ss.arena ++ [scope] })

/-- `Scopes::get_scope`.  An out-of-range id is a programming-contract
violation in Rust (a panic); the default here is never reached by ids
the parser produces. -/
def Scopes.getScope (ss : Scopes) (id : Nat) : Scope :=
  (ss.arena.get? id).getD (Scope.empty none)

/-- `Scopes::get_scope_mut` followed by a store. -/
def Scopes.setScope (ss : Scopes) (id : Nat) (sc : Scope) : Scopes :=
  { ss with arena := ss.arena.set id sc }

/-- The loop of `Scopes::get`: own bindings first, else the parent
chain.  The fuel replaces the unbounded Rust loop; any acyclic parent
chain (all the API builds) is shorter than the arena. -/
def Scopes.getChain : Nat → Scopes → Nat → Identifier → Option (Option Blob)
  | 0, _, _, _ => none
  | fuel + 1, ss, id, identifier =>
    let scope := ss.getScope id
    match scope.get identifier with
    | some value => some (some value)
    | none =>
      match scope.parent with
      | some parent => Scopes.getChain fuel ss parent identifier
      | none => some none

/-- `Scopes::get`: chained lookup through the parent chain. -/
def Scopes.get (ss : Scopes) (id : Nat) (identifier : Identifier) : Option Blob :=
  match Scopes.getChain (ss.arena.length + 1) ss id identifier with
  | some r => r
  | none => none

/-- ast::Value wraps a lexed value. -/
structure AValue where
  value : Value
deriving DecidableEq, Repr

def AValue.new (value : Value) : AValue := ⟨value⟩

/-- ast::Target wraps a lexed value. -/
structure Target where
  value : Value
deriving DecidableEq, Repr

def Target.new (value : Value) : Target := ⟨value⟩

/-- `Scope::evaluate`: concatenate text parts verbatim and variable
parts through this scope's own (non-chained) bindings, an unbound
variable contributing the empty byte sequence. -/
def Scope.evaluate (sc : Scope) (value : AValue) : Blob :=
  value.value.parts.foldl
    (fun builder part =>
      match part with
      | .Text text => builder ++ text
      | .Variable var => builder ++ ((sc.get var).getD []))
    []

structure Rule where
  name : Identifier
  scope : Nat
deriving DecidableEq, Repr

def Rule.new (name : Identifier) (scope : Nat) : Rule := ⟨name, scope⟩

structure Build where
  outputs : List Target
  implicit_outputs : List Target
  rule : Identifier
  inputs : List Target
  implicit_inputs : List Target
  order_inputs : List Target
  scope : Nat
deriving DecidableEq, Repr

structure Default where
  targets : List Target
deriving DecidableEq, Repr

structure Pool where
  name : Identifier
  depth : Nat
deriving DecidableEq, Repr

inductive Declaration where
  | Rule : Rule → Declaration
  | Build : Build → Declaration
  | Default : Default → Declaration
  | Pool : Pool → Declaration
deriving DecidableEq, Repr

structure Declarations where
  declarations : List Declaration
deriving DecidableEq, Repr

def Declarations.new : Declarations := ⟨[]⟩

/-- `Declarations::add_rule` (and siblings): append, always `Ok`. -/
def Declarations.addRule (d : Declarations) (rule : Rule) :
    Except AstError Declarations :=
  .ok ⟨d.declarations ++ [.Rule rule]⟩

def Declarations.addBuild (d : Declarations) (build : Build) :
    Except AstError Declarations :=
  .ok ⟨d.declarations ++ [.Build build]⟩

def Declarations.addDefault (d : Declarations) (default : Default) :
    Except AstError Declarations :=
  .ok ⟨d.declarations ++ [.Default default]⟩

def Declarations.addPool (d : Declarations) (pool : Pool) :
    Except AstError Declarations :=
  .ok ⟨d.declarations ++ [.Pool pool]⟩

structure File where
  declarations : Declarations
  scopes : Scopes
deriving DecidableEq, Repr

def File.new (declarations : Declarations) (scopes : Scopes) : File :=
  ⟨declarations, scopes⟩

/-! ## src/parse.rs -/

inductive ParseError where
  | LexError : LexError → ParseError
  | AstError : AstError → ParseError
  | MissingNewline
  | UnexpectedToken : TokenKind → ParseError
  | UnexpectedEof
  | InvalidValue
  | PoolDepthInvalid
  | Expected : TokenKind → TokenKind → ParseError
deriving DecidableEq, Repr

/-- Result of a fueled parser operation.  `panicked` is the `todo!()`
abort of the `DeclKind::Subninja` / `DeclKind::Include` arms; `oof` is
fuel exhaustion, excluded by the sufficiency theorems. -/
inductive PRes (α : Type) where
  | ok : α → PRes α
  | err : ParseError → PRes α
  | panicked : PRes α
  | oof : PRes α
deriving DecidableEq, Repr

/-- Lift a lexer result into a parser result
(the `Err(error) => Err(ParseError::LexError(error))` arms). -/
def PRes.ofLex {α : Type} : LRes α → PRes α
  | .ok a => .ok a
  | .err e => .err (.LexError e)
  | .oof => .oof

/-- `str::parse::<usize>` composed with `String::from_utf8`, as used on
a pool depth: an optional leading ASCII plus sign, then one or more
ASCII decimal digits, with the value bounded by the 64-bit
`usize::MAX`; anything else (including bytes that are not valid UTF-8,
which are in particular not sign-or-digit bytes) fails. -/
def parseUsize (bytes : List Byte) : Option Nat :=
  let digits := match bytes with
    | 43 :: rest => rest
    | _ => bytes
  if digits = [] then none
  else if digits.all (fun b => 48 ≤ b && b ≤ 57) then
    let v := digits.foldl (fun a b => a * 10 + (b - 48)) 0
    if v ≤ 2 ^ 64 - 1 then some v else none
  else none

/-- `Parser::advance`. -/
def Parser.advance (fuel : Nat) (s : Lexer) :
    PRes (Option (Token TokenKind)) × Lexer :=
  match Lexer.lex fuel s with
  | (r, s1) => (PRes.ofLex r, s1)

/-- `Parser::advance_decl`. -/
def Parser.advanceDecl (fuel : Nat) (s : Lexer) :
    PRes (Option (Token DeclKind)) × Lexer :=
  match Lexer.lexDecl fuel s with
  | (r, s1) => (PRes.ofLex r, s1)

/-- `Parser::consume`. -/
def Parser.consume (fuel : Nat) (expected : TokenKind) (s : Lexer) :
    PRes (Token TokenKind) × Lexer :=
  match Parser.advance fuel s with
  | (.ok none, s1) => (.err .UnexpectedEof, s1)
  | (.ok (some token), s1) =>
    if token.kind = expected then (.ok token, s1)
    else (.err (.Expected expected token.kind), s1)
  | (.err e, s1) => (.err e, s1)
  | (.panicked, s1) => (.panicked, s1)
  | (.oof, s1) => (.oof, s1)

/-- `Parser::parse_identifier`: consume an `Identifier` token and intern
its lexeme. -/
def Parser.parseIdentifier (fuel : Nat) (s : Lexer) (arena : Table) :
    PRes Identifier × Lexer × Table :=
  match Parser.consume fuel .Identifier s with
  | (.ok token, s1) =>
    match Identifier.new arena (s1.lexeme token) with
    | (identifier, arena1) => (.ok identifier, s1, arena1)
  | (.err e, s1) => (.err e, s1, arena)
  | (.panicked, s1) => (.panicked, s1, arena)
  | (.oof, s1) => (.oof, s1, arena)

/-- `Parser::parse_value`. -/
def Parser.parseValue (fuel : Nat) (s : Lexer) (arena : Table) :
    PRes (Option AValue) × Lexer × Table :=
  match Lexer.lexValue fuel s arena with
  | (.ok none, s1, arena1) => (.ok none, s1, arena1)
  | (.ok (some value), s1, arena1) => (.ok (some (AValue.new value)), s1, arena1)
  | (.err e, s1, arena1) => (.err (.LexError e), s1, arena1)
  | (.oof, s1, arena1) => (.oof, s1, arena1)

/-- `Parser::parse_target`. -/
def Parser.parseTarget (fuel : Nat) (s : Lexer) (arena : Table) :
    PRes (Option Target) × Lexer × Table :=
  match Lexer.lexTarget fuel s arena with
  | (.ok none, s1, arena1) => (.ok none, s1, arena1)
  | (.ok (some value), s1, arena1) => (.ok (some (Target.new value)), s1, arena1)
  | (.err e, s1, arena1) => (.err (.LexError e), s1, arena1)
  | (.oof, s1, arena1) => (.oof, s1, arena1)

/-- The `while let Some(target) = self.parse_target(arena)?` loops of
`parse_build` and `parse_default`, collecting in order. -/
def Parser.parseTargets : Nat → Lexer → Table → PRes (List Target) × Lexer × Table
  | 0, s, arena => (.oof, s, arena)
  | fuel + 1, s, arena =>
    match Parser.parseTarget (fuel + 1) s arena with
    | (.ok none, s1, arena1) => (.ok [], s1, arena1)
    | (.ok (some target), s1, arena1) =>
      match Parser.parseTargets fuel s1 arena1 with
      | (.ok targets, s2, arena2) => (.ok (target :: targets), s2, arena2)
      | (.err e, s2, arena2) => (.err e, s2, arena2)
      | (.panicked, s2, arena2) => (.panicked, s2, arena2)
      | (.oof, s2, arena2) => (.oof, s2, arena2)
    | (.err e, s1, arena1) => (.err e, s1, arena1)
    | (.panicked, s1, arena1) => (.panicked, s1, arena1)
    | (.oof, s1, arena1) => (.oof, s1, arena1)

/-- `Parser::parse_binding` for an indented `name = value` line: the
value is evaluated immediately against the top-level scope only and
stored fully expanded.  `scopes` is read (for the top scope) and
returned unchanged. -/
def Parser.parseBinding (fuel : Nat) (s : Lexer) (scopes : Scopes) (arena : Table) :
    PRes Binding × Lexer × Scopes × Table :=
  match Parser.parseIdentifier fuel s arena with
  | (.ok identifier, s1, arena1) =>
    match Parser.consume fuel .Equal s1 with
    | (.ok _, s2) =>
      match Parser.parseValue fuel s2 arena1 with
      | (.ok none, s3, arena2) => (.err .InvalidValue, s3, scopes, arena2)
      | (.ok (some value), s3, arena2) =>
        match Parser.consume fuel .Newline s3 with
        | (.ok _, s4) =>
          let top := scopes.top
          let bytes := (scopes.getScope top).evaluate value
          (.ok ⟨identifier, bytes⟩, s4, scopes, arena2)
        | (.err e, s4) => (.err e, s4, scopes, arena2)
        | (.panicked, s4) => (.panicked, s4, scopes, arena2)
        | (.oof, s4) => (.oof, s4, scopes, arena2)
      | (.err e, s3, arena2) => (.err e, s3, scopes, arena2)
      | (.panicked, s3, arena2) => (.panicked, s3, scopes, arena2)
      | (.oof, s3, arena2) => (.oof, s3, scopes, arena2)
    | (.err e, s2) => (.err e, s2, scopes, arena1)
    | (.panicked, s2) => (.panicked, s2, scopes, arena1)
    | (.oof, s2) => (.oof, s2, scopes, arena1)
  | (.err e, s1, arena1) => (.err e, s1, scopes, arena1)
  | (.panicked, s1, arena1) => (.panicked, s1, scopes, arena1)
  | (.oof, s1, arena1) => (.oof, s1, scopes, arena1)

/-- The `while self.lexer.try_indent()` loop of `Parser::parse_scope`.
Note the Rust code discards the result of `consume(Indent)` (no `?`),
so the loop continues with the lexer state it left behind either way. -/
def Parser.parseBindings : Nat → Lexer → Scopes → Table → List Binding →
    PRes (List Binding) × Lexer × Scopes × Table
  | 0, s, scopes, arena, _ => (.oof, s, scopes, arena)
  | fuel + 1, s, scopes, arena, bindings =>
    if s.tryIndent then
      match Parser.consume (fuel + 1) .Indent s with
      | (_, s1) =>
        match Parser.parseBinding (fuel + 1) s1 scopes arena with
        | (.ok binding, s2, scopes2, arena2) =>
          Parser.parseBindings fuel s2 scopes2 arena2 (bindings ++ [binding])
        | (.err e, s2, scopes2, arena2) => (.err e, s2, scopes2, arena2)
        | (.panicked, s2, scopes2, arena2) => (.panicked, s2, scopes2, arena2)
        | (.oof, s2, scopes2, arena2) => (.oof, s2, scopes2, arena2)
    else (.ok bindings, s, scopes, arena)

/-- `Parser::parse_scope`: collect the indented bindings, then allocate
one new scope (whose parent is the top scope) holding them. -/
def Parser.parseScope (fuel : Nat) (s : Lexer) (scopes : Scopes) (arena : Table) :
    PRes Nat × Lexer × Scopes × Table :=
  match Parser.parseBindings fuel s scopes arena [] with
  | (.ok bindings, s1, scopes1, arena1) =>
    match scopes1.newScope bindings with
    | .ok (id, scopes2) => (.ok id, s1, scopes2, arena1)
    | .error e => (.err (.AstError e), s1, scopes1, arena1)
  | (.err e, s1, scopes1, arena1) => (.err e, s1, scopes1, arena1)
  | (.panicked, s1, scopes1, arena1) => (.panicked, s1, scopes1, arena1)
  | (.oof, s1, scopes1, arena1) => (.oof, s1, scopes1, arena1)

/-- `Parser::parse_top_level_binding` (the identifier token was already
consumed and interned by the top-level dispatch). -/
def Parser.parseTopLevelBinding (fuel : Nat) (identifier : Identifier)
    (s : Lexer) (scopes : Scopes) (arena : Table) :
    PRes Binding × Lexer × Scopes × Table :=
  match Parser.consume fuel .Equal s with
  | (.ok _, s1) =>
    match Parser.parseValue fuel s1 arena with
    | (.ok none, s2, arena1) => (.err .InvalidValue, s2, scopes, arena1)
    | (.ok (some value), s2, arena1) =>
      match Parser.consume fuel .Newline s2 with
      | (.ok _, s3) =>
        let top := scopes.top
        let bytes := (scopes.getScope top).evaluate value
        (.ok ⟨identifier, bytes⟩, s3, scopes, arena1)
      | (.err e, s3) => (.err e, s3, scopes, arena1)
      | (.panicked, s3) => (.panicked, s3, scopes, arena1)
      | (.oof, s3) => (.oof, s3, scopes, arena1)
    | (.err e, s2, arena1) => (.err e, s2, scopes, arena1)
    | (.panicked, s2, arena1) => (.panicked, s2, scopes, arena1)
    | (.oof, s2, arena1) => (.oof, s2, scopes, arena1)
  | (.err e, s1) => (.err e, s1, scopes, arena)
  | (.panicked, s1) => (.panicked, s1, scopes, arena)
  | (.oof, s1) => (.oof, s1, scopes, arena)

/-- `Parser::parse_rule`. -/
def Parser.parseRule (fuel : Nat) (s : Lexer) (scopes : Scopes) (arena : Table) :
    PRes Rule × Lexer × Scopes × Table :=
  match Parser.parseIdentifier fuel s arena with
  | (.ok name, s1, arena1) =>
    match Parser.consume fuel .Newline s1 with
    | (.ok _, s2) =>
      match Parser.parseScope fuel s2 scopes arena1 with
      | (.ok scope, s3, scopes3, arena3) => (.ok (Rule.new name scope), s3, scopes3, arena3)
      | (.err e, s3, scopes3, arena3) => (.err e, s3, scopes3, arena3)
      | (.panicked, s3, scopes3, arena3) => (.panicked, s3, scopes3, arena3)
      | (.oof, s3, scopes3, arena3) => (.oof, s3, scopes3, arena3)
    | (.err e, s2) => (.err e, s2, scopes, arena1)
    | (.panicked, s2) => (.panicked, s2, scopes, arena1)
    | (.oof, s2) => (.oof, s2, scopes, arena1)
  | (.err e, s1, arena1) => (.err e, s1, scopes, arena1)
  | (.panicked, s1, arena1) => (.panicked, s1, scopes, arena1)
  | (.oof, s1, arena1) => (.oof, s1, scopes, arena1)

/-- The `let _colon = match self.advance()? { ... }` block of
`Parser::parse_build`: after the output targets, either a `|` heads the
implicit outputs (then a mandatory `:`), or the `:` is already there;
anything else is `UnexpectedToken`, end of input `UnexpectedEof`.
Returns the implicit outputs. -/
def Parser.parseBuildColon (fuel : Nat) (s : Lexer) (arena : Table) :
    PRes (List Target) × Lexer × Table :=
  match Parser.advance fuel s with
  | (.ok none, s1) => (.err .UnexpectedEof, s1, arena)
  | (.ok (some token), s1) =>
    match token.kind with
    | .Pipe =>
      match Parser.parseTargets fuel s1 arena with
      | (.ok implicit_outputs, s2, arena2) =>
        match Parser.consume fuel .Colon s2 with
        | (.ok _, s3) => (.ok implicit_outputs, s3, arena2)
        | (.err e, s3) => (.err e, s3, arena2)
        | (.panicked, s3) => (.panicked, s3, arena2)
        | (.oof, s3) => (.oof, s3, arena2)
      | (.err e, s2, arena2) => (.err e, s2, arena2)
      | (.panicked, s2, arena2) => (.panicked, s2, arena2)
      | (.oof, s2, arena2) => (.oof, s2, arena2)
    | .Colon => (.ok [], s1, arena)
    | got => (.err (.UnexpectedToken got), s1, arena)
  | (.err e, s1) => (.err e, s1, arena)
  | (.panicked, s1) => (.panicked, s1, arena)
  | (.oof, s1) => (.oof, s1, arena)

/-- The `let _newline = match self.advance()? { ... }` block of
`Parser::parse_build`: after the input targets, exactly one of Newline,
`|` implicit inputs then Newline, `|` implicit inputs `||` order inputs
then Newline, or `||` order inputs then Newline; any other token is
`UnexpectedToken`, end of input `UnexpectedEof`.  Returns the implicit
and order inputs. -/
def Parser.parseBuildNewline (fuel : Nat) (s : Lexer) (arena : Table) :
    PRes (List Target × List Target) × Lexer × Table :=
  match Parser.advance fuel s with
  | (.ok none, s1) => (.err .UnexpectedEof, s1, arena)
  | (.ok (some token), s1) =>
    match token.kind with
    | .Newline => (.ok ([], []), s1, arena)
    | .Pipe =>
      match Parser.parseTargets fuel s1 arena with
      | (.ok implicit_inputs, s2, arena2) =>
        match Parser.advance fuel s2 with
        | (.ok none, s3) => (.err .UnexpectedEof, s3, arena2)
        | (.ok (some token2), s3) =>
          match token2.kind with
          | .Newline => (.ok (implicit_inputs, []), s3, arena2)
          | .PipePipe =>
            match Parser.parseTargets fuel s3 arena2 with
            | (.ok order_inputs, s4, arena4) =>
              match Parser.consume fuel .Newline s4 with
              | (.ok _, s5) => (.ok (implicit_inputs, order_inputs), s5, arena4)
              | (.err e, s5) => (.err e, s5, arena4)
              | (.panicked, s5) => (.panicked, s5, arena4)
              | (.oof, s5) => (.oof, s5, arena4)
            | (.err e, s4, arena4) => (.err e, s4, arena4)
            | (.panicked, s4, arena4) => (.panicked, s4, arena4)
            | (.oof, s4, arena4) => (.oof, s4, arena4)
          | got => (.err (.UnexpectedToken got), s3, arena2)
        | (.err e, s3) => (.err e, s3, arena2)
        | (.panicked, s3) => (.panicked, s3, arena2)
        | (.oof, s3) => (.oof, s3, arena2)
      | (.err e, s2, arena2) => (.err e, s2, arena2)
      | (.panicked, s2, arena2) => (.panicked, s2, arena2)
      | (.oof, s2, arena2) => (.oof, s2, arena2)
    | .PipePipe =>
      match Parser.parseTargets fuel s1 arena with
      | (.ok order_inputs, s2, arena2) =>
        match Parser.consume fuel .Newline s2 with
        | (.ok _, s3) => (.ok ([], order_inputs), s3, arena2)
        | (.err e, s3) => (.err e, s3, arena2)
        | (.panicked, s3) => (.panicked, s3, arena2)
        | (.oof, s3) => (.oof, s3, arena2)
      | (.err e, s2, arena2) => (.err e, s2, arena2)
      | (.panicked, s2, arena2) => (.panicked, s2, arena2)
      | (.oof, s2, arena2) => (.oof, s2, arena2)
    | got => (.err (.UnexpectedToken got), s1, arena)
  | (.err e, s1) => (.err e, s1, arena)
  | (.panicked, s1) => (.panicked, s1, arena)
  | (.oof, s1) => (.oof, s1, arena)

/-- `Parser::parse_build`. -/
def Parser.parseBuild (fuel : Nat) (s : Lexer) (scopes : Scopes) (arena : Table) :
    PRes Build × Lexer × Scopes × Table :=
  match Parser.parseTargets fuel s arena with
  | (.ok outputs, s1, arena1) =>
    match Parser.parseBuildColon fuel s1 arena1 with
    | (.ok implicit_outputs, s2, arena2) =>
      match Parser.parseIdentifier fuel s2 arena2 with
      | (.ok rule, s3, arena3) =>
        match Parser.parseTargets fuel s3 arena3 with
        | (.ok inputs, s4, arena4) =>
          match Parser.parseBuildNewline fuel s4 arena4 with
          | (.ok (implicit_inputs, order_inputs), s5, arena5) =>
            match Parser.parseScope fuel s5 scopes arena5 with
            | (.ok scope, s6, scopes6, arena6) =>
              (.ok ⟨outputs, implicit_outputs, rule, inputs,
                implicit_inputs, order_inputs, scope⟩, s6, scopes6, arena6)
            | (.err e, s6, scopes6, arena6) => (.err e, s6, scopes6, arena6)
            | (.panicked, s6, scopes6, arena6) => (.panicked, s6, scopes6, arena6)
            | (.oof, s6, scopes6, arena6) => (.oof, s6, scopes6, arena6)
          | (.err e, s5, arena5) => (.err e, s5, scopes, arena5)
          | (.panicked, s5, arena5) => (.panicked, s5, scopes, arena5)
          | (.oof, s5, arena5) => (.oof, s5, scopes, arena5)
        | (.err e, s4, arena4) => (.err e, s4, scopes, arena4)
        | (.panicked, s4, arena4) => (.panicked, s4, scopes, arena4)
        | (.oof, s4, arena4) => (.oof, s4, scopes, arena4)
      | (.err e, s3, arena3) => (.err e, s3, scopes, arena3)
      | (.panicked, s3, arena3) => (.panicked, s3, scopes, arena3)
      | (.oof, s3, arena3) => (.oof, s3, scopes, arena3)
    | (.err e, s2, arena2) => (.err e, s2, scopes, arena2)
    | (.panicked, s2, arena2) => (.panicked, s2, scopes, arena2)
    | (.oof, s2, arena2) => (.oof, s2, scopes, arena2)
  | (.err e, s1, arena1) => (.err e, s1, scopes, arena1)
  | (.panicked, s1, arena1) => (.panicked, s1, scopes, arena1)
  | (.oof, s1, arena1) => (.oof, s1, scopes, arena1)

/-- `Parser::parse_default`. -/
def Parser.parseDefault (fuel : Nat) (s : Lexer) (arena : Table) :
    PRes Default × Lexer × Table :=
  match Parser.parseTargets fuel s arena with
  | (.ok targets, s1, arena1) =>
    match Parser.consume fuel .Newline s1 with
    | (.ok _, s2) => (.ok ⟨targets⟩, s2, arena1)
    | (.err e, s2) => (.err e, s2, arena1)
    | (.panicked, s2) => (.panicked, s2, arena1)
    | (.oof, s2) => (.oof, s2, arena1)
  | (.err e, s1, arena1) => (.err e, s1, arena1)
  | (.panicked, s1, arena1) => (.panicked, s1, arena1)
  | (.oof, s1, arena1) => (.oof, s1, arena1)

/-- `Parser::parse_pool`: name, newline, indented scope; the scope must
hold exactly one binding, named depth, whose evaluated value is empty
(depth 0) or parses as a usize.  The size test precedes interning the
name `depth`, as in the Rust code. -/
def Parser.parsePool (fuel : Nat) (s : Lexer) (scopes : Scopes) (arena : Table) :
    PRes Pool × Lexer × Scopes × Table :=
  match Parser.parseIdentifier fuel s arena with
  | (.ok name, s1, arena1) =>
    match Parser.consume fuel .Newline s1 with
    | (.ok _, s2) =>
      match Parser.parseScope fuel s2 scopes arena1 with
      | (.ok scope_id, s3, scopes3, arena3) =>
        let scope := scopes3.getScope scope_id
        if scope.size ≠ 1 then (.err .PoolDepthInvalid, s3, scopes3, arena3)
        else
          match Identifier.new arena3 (bs "depth") with
          | (depthId, arena4) =>
            match scope.get depthId with
            | none => (.err .PoolDepthInvalid, s3, scopes3, arena4)
            | some depth =>
              if depth = [] then (.ok ⟨name, 0⟩, s3, scopes3, arena4)
              else
                match parseUsize depth with
                | none => (.err .PoolDepthInvalid, s3, scopes3, arena4)
                | some d => (.ok ⟨name, d⟩, s3, scopes3, arena4)
      | (.err e, s3, scopes3, arena3) => (.err e, s3, scopes3, arena3)
      | (.panicked, s3, scopes3, arena3) => (.panicked, s3, scopes3, arena3)
      | (.oof, s3, scopes3, arena3) => (.oof, s3, scopes3, arena3)
    | (.err e, s2) => (.err e, s2, scopes, arena1)
    | (.panicked, s2) => (.panicked, s2, scopes, arena1)
    | (.oof, s2) => (.oof, s2, scopes, arena1)
  | (.err e, s1, arena1) => (.err e, s1, scopes, arena1)
  | (.panicked, s1, arena1) => (.panicked, s1, scopes, arena1)
  | (.oof, s1, arena1) => (.oof, s1, scopes, arena1)

/-- The top-level loop of `Parser::parse`: read one declaration token
and dispatch; `Subninja` and `Include` are `todo!()` stubs, which
panic. -/
def Parser.parseLoop : Nat → Lexer → Declarations → Scopes → Table →
    PRes File × Lexer × Table
  | 0, s, _, _, arena => (.oof, s, arena)
  | fuel + 1, s, declarations, scopes, arena =>
    match Parser.advanceDecl (fuel + 1) s with
    | (.ok none, s1) => (.ok (File.new declarations scopes), s1, arena)
    | (.ok (some token), s1) =>
      match token.kind with
      | .Rule =>
        match Parser.parseRule (fuel + 1) s1 scopes arena with
        | (.ok rule, s2, scopes2, arena2) =>
          match declarations.addRule rule with
          | .ok declarations2 => Parser.parseLoop fuel s2 declarations2 scopes2 arena2
          | .error e => (.err (.AstError e), s2, arena2)
        | (.err e, s2, _, arena2) => (.err e, s2, arena2)
        | (.panicked, s2, _, arena2) => (.panicked, s2, arena2)
        | (.oof, s2, _, arena2) => (.oof, s2, arena2)
      | .Build =>
        match Parser.parseBuild (fuel + 1) s1 scopes arena with
        | (.ok build, s2, scopes2, arena2) =>
          match declarations.addBuild build with
          | .ok declarations2 => Parser.parseLoop fuel s2 declarations2 scopes2 arena2
          | .error e => (.err (.AstError e), s2, arena2)
        | (.err e, s2, _, arena2) => (.err e, s2, arena2)
        | (.panicked, s2, _, arena2) => (.panicked, s2, arena2)
        | (.oof, s2, _, arena2) => (.oof, s2, arena2)
      | .Default =>
        match Parser.parseDefault (fuel + 1) s1 arena with
        | (.ok default, s2, arena2) =>
          match declarations.addDefault default with
          | .ok declarations2 => Parser.parseLoop fuel s2 declarations2 scopes arena2
          | .error e => (.err (.AstError e), s2, arena2)
        | (.err e, s2, arena2) => (.err e, s2, arena2)
        | (.panicked, s2, arena2) => (.panicked, s2, arena2)
        | (.oof, s2, arena2) => (.oof, s2, arena2)
      | .Subninja => (.panicked, s1, arena)
      | .Include => (.panicked, s1, arena)
      | .Pool =>
        match Parser.parsePool (fuel + 1) s1 scopes arena with
        | (.ok pool, s2, scopes2, arena2) =>
          match declarations.addPool pool with
          | .ok declarations2 => Parser.parseLoop fuel s2 declarations2 scopes2 arena2
          | .error e => (.err (.AstError e), s2, arena2)
        | (.err e, s2, _, arena2) => (.err e, s2, arena2)
        | (.panicked, s2, _, arena2) => (.panicked, s2, arena2)
        | (.oof, s2, _, arena2) => (.oof, s2, arena2)
      | .Identifier =>
        match Identifier.new arena (s1.lexeme token) with
        | (identifier, arena1) =>
          match Parser.parseTopLevelBinding (fuel + 1) identifier s1 scopes arena1 with
          | (.ok binding, s2, scopes2, arena2) =>
            let top := scopes2.top
            match (scopes2.getScope top).push binding with
            | .ok topScope =>
              Parser.parseLoop fuel s2 declarations (scopes2.setScope top topScope) arena2
            | .error e => (.err (.AstError e), s2, arena2)
          | (.err e, s2, _, arena2) => (.err e, s2, arena2)
          | (.panicked, s2, _, arena2) => (.panicked, s2, arena2)
          | (.oof, s2, _, arena2) => (.oof, s2, arena2)
      | .Newline => Parser.parseLoop fuel s1 declarations scopes arena
    | (.err e, s1) => (.err e, s1, arena)
    | (.panicked, s1) => (.panicked, s1, arena)
    | (.oof, s1) => (.oof, s1, arena)

/-- `Parser::new` followed by `Parser::parse`: the public entry point,
over a fresh lexer on the input buffer and the caller-supplied intern
table.  The fuel `input.length + 1` is sufficient (proved below). -/
def Parser.parse (input : List Byte) (arena : Table) : PRes File × Lexer × Table :=
  Parser.parseLoop (input.length + 1) (Lexer.new input) Declarations.new Scopes.new arena

/-! ## Auxiliary notions used by the statements and proofs -/

/-- Unread bytes of the lexer: the fuel measure. -/
def Lexer.remaining (s : Lexer) : Nat := s.input.length - s.curEnd

/-- Every parent pointer goes to a strictly earlier arena slot.  This
holds for everything `Scopes.new` / `Scopes.newScope` build (parents are
always the top scope, slot 0, itself parentless) and rules out the
cyclic parent graphs on which the Rust lookup loop would not return. -/
def Scopes.parentsDec (ss : Scopes) : Bool :=
  (List.range ss.arena.length).all fun j =>
    match (ss.getScope j).parent with
    | some p => p < j
    | none => true

/-- A sequence of `Table::insert` calls, returning the symbols in call
order next to the final table. -/
def Table.runInserts : List (List Byte) → Table → List Symbol × Table
  | [], t => ([], t)
  | c :: rest, t =>
    ((Table.insert t c).1 :: (Table.runInserts rest (Table.insert t c).2).1,
     (Table.runInserts rest (Table.insert t c).2).2)

/-- The distinct byte sequences of a list in first-occurrence order,
appended to an accumulator; `firstOccsFrom t.ids l` is the id vector of
the table after inserting every element of `l` into `t`. -/
def firstOccsFrom (acc : List (List Byte)) : List (List Byte) → List (List Byte)
  | [] => acc
  | c :: rest =>
    firstOccsFrom (if (idsLookup acc c).isSome then acc else acc ++ [c]) rest

/-! ## Scope evaluation (claim C6) -/

theorem evaluate_go (sc : Scope) (parts : List ValuePart) (acc : Blob) :
    parts.foldl
      (fun builder part =>
        match part with
        | .Text text => builder ++ text
        | .Variable var => builder ++ ((sc.get var).getD []))
      acc
    = acc ++ (parts.map (fun part =>
        match part with
        | .Text text => text
        | .Variable var => (sc.get var).getD [])).flatten := by
  induction parts generalizing acc with
  | nil => simp
  | cons p rest ih => cases p <;> simp [ih]

/-- C6: `Scope::evaluate` returns the concatenation, in part order, of
each text part verbatim and each variable part resolved through this
scope's own non-chained bindings, the empty byte sequence when unbound;
it is total (never an error), as on the concrete value referencing an
unbound variable, which evaluates to the empty byte sequence. -/
theorem C6_evaluate (sc : Scope) (v : AValue) :
    Scope.evaluate sc v
      = (v.value.parts.map (fun part =>
          match part with
          | .Text text => text
          | .Variable var => (sc.get var).getD [])).flatten
    ∧ Scope.evaluate (Scope.empty none) ⟨⟨[.Variable ⟨⟨0⟩⟩]⟩⟩ = [] := by
  constructor
  · unfold Scope.evaluate
    rw [evaluate_go]
    simp
  · decide

/-! ## Chained scope lookup (claim C5) -/

theorem parentsDec_lt {ss : Scopes} (h : ss.parentsDec = true) :
    ∀ j p, (ss.getScope j).parent = some p → p < j := by
  intro j p hp
  by_cases hj : j < ss.arena.length
  · have hall := List.all_eq_true.mp h _ (List.mem_range.mpr hj)
    rw [hp] at hall
    exact of_decide_eq_true hall
  · have hnone : ss.arena.get? j = none := List.get?_eq_none.mpr (Nat.le_of_not_lt hj)
    rw [Scopes.getScope, hnone] at hp
    simp [Scope.empty] at hp

theorem getChain_irrel {ss : Scopes}
    (hdec : ∀ j p, (ss.getScope j).parent = some p → p < j) :
    ∀ id f1 f2 n, id < f1 → id < f2 →
      Scopes.getChain f1 ss id n = Scopes.getChain f2 ss id n := by
  intro id
  induction id using Nat.strong_induction_on with
  | _ id ih =>
    intro f1 f2 n h1 h2
    cases f1 with
    | zero => omega
    | succ a =>
      cases f2 with
      | zero => omega
      | succ b =>
        simp only [Scopes.getChain]
        cases hg : (ss.getScope id).get n with
        | some v => simp [hg]
        | none =>
          cases hp : (ss.getScope id).parent with
          | none => simp [hg, hp]
          | some p =>
            have hpi := hdec id p hp
            simp only [hg, hp]
            exact ih p hpi a b n (by omega) (by omega)

/-- C5: `Scopes::get` checks the given scope itself first, else repeats
through the parent chain, absent only when the chain is exhausted; on a
concrete child scope allocated by `new_scope` below a top scope binding
the names 0 and 1, the name bound only in top is visible by chained
lookup from the child but not by the single-scope lookup on the child,
and the name bound in both resolves to the value of the child. -/
theorem C5_chained_lookup (ss : Scopes) (id : Nat) (n : Identifier)
    (hdec : ss.parentsDec = true) (hid : id ≤ ss.arena.length) :
    (Scopes.get ss id n =
      match (ss.getScope id).get n with
      | some v => some v
      | none =>
        match (ss.getScope id).parent with
        | some p => Scopes.get ss p n
        | none => none)
    ∧ (Scopes.newScope ⟨[⟨[(⟨⟨0⟩⟩, [120]), (⟨⟨1⟩⟩, [121])], none⟩], 0⟩ [⟨⟨⟨0⟩⟩, [122]⟩]
        = .ok (1, ⟨[⟨[(⟨⟨0⟩⟩, [120]), (⟨⟨1⟩⟩, [121])], none⟩,
                    ⟨[(⟨⟨0⟩⟩, [122])], some 0⟩], 0⟩)
      ∧ Scopes.get ⟨[⟨[(⟨⟨0⟩⟩, [120]), (⟨⟨1⟩⟩, [121])], none⟩,
                     ⟨[(⟨⟨0⟩⟩, [122])], some 0⟩], 0⟩ 1 ⟨⟨1⟩⟩ = some [121]
      ∧ Scope.get (Scopes.getScope ⟨[⟨[(⟨⟨0⟩⟩, [120]), (⟨⟨1⟩⟩, [121])], none⟩,
                     ⟨[(⟨⟨0⟩⟩, [122])], some 0⟩], 0⟩ 1) ⟨⟨1⟩⟩ = none
      ∧ Scopes.get ⟨[⟨[(⟨⟨0⟩⟩, [120]), (⟨⟨1⟩⟩, [121])], none⟩,
                     ⟨[(⟨⟨0⟩⟩, [122])], some 0⟩], 0⟩ 1 ⟨⟨0⟩⟩ = some [122]) := by
  constructor
  · have hd := parentsDec_lt hdec
    cases hg : (ss.getScope id).get n with
    | some v => simp [Scopes.get, Scopes.getChain, hg]
    | none =>
      cases hp : (ss.getScope id).parent with
      | none => simp [Scopes.get, Scopes.getChain, hg, hp]
      | some p =>
        have hpl : p < id := hd id p hp
        simp only [hg, hp]
        have hstep : Scopes.get ss id n
            = match Scopes.getChain ss.arena.length ss p n with
              | some r => r
              | none => none := by
          unfold Scopes.get
          simp only [Scopes.getChain, hg, hp]
        rw [hstep,
          getChain_irrel hd p ss.arena.length (ss.arena.length + 1) n
            (by omega) (by omega)]
        rfl
  · decide

/-! ## Scope allocation and duplicate bindings (claim C7) -/

theorem push_ok {sc sc1 : Scope} {b : Binding} (h : Scope.push sc b = .ok sc1) :
    sc1.bindings = sc.bindings ++ [(b.id, b.value)] ∧ sc1.parent = sc.parent := by
  unfold Scope.push at h
  split at h
  · exact absurd h (by simp)
  · cases h
    exact ⟨rfl, rfl⟩

theorem newFrom_ok {l : List Binding} :
    ∀ {sc sc' : Scope}, Scope.newFrom sc l = .ok sc' →
      sc'.bindings = sc.bindings ++ l.map (fun b => (b.id, b.value))
        ∧ sc'.parent = sc.parent := by
  induction l with
  | nil =>
    intro sc sc' h
    unfold Scope.newFrom at h
    cases h
    simp
  | cons b rest ih =>
    intro sc sc' h
    unfold Scope.newFrom at h
    cases hp : sc.push b with
    | error e => rw [hp] at h; exact absurd h (by simp)
    | ok sc1 =>
      rw [hp] at h
      obtain ⟨h1, h2⟩ := ih h
      obtain ⟨hb, hpar⟩ := push_ok hp
      rw [h1, hb, h2, hpar]
      simp

theorem newFrom_dup {l : List Binding} :
    ∀ {sc : Scope},
      ((∃ b ∈ l, sc.bindings.any (fun p => p.1 == b.id) = true)
        ∨ ¬ (l.map Binding.id).Nodup) →
      Scope.newFrom sc l = .error .DuplicateBinding := by
  induction l with
  | nil =>
    intro sc h
    rcases h with ⟨b, hb, _⟩ | h
    · exact absurd hb (by simp)
    · simp at h
  | cons b rest ih =>
    intro sc h
    unfold Scope.newFrom
    cases hp : sc.push b with
    | error e =>
      unfold Scope.push at hp
      split at hp
      · cases hp; rfl
      · exact absurd hp (by simp)
    | ok sc1 =>
      obtain ⟨hb1, _⟩ := push_ok hp
      apply ih
      have hbid : (sc.bindings.any fun p => p.1 == b.id) = false := by
        unfold Scope.push at hp
        split at hp
        · exact absurd hp (by simp)
        · rename_i hc
          simp only [Bool.not_eq_true] at hc
          exact hc
      rcases h with ⟨b', hb', hany⟩ | h
      · rcases List.mem_cons.mp hb' with rfl | hbmem
        · rw [hany] at hbid
          cases hbid
        · left
          refine ⟨b', hbmem, ?_⟩
          rw [hb1, List.any_append, hany]
          simp
      · rw [List.map_cons, List.nodup_cons] at h
        push_neg at h
        by_cases hmem : b.id ∈ rest.map Binding.id
        · left
          obtain ⟨b', hbmem, hbid2⟩ := List.mem_map.mp hmem
          refine ⟨b', hbmem, ?_⟩
          rw [hb1, List.any_append]
          simp [hbid2]
        · right
          exact h hmem

/-- C7: `Scopes::new_scope` allocates a fresh scope whose parent is
unconditionally the top scope, holding exactly the given bindings in
order; a duplicate name in the list fails with `DuplicateBinding`, as
does pushing an already-bound name into a scope (the top-level case);
concretely, both an indented block with two `x = ...` lines and a pair
of top-level `a = ...` lines make the whole parse fail with
`DuplicateBinding`. -/
theorem C7_new_scope (ss : Scopes) (bindings : List Binding) :
    (∀ id ss', Scopes.newScope ss bindings = .ok (id, ss') →
      id = ss.arena.length
        ∧ (ss'.getScope id).parent = some ss.top
        ∧ (ss'.getScope id).bindings = bindings.map (fun b => (b.id, b.value))
        ∧ ss'.top = ss.top)
    ∧ (¬ (bindings.map Binding.id).Nodup →
        Scopes.newScope ss bindings = .error .DuplicateBinding)
    ∧ (∀ (sc : Scope) (b : Binding) (v : Blob),
        sc.get b.id = some v → sc.push b = .error .DuplicateBinding)
    ∧ (Parser.parse (bs "rule r\n    x = 1\n    x = 2\n") Table.new).1
        = .err (.AstError .DuplicateBinding)
    ∧ (Parser.parse (bs "a = 1\na = 2\n") Table.new).1
        = .err (.AstError .DuplicateBinding) := by
  refine ⟨?_, ?_, ?_, by decide, by decide⟩
  · intro id ss' h
    unfold Scopes.newScope at h
    cases hn : Scope.new bindings (some ss.top) with
    | error e => rw [hn] at h; exact absurd h (by simp)
    | ok scope =>
      rw [hn] at h
      cases h
      obtain ⟨h1, h2⟩ := newFrom_ok hn
      refine ⟨rfl, ?_, ?_, rfl⟩
      · simp only [Scopes.getScope]
        rw [List.get?_concat_length]
        simpa [Scope.empty] using h2
      · simp only [Scopes.getScope]
        rw [List.get?_concat_length]
        simpa [Scope.empty] using h1
  · intro h
    unfold Scopes.newScope Scope.new
    rw [newFrom_dup (Or.inr h)]
  · intro sc b v h
    unfold Scope.get at h
    obtain ⟨pr, hfind, hmap⟩ := Option.map_eq_some'.mp h
    have hmem := List.mem_of_find?_eq_some hfind
    have hpr := List.find?_some hfind
    have hany : (sc.bindings.any fun p => p.1 == b.id) = true :=
      List.any_eq_true.mpr ⟨pr, hmem, hpr⟩
    unfold Scope.push
    simp [hany]

/-! ## Interning (claim C8) -/

theorem idsLookup_get {c : List Byte} :
    ∀ {l : List (List Byte)} {j : Nat}, idsLookup l c = some j → l.get? j = some c := by
  intro l
  induction l with
  | nil => intro j h; simp [idsLookup] at h
  | cons a rest ih =>
    intro j h
    unfold idsLookup at h
    split at h
    · rename_i heq
      cases h
      simpa using heq
    · obtain ⟨j0, hr, hj⟩ := Option.map_eq_some'.mp h
      subst hj
      simpa using ih hr

theorem idsLookup_append_some {c : List Byte} {l' : List (List Byte)} :
    ∀ {l : List (List Byte)} {j : Nat},
      idsLookup l c = some j → idsLookup (l ++ l') c = some j := by
  intro l
  induction l with
  | nil => intro j h; simp [idsLookup] at h
  | cons a rest ih =>
    intro j h
    simp only [List.cons_append]
    by_cases hac : a = c
    · simp [idsLookup, hac] at h ⊢
      exact h
    · simp only [idsLookup, if_neg hac] at h ⊢
      obtain ⟨j0, hr, hj⟩ := Option.map_eq_some'.mp h
      rw [ih hr]
      simpa using hj

theorem idsLookup_append_self {c : List Byte} :
    ∀ {l : List (List Byte)}, idsLookup l c = none →
      idsLookup (l ++ [c]) c = some l.length := by
  intro l
  induction l with
  | nil => intro _; simp [idsLookup]
  | cons a rest ih =>
    intro h
    simp only [List.cons_append]
    by_cases hac : a = c
    · simp [idsLookup, hac] at h
    · simp only [idsLookup, if_neg hac] at h ⊢
      obtain hr : idsLookup rest c = none := by
        cases hr : idsLookup rest c with
        | none => rfl
        | some j0 => rw [hr] at h; simp at h
      rw [ih hr]
      simp

theorem runInserts_ids_ext (l : List (List Byte)) :
    ∀ t : Table, ∃ ext, (Table.runInserts l t).2.ids = t.ids ++ ext := by
  induction l with
  | nil => intro t; exact ⟨[], by simp [Table.runInserts]⟩
  | cons c rest ih =>
    intro t
    unfold Table.runInserts Table.insert
    cases hl : idsLookup t.ids c with
    | some i =>
      obtain ⟨ext, he⟩ := ih t
      exact ⟨ext, by simpa using he⟩
    | none =>
      obtain ⟨ext, he⟩ := ih ⟨t.ids ++ [c]⟩
      refine ⟨[c] ++ ext, ?_⟩
      simp only []
      rw [he]
      simp

theorem runInserts_syms (l : List (List Byte)) :
    ∀ (t : Table) (i : Nat) (c : List Byte), l.get? i = some c →
      ∃ j, (Table.runInserts l t).1.get? i = some ⟨j⟩
        ∧ idsLookup (Table.runInserts l t).2.ids c = some j := by
  induction l with
  | nil => intro t i c h; simp at h
  | cons c0 rest ih =>
    intro t i c h
    cases i with
    | zero =>
      have hc : c0 = c := by simpa using h
      subst hc
      cases hl : idsLookup t.ids c0 with
      | some j =>
        refine ⟨j, ?_, ?_⟩
        · unfold Table.runInserts Table.insert
          simp [hl]
        · obtain ⟨ext, he⟩ := runInserts_ids_ext rest t
          unfold Table.runInserts Table.insert
          simp only [hl]
          rw [he]
          exact idsLookup_append_some hl
      | none =>
        refine ⟨t.ids.length, ?_, ?_⟩
        · unfold Table.runInserts Table.insert
          simp [hl]
        · obtain ⟨ext, he⟩ := runInserts_ids_ext rest ⟨t.ids ++ [c0]⟩
          unfold Table.runInserts Table.insert
          simp only [hl]
          rw [he]
          exact @idsLookup_append_some _ ext _ _ (idsLookup_append_self hl)
    | succ i0 =>
      have h0 : rest.get? i0 = some c := by simpa using h
      cases hl : idsLookup t.ids c0 with
      | some j =>
        obtain ⟨j1, hg, hlook⟩ := ih t i0 c h0
        refine ⟨j1, ?_, ?_⟩
        · unfold Table.runInserts Table.insert
          simp only [hl]
          simpa using hg
        · unfold Table.runInserts Table.insert
          simp only [hl]
          simpa using hlook
      | none =>
        obtain ⟨j1, hg, hlook⟩ := ih ⟨t.ids ++ [c0]⟩ i0 c h0
        refine ⟨j1, ?_, ?_⟩
        · unfold Table.runInserts Table.insert
          simp only [hl]
          simpa using hg
        · unfold Table.runInserts Table.insert
          simp only [hl]
          simpa using hlook

theorem runInserts_append (l1 l2 : List (List Byte)) :
    ∀ t, Table.runInserts (l1 ++ l2) t
      = ((Table.runInserts l1 t).1
           ++ (Table.runInserts l2 (Table.runInserts l1 t).2).1,
         (Table.runInserts l2 (Table.runInserts l1 t).2).2) := by
  induction l1 with
  | nil => intro t; simp [Table.runInserts]
  | cons c rest ih =>
    intro t
    simp only [List.cons_append, Table.runInserts, List.append_eq]
    rw [ih (Table.insert t c).2]

theorem runInserts_length (l : List (List Byte)) :
    ∀ t, (Table.runInserts l t).1.length = l.length := by
  induction l with
  | nil => intro t; simp [Table.runInserts]
  | cons c rest ih =>
    intro t
    simp only [Table.runInserts, List.length_cons]
    rw [ih (Table.insert t c).2]

theorem runInserts_ids_firstOccs (l : List (List Byte)) :
    ∀ t, (Table.runInserts l t).2.ids = firstOccsFrom t.ids l := by
  induction l with
  | nil => intro t; simp [Table.runInserts, firstOccsFrom]
  | cons c rest ih =>
    intro t
    unfold Table.runInserts Table.insert firstOccsFrom
    cases hl : idsLookup t.ids c with
    | some i => simpa [hl] using ih t
    | none => simpa [hl] using ih ⟨t.ids ++ [c]⟩

/-- C8: across any sequence of `Table::insert` calls starting from an
empty table, byte-equal contents receive the same Symbol and distinct
contents distinct Symbols, and the Symbol of a first-occurrence request
is the count of distinct contents seen before it (ordinals follow
first-occurrence order). -/
theorem C8_interning (reqs : List (List Byte)) (i j : Nat) (ci cj : List Byte)
    (si sj : Symbol)
    (hci : reqs.get? i = some ci) (hcj : reqs.get? j = some cj)
    (hsi : (Table.runInserts reqs Table.new).1.get? i = some si)
    (hsj : (Table.runInserts reqs Table.new).1.get? j = some sj) :
    (ci = cj ↔ si = sj)
    ∧ (idsLookup (firstOccsFrom [] (reqs.take i)) ci = none →
        si = ⟨(firstOccsFrom [] (reqs.take i)).length⟩) := by
  obtain ⟨a, hga, hla⟩ := runInserts_syms reqs Table.new i ci hci
  obtain ⟨b, hgb, hlb⟩ := runInserts_syms reqs Table.new j cj hcj
  obtain rfl : si = ⟨a⟩ := by rw [hga] at hsi; exact (Option.some.inj hsi).symm
  obtain rfl : sj = ⟨b⟩ := by rw [hgb] at hsj; exact (Option.some.inj hsj).symm
  constructor
  · constructor
    · intro hcc
      subst hcc
      rw [hla] at hlb
      simpa using hlb
    · intro hss
      obtain rfl : a = b := by simpa using hss
      have h1 := idsLookup_get hla
      have h2 := idsLookup_get hlb
      rw [h1] at h2
      exact Option.some.inj h2
  · intro hnone
    have hlen : i < reqs.length := by
      by_contra hge
      rw [List.get?_eq_none.mpr (Nat.le_of_not_lt hge)] at hci
      cases hci
    have hsplit : reqs = reqs.take i ++ (ci :: reqs.drop (i + 1)) := by
      conv_lhs => rw [← List.take_append_drop i reqs]
      congr 1
      rw [List.drop_eq_getElem_cons hlen]
      congr 1
      have := List.get?_eq_getElem? reqs i
      rw [hci] at this
      exact (Option.some.inj (List.getElem?_eq_getElem hlen ▸ this)).symm
    have hfo : (Table.runInserts (reqs.take i) Table.new).2.ids
        = firstOccsFrom [] (reqs.take i) := by
      simpa [Table.new] using runInserts_ids_firstOccs (reqs.take i) Table.new
    have htl : (Table.runInserts (reqs.take i) Table.new).1.length = i := by
      rw [runInserts_length]
      exact List.length_take_of_le (Nat.le_of_lt hlen)
    have hthis := hsi
    rw [hsplit] at hthis
    rw [runInserts_append] at hthis
    rw [List.get?_append_right (by omega)] at hthis
    rw [htl, Nat.sub_self] at hthis
    have hnone2 : idsLookup (Table.runInserts (reqs.take i) Table.new).2.ids ci = none := by
      rw [hfo]
      exact hnone
    simp only [Table.runInserts, List.get?, Table.insert, hnone2] at hthis
    rw [hfo] at hthis
    exact (Option.some.inj hthis).symm

/-! ## Value scanning of variable references (claim C10) -/

theorem peek_of_drop {s : Lexer} {c : Byte} {l : List Byte}
    (h : s.input.drop s.curEnd = c :: l) : s.peek = some c := by
  unfold Lexer.peek
  have hg : (s.input.drop s.curEnd).get? 0 = s.input.get? (s.curEnd + 0) :=
    List.get?_drop s.input s.curEnd 0
  rw [h] at hg
  simpa using hg.symm

theorem drop_advance {s : Lexer} {c : Byte} {l : List Byte}
    (h : s.input.drop s.curEnd = c :: l) :
    s.advance.input.drop s.advance.curEnd = l := by
  show s.input.drop (s.curEnd + 1) = l
  rw [← List.tail_drop, h]
  rfl

/-- C10: a bare `$name` variable reference accepts only bare-identifier
bytes (letters, digits, underscore, hyphen — not the dot), while a
braced one additionally accepts the dot: wherever it occurs in a value,
`$a.b` scans to a Variable part named `a` followed by literal Text
parts for the dot and the `b`, while a braced reference to `a.b` scans
to one single Variable part named `a.b`. -/
theorem C10_variable_names (pre rest : List Byte) (cs L : Nat) (arena : Table) (k : Nat) :
    (Lexer.lexValue (k + 5) ⟨pre ++ [36, 97, 46, 98, 10] ++ rest, cs, pre.length, L⟩ arena).1
      = .ok (some ⟨[.Variable (Identifier.new arena [97]).1, .Text [46], .Text [98]]⟩)
    ∧ (Lexer.lexValue (k + 5) ⟨pre ++ [36, 123, 97, 46, 98, 125, 10] ++ rest, cs,
         pre.length, L⟩ arena).1
      = .ok (some ⟨[.Variable (Identifier.new arena [97, 46, 98]).1]⟩)
    ∧ is_bare_identifier 46 = false
    ∧ is_identifier 46 = true := by
  refine ⟨?_, ?_, by decide, by decide⟩
  · set s0 : Lexer := ⟨pre ++ [36, 97, 46, 98, 10] ++ rest, cs, pre.length, L⟩ with hs0
    have hd0 : s0.input.drop s0.curEnd = 36 :: (97 :: 46 :: 98 :: 10 :: rest) := by
      rw [hs0]
      simpa using List.drop_left pre ([36, 97, 46, 98, 10] ++ rest)
    have hd1 := drop_advance hd0
    have hd2 := drop_advance hd1
    have hd3 := drop_advance hd2
    have hd4 := drop_advance hd3
    have hp0 := peek_of_drop hd0
    have hp1 := peek_of_drop hd1
    have hp2 := peek_of_drop hd2
    have hp3 := peek_of_drop hd3
    have hp4 := peek_of_drop hd4
    unfold Lexer.lexValue
    rw [show k + 5 = (k + 4) + 1 by omega]
    rw [Lexer.lexValueLoop, hp0]
    simp only [Lexer.lexDollar, hp1]
    simp only [is_bare_identifier]
    norm_num
    rw [Lexer.lexBareLoop, hp2]
    simp only [is_bare_identifier]
    norm_num
    rw [show k + 4 = (k + 3) + 1 by omega]
    rw [Lexer.lexValueLoop, hp2]
    norm_num
    rw [show k + 3 = (k + 2) + 1 by omega]
    rw [Lexer.lexValueLoop, hp3]
    norm_num
    rw [show k + 2 = (k + 1) + 1 by omega]
    rw [Lexer.lexValueLoop, hp4]
    simp [Value.new]
  · set s0 : Lexer := ⟨pre ++ [36, 123, 97, 46, 98, 125, 10] ++ rest, cs, pre.length, L⟩
      with hs0
    have hd0 : s0.input.drop s0.curEnd = 36 :: (123 :: 97 :: 46 :: 98 :: 125 :: 10 :: rest) := by
      rw [hs0]
      simpa using List.drop_left pre ([36, 123, 97, 46, 98, 125, 10] ++ rest)
    have hd1 := drop_advance hd0
    have hd2 := drop_advance hd1
    have hd3 := drop_advance hd2
    have hd4 := drop_advance hd3
    have hd5 := drop_advance hd4
    have hd6 := drop_advance hd5
    have hp0 := peek_of_drop hd0
    have hp1 := peek_of_drop hd1
    have hp2 := peek_of_drop hd2
    have hp3 := peek_of_drop hd3
    have hp4 := peek_of_drop hd4
    have hp5 := peek_of_drop hd5
    have hp6 := peek_of_drop hd6
    unfold Lexer.lexValue
    rw [show k + 5 = (k + 4) + 1 by omega]
    rw [Lexer.lexValueLoop, hp0]
    simp only [Lexer.lexDollar, hp1]
    norm_num
    rw [Lexer.lexBracedLoop, hp2]
    simp only [is_identifier, is_bare_identifier]
    norm_num
    rw [show k + 4 = (k + 3) + 1 by omega]
    rw [Lexer.lexBracedLoop, hp3]
    simp only [is_identifier, is_bare_identifier]
    norm_num
    rw [show k + 3 = (k + 2) + 1 by omega]
    rw [Lexer.lexBracedLoop, hp4]
    simp only [is_identifier, is_bare_identifier]
    norm_num
    rw [show k + 2 = (k + 1) + 1 by omega]
    rw [Lexer.lexBracedLoop, hp5]
    simp only [is_identifier, is_bare_identifier]
    norm_num
    rw [Lexer.lexValueLoop, hp6]
    simp [Value.new]

/-! ## Immediate evaluation of bindings against the top scope (claim C1) -/

/-- C1: whenever a binding line lexes as identifier, `=`, value,
newline, the stored `Binding` holds exactly the evaluation of the lexed
value against the top-level scope (its own non-chained bindings as they
stand at that moment), on both binding paths: `parse_binding` for
indented lines (which also leaves the scope store untouched) and
`parse_top_level_binding` for top-level lines; in particular, in
`rule r` with siblings `a = x` then `b = $a`, the stored value of `b`
is the empty byte sequence, not the value of its sibling `a`, whereas
at top level `b = $a` after `a = 1` stores the byte value `1`, because
the earlier top-level binding is already in the top scope at that
moment. -/
theorem C1_binding_eval (fuel : Nat) (s s1 s2 s3 s4 : Lexer) (scopes : Scopes)
    (arena arena1 arena2 : Table) (identifier : Identifier)
    (eqTok nlTok : Token TokenKind) (v : AValue)
    (h1 : Parser.parseIdentifier fuel s arena = (.ok identifier, s1, arena1))
    (h2 : Parser.consume fuel .Equal s1 = (.ok eqTok, s2))
    (h3 : Parser.parseValue fuel s2 arena1 = (.ok (some v), s3, arena2))
    (h4 : Parser.consume fuel .Newline s3 = (.ok nlTok, s4)) :
    Parser.parseBinding fuel s scopes arena
      = (.ok ⟨identifier, (scopes.getScope scopes.top).evaluate v⟩, s4, scopes, arena2)
    ∧ (∀ (fuelT : Nat) (t t1 t2 t3 : Lexer) (scopesT : Scopes)
         (arenaT arenaT1 : Table) (idT : Identifier)
         (eqT nlT : Token TokenKind) (vT : AValue),
        Parser.consume fuelT .Equal t = (.ok eqT, t1) →
        Parser.parseValue fuelT t1 arenaT = (.ok (some vT), t2, arenaT1) →
        Parser.consume fuelT .Newline t2 = (.ok nlT, t3) →
        Parser.parseTopLevelBinding fuelT idT t scopesT arenaT
          = (.ok ⟨idT, (scopesT.getScope scopesT.top).evaluate vT⟩, t3, scopesT, arenaT1))
    ∧ (Parser.parse (bs "rule r\n    a = x\n    b = $a\n") Table.new).1
        = .ok (File.new ⟨[.Rule ⟨⟨⟨0⟩⟩, 1⟩]⟩
            ⟨[Scope.empty none, ⟨[(⟨⟨1⟩⟩, [120]), (⟨⟨2⟩⟩, [])], some 0⟩], 0⟩)
    ∧ (Parser.parse (bs "a = 1\nb = $a\n") Table.new).1
        = .ok (File.new ⟨[]⟩
            ⟨[⟨[(⟨⟨0⟩⟩, [49]), (⟨⟨1⟩⟩, [49])], none⟩], 0⟩) := by
  refine ⟨?_, ?_, ?_, ?_⟩
  · unfold Parser.parseBinding
    rw [h1]
    dsimp only
    rw [h2]
    dsimp only
    rw [h3]
    dsimp only
    rw [h4]
  · intro fuelT t t1 t2 t3 scopesT arenaT arenaT1 idT eqT nlT vT g1 g2 g3
    unfold Parser.parseTopLevelBinding
    rw [g1]
    dsimp only
    rw [g2]
    dsimp only
    rw [g3]
  · decide
  · decide

theorem C1_binding_eval_witness :
    (Parser.parseBinding 7 (Lexer.new (bs "x = y\n")) Scopes.new Table.new
      = (.ok ⟨⟨⟨0⟩⟩, ((Scopes.new).getScope (Scopes.new).top).evaluate ⟨⟨[.Text [121]]⟩⟩⟩,
         ⟨bs "x = y\n", 6, 6, 2⟩, Scopes.new, ⟨[[120]]⟩)
    ∧ Parser.parseTopLevelBinding 5 ⟨⟨0⟩⟩ (Lexer.new (bs "= y\n")) Scopes.new Table.new
      = (.ok ⟨⟨⟨0⟩⟩, ((Scopes.new).getScope (Scopes.new).top).evaluate ⟨⟨[.Text [121]]⟩⟩⟩,
         ⟨bs "= y\n", 4, 4, 2⟩, Scopes.new, ⟨[]⟩))
    ∧ (Parser.parse (bs "rule r\n    a = x\n    b = $a\n") Table.new).1
        = .ok (File.new ⟨[.Rule ⟨⟨⟨0⟩⟩, 1⟩]⟩
            ⟨[Scope.empty none, ⟨[(⟨⟨1⟩⟩, [120]), (⟨⟨2⟩⟩, [])], some 0⟩], 0⟩)
    ∧ (Parser.parse (bs "a = 1\nb = $a\n") Table.new).1
        = .ok (File.new ⟨[]⟩
            ⟨[⟨[(⟨⟨0⟩⟩, [49]), (⟨⟨1⟩⟩, [49])], none⟩], 0⟩) := by
  have h := C1_binding_eval 7 (Lexer.new (bs "x = y\n"))
    ⟨bs "x = y\n", 2, 2, 1⟩ ⟨bs "x = y\n", 4, 4, 1⟩ ⟨bs "x = y\n", 5, 5, 1⟩
    ⟨bs "x = y\n", 6, 6, 2⟩ Scopes.new Table.new ⟨[[120]]⟩ ⟨[[120]]⟩ ⟨⟨0⟩⟩
    ⟨.Equal, ⟨(2, 3), 1⟩⟩ ⟨.Newline, ⟨(5, 6), 1⟩⟩ ⟨⟨[.Text [121]]⟩⟩
    (by decide) (by decide) (by decide) (by decide)
  obtain ⟨hb, ht, hn, hl⟩ := h
  exact ⟨⟨hb, ht 5 (Lexer.new (bs "= y\n")) ⟨bs "= y\n", 2, 2, 1⟩ ⟨bs "= y\n", 3, 3, 1⟩
    ⟨bs "= y\n", 4, 4, 2⟩ Scopes.new Table.new ⟨[]⟩ ⟨⟨0⟩⟩
    ⟨.Equal, ⟨(0, 1), 1⟩⟩ ⟨.Newline, ⟨(3, 4), 1⟩⟩ ⟨⟨[.Text [121]]⟩⟩
    (by decide) (by decide) (by decide)⟩, hn, hl⟩

/-! ## The build-line alternatives after the inputs (claim C3) -/

/-- C3: after the rule name and the input targets of a build line
(the `parse_build` block choosing the newline), exactly the four
alternatives are accepted — Newline; `|` implicit inputs Newline; `|`
implicit inputs `||` order inputs Newline; `||` order inputs Newline —
and any other token at the two decision points fails with
`UnexpectedToken` (end of input with `UnexpectedEof`); concretely
`build output : rulename :\n` fails the whole parse with
`UnexpectedToken Colon`. -/
theorem C3_build_decision (fuel : Nat) (s : Lexer) (arena : Table) :
    (∀ s', Lexer.lex fuel s = (.ok none, s') →
      Parser.parseBuildNewline fuel s arena = (.err .UnexpectedEof, s', arena))
    ∧ (∀ tok s', Lexer.lex fuel s = (.ok (some tok), s') → tok.kind = .Newline →
      Parser.parseBuildNewline fuel s arena = (.ok ([], []), s', arena))
    ∧ (∀ tok s', Lexer.lex fuel s = (.ok (some tok), s') →
        tok.kind ≠ .Newline → tok.kind ≠ .Pipe → tok.kind ≠ .PipePipe →
      Parser.parseBuildNewline fuel s arena = (.err (.UnexpectedToken tok.kind), s', arena))
    ∧ (∀ tok s' impl s2 arena2 s3,
        Lexer.lex fuel s = (.ok (some tok), s') → tok.kind = .Pipe →
        Parser.parseTargets fuel s' arena = (.ok impl, s2, arena2) →
        Lexer.lex fuel s2 = (.ok none, s3) →
      Parser.parseBuildNewline fuel s arena = (.err .UnexpectedEof, s3, arena2))
    ∧ (∀ tok s' impl s2 arena2 tok2 s3,
        Lexer.lex fuel s = (.ok (some tok), s') → tok.kind = .Pipe →
        Parser.parseTargets fuel s' arena = (.ok impl, s2, arena2) →
        Lexer.lex fuel s2 = (.ok (some tok2), s3) → tok2.kind = .Newline →
      Parser.parseBuildNewline fuel s arena = (.ok (impl, []), s3, arena2))
    ∧ (∀ tok s' impl s2 arena2 tok2 s3,
        Lexer.lex fuel s = (.ok (some tok), s') → tok.kind = .Pipe →
        Parser.parseTargets fuel s' arena = (.ok impl, s2, arena2) →
        Lexer.lex fuel s2 = (.ok (some tok2), s3) →
        tok2.kind ≠ .Newline → tok2.kind ≠ .PipePipe →
      Parser.parseBuildNewline fuel s arena
        = (.err (.UnexpectedToken tok2.kind), s3, arena2))
    ∧ (∀ tok s' impl s2 arena2 tok2 s3 ord s4 arena4 nl s5,
        Lexer.lex fuel s = (.ok (some tok), s') → tok.kind = .Pipe →
        Parser.parseTargets fuel s' arena = (.ok impl, s2, arena2) →
        Lexer.lex fuel s2 = (.ok (some tok2), s3) → tok2.kind = .PipePipe →
        Parser.parseTargets fuel s3 arena2 = (.ok ord, s4, arena4) →
        Parser.consume fuel .Newline s4 = (.ok nl, s5) →
      Parser.parseBuildNewline fuel s arena = (.ok (impl, ord), s5, arena4))
    ∧ (∀ tok s' ord s2 arena2 nl s3,
        Lexer.lex fuel s = (.ok (some tok), s') → tok.kind = .PipePipe →
        Parser.parseTargets fuel s' arena = (.ok ord, s2, arena2) →
        Parser.consume fuel .Newline s2 = (.ok nl, s3) →
      Parser.parseBuildNewline fuel s arena = (.ok ([], ord), s3, arena2))
    ∧ (Parser.parse (bs "build output : rulename :\n") Table.new).1
        = .err (.UnexpectedToken .Colon) := by
  refine ⟨?_, ?_, ?_, ?_, ?_, ?_, ?_, ?_, by decide⟩
  · intro s' hlex
    unfold Parser.parseBuildNewline Parser.advance
    rw [hlex]
    rfl
  · intro tok s' hlex hk
    unfold Parser.parseBuildNewline Parser.advance
    rw [hlex]
    dsimp only [PRes.ofLex]
    rw [hk]
  · intro tok s' hlex h1 h2 h3
    unfold Parser.parseBuildNewline Parser.advance
    rw [hlex]
    dsimp only [PRes.ofLex]
    cases hk : tok.kind
    all_goals simp_all
  · intro tok s' impl s2 arena2 s3 hlex hk hts hlex2
    unfold Parser.parseBuildNewline Parser.advance
    rw [hlex]
    dsimp only [PRes.ofLex]
    rw [hk]
    dsimp only
    rw [hts]
    dsimp only
    rw [hlex2]
  · intro tok s' impl s2 arena2 tok2 s3 hlex hk hts hlex2 hk2
    unfold Parser.parseBuildNewline Parser.advance
    rw [hlex]
    dsimp only [PRes.ofLex]
    rw [hk]
    dsimp only
    rw [hts]
    dsimp only
    rw [hlex2]
    dsimp only [PRes.ofLex]
    rw [hk2]
  · intro tok s' impl s2 arena2 tok2 s3 hlex hk hts hlex2 h1 h2
    unfold Parser.parseBuildNewline Parser.advance
    rw [hlex]
    dsimp only [PRes.ofLex]
    rw [hk]
    dsimp only
    rw [hts]
    dsimp only
    rw [hlex2]
    dsimp only [PRes.ofLex]
    cases hk2 : tok2.kind
    all_goals simp_all
  · intro tok s' impl s2 arena2 tok2 s3 ord s4 arena4 nl s5 hlex hk hts hlex2 hk2 hts2 hcons
    unfold Parser.parseBuildNewline Parser.advance
    rw [hlex]
    dsimp only [PRes.ofLex]
    rw [hk]
    dsimp only
    rw [hts]
    dsimp only
    rw [hlex2]
    dsimp only [PRes.ofLex]
    rw [hk2]
    dsimp only
    rw [hts2]
    dsimp only
    rw [hcons]
  · intro tok s' ord s2 arena2 nl s3 hlex hk hts hcons
    unfold Parser.parseBuildNewline Parser.advance
    rw [hlex]
    dsimp only [PRes.ofLex]
    rw [hk]
    dsimp only
    rw [hts]
    dsimp only
    rw [hcons]

theorem C3_build_decision_witness :
    Parser.parseBuildNewline 2 (Lexer.new [58]) Table.new
      = (.err (.UnexpectedToken .Colon), ⟨[58], 1, 1, 1⟩, Table.new) :=
  ((C3_build_decision 2 (Lexer.new [58]) Table.new).2.2.1
    ⟨.Colon, ⟨(0, 1), 1⟩⟩ ⟨[58], 1, 1, 1⟩ (by decide) (by decide) (by decide) (by decide))

/-! ## Pool depth validation (claim C4) -/

/-- C4 (amended): a pool declaration parses successfully exactly when
its indented scope holds one single binding, named depth, whose
evaluated value is empty (depth 0) or is accepted by the usize parser
— an optional leading ASCII `+` then one or more ASCII decimal digits
with value at most `2^64 - 1`; every other shape fails with
`PoolDepthInvalid`; concretely `pool mypool` with `depth = 23` parses
to a pool of depth 23. -/
theorem C4_pool_depth (fuel : Nat) (s s1 s2 s3 : Lexer) (scopes scopes3 : Scopes)
    (arena arena1 arena3 : Table) (name : Identifier) (nl : Token TokenKind)
    (scope_id : Nat)
    (h1 : Parser.parseIdentifier fuel s arena = (.ok name, s1, arena1))
    (h2 : Parser.consume fuel .Newline s1 = (.ok nl, s2))
    (h3 : Parser.parseScope fuel s2 scopes arena1 = (.ok scope_id, s3, scopes3, arena3)) :
    ((scopes3.getScope scope_id).size ≠ 1 →
      Parser.parsePool fuel s scopes arena = (.err .PoolDepthInvalid, s3, scopes3, arena3))
    ∧ ((scopes3.getScope scope_id).size = 1 →
        Parser.parsePool fuel s scopes arena
          = (match (scopes3.getScope scope_id).get
                (Identifier.new arena3 (bs "depth")).1 with
             | none => (.err .PoolDepthInvalid, s3, scopes3,
                 (Identifier.new arena3 (bs "depth")).2)
             | some depth =>
               if depth = [] then (.ok ⟨name, 0⟩, s3, scopes3,
                 (Identifier.new arena3 (bs "depth")).2)
               else
                 match parseUsize depth with
                 | none => (.err .PoolDepthInvalid, s3, scopes3,
                     (Identifier.new arena3 (bs "depth")).2)
                 | some d => (.ok ⟨name, d⟩, s3, scopes3,
                     (Identifier.new arena3 (bs "depth")).2)))
    ∧ (Parser.parse (bs "pool mypool\n    depth = 23\n") Table.new).1
        = .ok (File.new ⟨[.Pool ⟨⟨⟨0⟩⟩, 23⟩]⟩
            ⟨[Scope.empty none, ⟨[(⟨⟨1⟩⟩, [50, 51])], some 0⟩], 0⟩) := by
  refine ⟨?_, ?_, by decide⟩
  · intro hsz
    unfold Parser.parsePool
    rw [h1]
    dsimp only
    rw [h2]
    dsimp only
    rw [h3]
    dsimp only
    rw [if_pos hsz]
  · intro hsz
    unfold Parser.parsePool
    rw [h1]
    dsimp only
    rw [h2]
    dsimp only
    rw [h3]
    dsimp only
    rw [if_neg (by rw [hsz]; exact fun hc => hc rfl)]

theorem C4_pool_depth_witness :
    Parser.parsePool 28 (Lexer.new (bs "mypool\n    depth = 23\n")) Scopes.new Table.new
      = (.ok ⟨⟨⟨0⟩⟩, 23⟩, ⟨bs "mypool\n    depth = 23\n", 22, 22, 3⟩,
         ⟨[Scope.empty none, ⟨[(⟨⟨1⟩⟩, [50, 51])], some 0⟩], 0⟩, ⟨[bs "mypool", bs "depth"]⟩) := by
  have h := (C4_pool_depth 28 (Lexer.new (bs "mypool\n    depth = 23\n"))
    ⟨bs "mypool\n    depth = 23\n", 6, 6, 1⟩ ⟨bs "mypool\n    depth = 23\n", 7, 7, 2⟩
    ⟨bs "mypool\n    depth = 23\n", 22, 22, 3⟩ Scopes.new
    ⟨[Scope.empty none, ⟨[(⟨⟨1⟩⟩, [50, 51])], some 0⟩], 0⟩ Table.new
    ⟨[bs "mypool"]⟩ ⟨[bs "mypool", bs "depth"]⟩ ⟨⟨0⟩⟩ ⟨.Newline, ⟨(6, 7), 1⟩⟩ 1
    (by decide) (by decide) (by decide)).2.1 (by decide)
  rw [h]
  decide

/-- C4 counterexample to the claim as frozen: the evaluated depth value
`+1` is neither empty nor a plain base-10 digit literal — it carries a
sign byte — yet the pool parses successfully (to depth 1) instead of
failing with `PoolDepthInvalid`; conversely the plain 20-digit base-10
literal for `2^64` does not yield that integer but fails with
`PoolDepthInvalid` (usize overflow). -/
theorem C4_pool_depth_cex :
    (Parser.parse (bs "pool p\n    depth = +1\n") Table.new).1
      = .ok (File.new ⟨[.Pool ⟨⟨⟨0⟩⟩, 1⟩]⟩
          ⟨[Scope.empty none, ⟨[(⟨⟨1⟩⟩, [43, 49])], some 0⟩], 0⟩)
    ∧ (43 ∈ bs "+1" ∧ ¬ (48 ≤ (43 : Nat) ∧ (43 : Nat) ≤ 57) ∧ bs "+1" ≠ [])
    ∧ (Parser.parse (bs "pool q\n    depth = 18446744073709551616\n") Table.new).1
        = .err .PoolDepthInvalid := by
  refine ⟨by decide, by decide, by decide⟩

/-! ## The line counter (claim C9) -/

theorem skipWhitespace_line : ∀ (fuel : Nat) (s s' : Lexer),
    Lexer.skipWhitespace fuel s = some s' → s'.line = s.line := by
  intro fuel
  induction fuel with
  | zero => intro s s' h; simp [Lexer.skipWhitespace] at h
  | succ n ih =>
    intro s s' h
    unfold Lexer.skipWhitespace at h
    split at h
    · exact ih s.advance s' h
    · split at h
      · exact ih s.advance.advance s' h
      · exact ih s.advance.advance s' h
      · split at h
        · exact ih s.advance.advance.advance s' h
        · cases h; rfl
      · cases h; rfl
    · cases h; rfl

theorem token_line (s : Lexer) (kind : TokenKind) :
    (s.token kind).1 = Lexed.Token ⟨kind, ⟨(s.curStart, s.curEnd), s.line⟩⟩
    ∧ (s.token kind).2.line = (if kind = TokenKind.Newline then s.line + 1 else s.line) := by
  unfold Lexer.token Lexer.startNextToken
  split <;> simp_all

theorem lexIdentLoop_line : ∀ (fuel : Nat) (s s' : Lexer),
    Lexer.lexIdentLoop fuel s = some s' → s'.line = s.line := by
  intro fuel
  induction fuel with
  | zero => intro s s' h; simp [Lexer.lexIdentLoop] at h
  | succ n ih =>
    intro s s' h
    unfold Lexer.lexIdentLoop at h
    split at h
    · split at h
      · exact ih s.advance s' h
      · cases h; rfl
    · cases h; rfl

theorem lexSpacesLoop_line : ∀ (fuel : Nat) (s s' : Lexer),
    Lexer.lexSpacesLoop fuel s = some s' → s'.line = s.line := by
  intro fuel
  induction fuel with
  | zero => intro s s' h; simp [Lexer.lexSpacesLoop] at h
  | succ n ih =>
    intro s s' h
    unfold Lexer.lexSpacesLoop at h
    split at h
    · exact ih s.advance s' h
    · cases h; rfl

theorem lexCommentLoop_line : ∀ (fuel : Nat) (s s' : Lexer),
    Lexer.lexCommentLoop fuel s = (.ok (), s') → s'.line = s.line + 1 := by
  intro fuel
  induction fuel with
  | zero => intro s s' h; simp [Lexer.lexCommentLoop] at h
  | succ n ih =>
    intro s s' h
    unfold Lexer.lexCommentLoop at h
    split at h
    · cases h; rfl
    · simp at h
    · exact ih s.advance s' h

theorem lexOne_line (fuel : Nat) (s : Lexer) :
    (∀ t s2, Lexer.lexOne fuel s = (.ok (.Token t), s2) →
      t.location.line = s.line
      ∧ s2.line = (if t.kind = TokenKind.Newline then s.line + 1 else s.line))
    ∧ (∀ s2, Lexer.lexOne fuel s = (.ok .Comment, s2) → s2.line = s.line + 1)
    ∧ (∀ s2, Lexer.lexOne fuel s = (.ok .Eof, s2) → s2.line = s.line) := by
  refine ⟨?_, ?_, ?_⟩
  · intro t s2 h
    unfold Lexer.lexOne at h
    repeat' split at h
    all_goals try simp at h
    all_goals (
      obtain ⟨h1, h2⟩ := h
      subst h2)
    · rename_i x l s1 heq
      subst h1
      have h3 := (token_line s.advance TokenKind.Equal).1
      have h4 := (token_line s.advance TokenKind.Equal).2
      rw [heq] at h3 h4
      dsimp only at h3 h4
      cases h3
      exact ⟨by rfl, by simp [h4, Lexer.advance]⟩
    · rename_i x l s1 heq
      subst h1
      have h3 := (token_line s.advance TokenKind.Colon).1
      have h4 := (token_line s.advance TokenKind.Colon).2
      rw [heq] at h3 h4
      dsimp only at h3 h4
      cases h3
      exact ⟨by rfl, by simp [h4, Lexer.advance]⟩
    · rename_i x l s1 heq
      subst h1
      have h3 := (token_line s.advance.advance TokenKind.PipePipe).1
      have h4 := (token_line s.advance.advance TokenKind.PipePipe).2
      rw [heq] at h3 h4
      dsimp only at h3 h4
      cases h3
      exact ⟨by rfl, by simp [h4, Lexer.advance]⟩
    · rename_i x l s1 heq
      subst h1
      have h3 := (token_line s.advance TokenKind.Pipe).1
      have h4 := (token_line s.advance TokenKind.Pipe).2
      rw [heq] at h3 h4
      dsimp only at h3 h4
      cases h3
      exact ⟨by rfl, by simp [h4, Lexer.advance]⟩
    · rename_i xo sI heqI x l s1 heq
      subst h1
      have hline := lexIdentLoop_line fuel s.advance sI heqI
      have h3 := (token_line sI TokenKind.Identifier).1
      have h4 := (token_line sI TokenKind.Identifier).2
      rw [heq] at h3 h4
      dsimp only at h3 h4
      cases h3
      exact ⟨hline, by simp [h4, hline, Lexer.advance]⟩
    · rename_i xo sI heqI x l s1 heq
      subst h1
      have hline := lexSpacesLoop_line fuel s.advance sI heqI
      have h3 := (token_line sI TokenKind.Indent).1
      have h4 := (token_line sI TokenKind.Indent).2
      rw [heq] at h3 h4
      dsimp only at h3 h4
      cases h3
      exact ⟨hline, by simp [h4, hline, Lexer.advance]⟩
    · rename_i x l s1 heq
      subst h1
      have h3 := (token_line s.advance.advance TokenKind.Newline).1
      have h4 := (token_line s.advance.advance TokenKind.Newline).2
      rw [heq] at h3 h4
      dsimp only at h3 h4
      cases h3
      exact ⟨by rfl, by simp [h4, Lexer.advance]⟩
    · rename_i x l s1 heq
      subst h1
      have h3 := (token_line s.advance TokenKind.Newline).1
      have h4 := (token_line s.advance TokenKind.Newline).2
      rw [heq] at h3 h4
      dsimp only at h3 h4
      cases h3
      exact ⟨by rfl, by simp [h4, Lexer.advance]⟩
  · intro s2 h
    unfold Lexer.lexOne at h
    repeat' split at h
    all_goals try simp at h
    all_goals try (
      obtain ⟨h1, h2⟩ := h
      rename_i x l s1 heq
      simp only [Lexer.token, Lexer.startNextToken] at heq
      rw [h1] at heq
      simp at heq)
    rename_i u s1 heqC
    subst h
    exact lexCommentLoop_line fuel s.advance s1 (by rw [heqC])
  · intro s2 h
    unfold Lexer.lexOne at h
    repeat' split at h
    all_goals try simp at h
    all_goals try (
      obtain ⟨h1, h2⟩ := h
      rename_i x l s1 heq
      simp only [Lexer.token, Lexer.startNextToken] at heq
      rw [h1] at heq
      simp at heq)
    subst h
    rfl

theorem lexBareLoop_line : ∀ (fuel : Nat) (s : Lexer) (acc r : List Byte) (s' : Lexer),
    Lexer.lexBareLoop fuel s acc = some (r, s') → s'.line = s.line := by
  intro fuel
  induction fuel with
  | zero => intro s acc r s' h; simp [Lexer.lexBareLoop] at h
  | succ n ih =>
    intro s acc r s' h
    unfold Lexer.lexBareLoop at h
    split at h
    · split at h
      · exact ih s.advance _ _ _ h
      · cases h; rfl
    · cases h; rfl

theorem lexBracedLoop_line : ∀ (fuel : Nat) (s : Lexer) (acc r : List Byte) (s' : Lexer),
    Lexer.lexBracedLoop fuel s acc = (.ok r, s') → s'.line = s.line := by
  intro fuel
  induction fuel with
  | zero => intro s acc r s' h; simp [Lexer.lexBracedLoop] at h
  | succ n ih =>
    intro s acc r s' h
    unfold Lexer.lexBracedLoop at h
    split at h
    · split at h
      · exact ih s.advance _ _ _ h
      · split at h
        · cases h; rfl
        · simp at h
    · simp at h

theorem lexDollar_line : ∀ (fuel : Nat) (s s' : Lexer) (arena arena' : Table)
    (part : ValuePart),
    Lexer.lexDollar fuel s arena = (.ok part, s', arena') → s'.line = s.line := by
  intro fuel s s' arena arena' part h
  unfold Lexer.lexDollar at h
  repeat' split at h
  all_goals try simp at h
  · obtain ⟨h1, h2, h3⟩ := h
    subst h2
    rfl
  · rename_i s1 heqW
    obtain ⟨h1, h2, h3⟩ := h
    subst h2
    exact skipWhitespace_line fuel s.advance _ heqW
  · rename_i s2 heqW
    obtain ⟨h1, h2, h3⟩ := h
    subst h2
    exact skipWhitespace_line fuel s.advance.advance _ heqW
  · rename_i xB var s1 heqB xI v arena1 heqI
    obtain ⟨h1, h2, h3⟩ := h
    subst h2
    exact lexBracedLoop_line fuel s.advance _ _ _ heqB
  · rename_i xE var s1 heqE xI v arena1 heqI
    obtain ⟨h1, h2, h3⟩ := h
    subst h2
    exact lexBareLoop_line fuel s.advance _ _ _ heqE

theorem lexValueLoop_line : ∀ (fuel : Nat) (s s' : Lexer) (arena arena' : Table)
    (parts r : List ValuePart),
    Lexer.lexValueLoop fuel s arena parts = (.ok r, s', arena') → s'.line = s.line := by
  intro fuel
  induction fuel with
  | zero => intro s s' arena arena' parts r h; simp [Lexer.lexValueLoop] at h
  | succ n ih =>
    intro s s' arena arena' parts r h
    unfold Lexer.lexValueLoop at h
    repeat' split at h
    all_goals try simp at h
    · obtain ⟨h1, h2, h3⟩ := h
      subst h2
      rfl
    · rename_i xD part s1 arena1 heqD
      exact (ih s1 s' _ _ _ _ h).trans (lexDollar_line (n + 1) s.advance s1 _ _ _ heqD)
    · exact ih s.advance s' _ _ _ _ h

theorem lexValue_line : ∀ (fuel : Nat) (s s' : Lexer) (arena arena' : Table)
    (v : Option Value),
    Lexer.lexValue fuel s arena = (.ok v, s', arena') → s'.line = s.line := by
  intro fuel s s' arena arena' v h
  unfold Lexer.lexValue at h
  split at h
  · rename_i parts s1 arena1 heqL
    simp at h
    obtain ⟨h1, h2, h3⟩ := h
    subst h2
    exact lexValueLoop_line fuel s s1 _ _ _ _ heqL
  · simp at h
  · simp at h

theorem lexTargetLoop_line : ∀ (fuel : Nat) (s s' : Lexer) (arena arena' : Table)
    (parts r : List ValuePart),
    Lexer.lexTargetLoop fuel s arena parts = (.ok r, s', arena') → s'.line = s.line := by
  intro fuel
  induction fuel with
  | zero => intro s s' arena arena' parts r h; simp [Lexer.lexTargetLoop] at h
  | succ n ih =>
    intro s s' arena arena' parts r h
    unfold Lexer.lexTargetLoop at h
    repeat' split at h
    all_goals try simp at h
    · obtain ⟨h1, h2, h3⟩ := h
      subst h2
      rfl
    · rename_i xD part s1 arena1 heqD
      exact (ih s1 s' _ _ _ _ h).trans (lexDollar_line (n + 1) s.advance s1 _ _ _ heqD)
    · exact ih s.advance s' _ _ _ _ h

theorem lexTarget_line : ∀ (fuel : Nat) (s s' : Lexer) (arena arena' : Table)
    (v : Option Value),
    Lexer.lexTarget fuel s arena = (.ok v, s', arena') → s'.line = s.line := by
  intro fuel s s' arena arena' v h
  unfold Lexer.lexTarget at h
  repeat' split at h
  all_goals try simp at h
  · rename_i x parts s1 arena1 heqL x2 s2 heqW hIf
    obtain ⟨h1, h2, h3⟩ := h
    subst h2
    exact (skipWhitespace_line fuel s1 s2 heqW).trans
      (lexTargetLoop_line fuel s s1 _ _ _ _ heqL)
  · rename_i x parts s1 arena1 heqL x2 s2 heqW hIf
    obtain ⟨h1, h2, h3⟩ := h
    subst h2
    exact (skipWhitespace_line fuel s1 s2 heqW).trans
      (lexTargetLoop_line fuel s s1 _ _ _ _ heqL)

/-- C9 (amended): the 1-based line counter moves in exactly two places
— it is incremented when `lex_one` produces a Newline token, and when a
discarded `#` comment consumes its terminating newline (producing no
token); every produced token reports the counter at its production,
`Eof`, whitespace skipping and value/target scanning (escaped line
continuations included) leave the counter unchanged, so a token's line
is 1 plus the Newline tokens produced plus the comments discarded
before it. -/
theorem C9_line_discipline (fuel : Nat) (s : Lexer) :
    (∀ t s2, Lexer.lexOne fuel s = (.ok (.Token t), s2) →
      t.location.line = s.line
      ∧ s2.line = (if t.kind = TokenKind.Newline then s.line + 1 else s.line))
    ∧ (∀ s2, Lexer.lexOne fuel s = (.ok .Comment, s2) → s2.line = s.line + 1)
    ∧ (∀ s2, Lexer.lexOne fuel s = (.ok .Eof, s2) → s2.line = s.line)
    ∧ (∀ s2, Lexer.skipWhitespace fuel s = some s2 → s2.line = s.line)
    ∧ (∀ arena v s2 arena2, Lexer.lexValue fuel s arena = (.ok v, s2, arena2) →
        s2.line = s.line)
    ∧ (∀ arena v s2 arena2, Lexer.lexTarget fuel s arena = (.ok v, s2, arena2) →
        s2.line = s.line)
    ∧ (Lexer.new s.input).line = 1 := by
  obtain ⟨h1, h2, h3⟩ := lexOne_line fuel s
  exact ⟨h1, h2, h3,
    fun s2 h => skipWhitespace_line fuel s s2 h,
    fun arena v s2 arena2 h => lexValue_line fuel s s2 arena arena2 v h,
    fun arena v s2 arena2 h => lexTarget_line fuel s s2 arena arena2 v h,
    rfl⟩

theorem C9_line_discipline_witness :
    (⟨bs "#c\na\n", 3, 3, 2⟩ : Lexer).line = (Lexer.new (bs "#c\na\n")).line + 1 :=
  (C9_line_discipline 6 (Lexer.new (bs "#c\na\n"))).2.1 ⟨bs "#c\na\n", 3, 3, 2⟩ (by decide)

/-- C9 counterexample to the claim as frozen: lexing `#c` newline `a`
discards the comment and increments the line counter with no Newline
token produced, so the very first token returned by `lex` — the
identifier `a` — reports line 2, not 1 plus the zero Newline tokens
produced before it. -/
theorem C9_line_cex :
    Lexer.lex 6 (Lexer.new (bs "#c\na\n"))
      = (.ok (some ⟨.Identifier, ⟨(3, 4), 2⟩⟩), ⟨bs "#c\na\n", 4, 4, 2⟩)
    ∧ (2 : Nat) ≠ 1 + 0 := by
  exact ⟨by decide, by decide⟩

theorem C5_chained_lookup_witness :
    (Scopes.get ⟨[⟨[(⟨⟨0⟩⟩, [120]), (⟨⟨1⟩⟩, [121])], none⟩,
        ⟨[(⟨⟨0⟩⟩, [122])], some 0⟩], 0⟩ 1 ⟨⟨1⟩⟩ =
      match (Scopes.getScope ⟨[⟨[(⟨⟨0⟩⟩, [120]), (⟨⟨1⟩⟩, [121])], none⟩,
          ⟨[(⟨⟨0⟩⟩, [122])], some 0⟩], 0⟩ 1).get ⟨⟨1⟩⟩ with
      | some v => some v
      | none =>
        match (Scopes.getScope ⟨[⟨[(⟨⟨0⟩⟩, [120]), (⟨⟨1⟩⟩, [121])], none⟩,
            ⟨[(⟨⟨0⟩⟩, [122])], some 0⟩], 0⟩ 1).parent with
        | some p => Scopes.get ⟨[⟨[(⟨⟨0⟩⟩, [120]), (⟨⟨1⟩⟩, [121])], none⟩,
            ⟨[(⟨⟨0⟩⟩, [122])], some 0⟩], 0⟩ p ⟨⟨1⟩⟩
        | none => none)
    ∧ (Scopes.newScope ⟨[⟨[(⟨⟨0⟩⟩, [120]), (⟨⟨1⟩⟩, [121])], none⟩], 0⟩ [⟨⟨⟨0⟩⟩, [122]⟩]
        = .ok (1, ⟨[⟨[(⟨⟨0⟩⟩, [120]), (⟨⟨1⟩⟩, [121])], none⟩,
                    ⟨[(⟨⟨0⟩⟩, [122])], some 0⟩], 0⟩)
      ∧ Scopes.get ⟨[⟨[(⟨⟨0⟩⟩, [120]), (⟨⟨1⟩⟩, [121])], none⟩,
                     ⟨[(⟨⟨0⟩⟩, [122])], some 0⟩], 0⟩ 1 ⟨⟨1⟩⟩ = some [121]
      ∧ Scope.get (Scopes.getScope ⟨[⟨[(⟨⟨0⟩⟩, [120]), (⟨⟨1⟩⟩, [121])], none⟩,
                     ⟨[(⟨⟨0⟩⟩, [122])], some 0⟩], 0⟩ 1) ⟨⟨1⟩⟩ = none
      ∧ Scopes.get ⟨[⟨[(⟨⟨0⟩⟩, [120]), (⟨⟨1⟩⟩, [121])], none⟩,
                     ⟨[(⟨⟨0⟩⟩, [122])], some 0⟩], 0⟩ 1 ⟨⟨0⟩⟩ = some [122]) :=
  C5_chained_lookup ⟨[⟨[(⟨⟨0⟩⟩, [120]), (⟨⟨1⟩⟩, [121])], none⟩,
    ⟨[(⟨⟨0⟩⟩, [122])], some 0⟩], 0⟩ 1 ⟨⟨1⟩⟩ (by decide) (by decide)

theorem C7_new_scope_witness :
    Scope.push ⟨[(⟨⟨0⟩⟩, [49])], none⟩ ⟨⟨⟨0⟩⟩, [50]⟩ = .error .DuplicateBinding :=
  (C7_new_scope Scopes.new []).2.2.1 ⟨[(⟨⟨0⟩⟩, [49])], none⟩ ⟨⟨⟨0⟩⟩, [50]⟩ [49] (by decide)

theorem C8_interning_witness :
    (([98] : List Byte) = [98] ↔ (⟨1⟩ : Symbol) = ⟨1⟩)
    ∧ (idsLookup (firstOccsFrom [] ([[97], [98], [97]].take 1)) [98] = none →
        (⟨1⟩ : Symbol) = ⟨(firstOccsFrom [] ([[97], [98], [97]].take 1)).length⟩) :=
  C8_interning [[97], [98], [97]] 1 1 [98] [98] ⟨1⟩ ⟨1⟩
    (by decide) (by decide) (by decide) (by decide)

theorem remaining_pos {s : Lexer} {b : Byte} (h : s.peek = some b) : 0 < s.remaining := by
  unfold Lexer.peek at h
  obtain ⟨hlt, _⟩ := List.get?_eq_some.mp h
  unfold Lexer.remaining
  omega

theorem remaining_advance (s : Lexer) : s.advance.remaining = s.remaining - 1 := by
  show s.input.length - (s.curEnd + 1) = s.input.length - s.curEnd - 1
  omega

theorem skipWhitespace_pres : ∀ (fuel : Nat) (s s' : Lexer),
    Lexer.skipWhitespace fuel s = some s' →
      s'.input = s.input ∧ s.curEnd ≤ s'.curEnd := by
  intro fuel
  induction fuel with
  | zero => intro s s' h; simp [Lexer.skipWhitespace] at h
  | succ n ih =>
    intro s s' h
    unfold Lexer.skipWhitespace at h
    split at h
    · obtain ⟨hi, he⟩ := ih s.advance s' h
      refine ⟨hi, ?_⟩
      simp [Lexer.advance] at he
      omega
    · split at h
      · obtain ⟨hi, he⟩ := ih s.advance.advance s' h
        refine ⟨hi, ?_⟩
        simp [Lexer.advance] at he
        omega
      · obtain ⟨hi, he⟩ := ih s.advance.advance s' h
        refine ⟨hi, ?_⟩
        simp [Lexer.advance] at he
        omega
      · split at h
        · obtain ⟨hi, he⟩ := ih s.advance.advance.advance s' h
          refine ⟨hi, ?_⟩
          simp [Lexer.advance] at he
          omega
        · cases h
          exact ⟨rfl, le_refl _⟩
      · cases h
        exact ⟨rfl, le_refl _⟩
    · cases h
      exact ⟨rfl, le_refl _⟩

theorem skipWhitespace_suff : ∀ (fuel : Nat) (s : Lexer),
    s.remaining < fuel → (Lexer.skipWhitespace fuel s).isSome := by
  intro fuel
  induction fuel with
  | zero => intro s h; omega
  | succ n ih =>
    intro s h
    unfold Lexer.skipWhitespace
    split
    · rename_i heq
      apply ih
      have := remaining_pos heq
      rw [remaining_advance]
      omega
    · rename_i heq
      split
      · rename_i heq2
        apply ih
        have h1 := remaining_pos heq
        have h2 := remaining_pos heq2
        rw [remaining_advance] at h2 ⊢
        rw [remaining_advance]
        omega
      · rename_i heq2
        apply ih
        have h1 := remaining_pos heq
        have h2 := remaining_pos heq2
        rw [remaining_advance] at h2 ⊢
        rw [remaining_advance]
        omega
      · rename_i heq2
        split
        · rename_i heq3
          apply ih
          have h1 := remaining_pos heq
          have h2 := remaining_pos heq2
          have h3 := remaining_pos heq3
          rw [remaining_advance] at h2 h3 ⊢
          rw [remaining_advance] at h3 ⊢
          rw [remaining_advance]
          omega
        · simp
      · simp
    · simp
theorem remaining_mono {s s' : Lexer} (hi : s'.input = s.input) (he : s.curEnd ≤ s'.curEnd) :
    s'.remaining ≤ s.remaining := by
  unfold Lexer.remaining
  rw [hi]
  omega

theorem remaining_step {s s' : Lexer} (hi : s'.input = s.input) (he : s.curEnd < s'.curEnd) :
    s'.remaining ≤ s.remaining - 1 := by
  unfold Lexer.remaining
  rw [hi]
  omega

theorem token_pres (s : Lexer) (kind : TokenKind) :
    (s.token kind).2.input = s.input ∧ (s.token kind).2.curEnd = s.curEnd := by
  unfold Lexer.token Lexer.startNextToken
  split <;> exact ⟨rfl, rfl⟩

theorem lexIdentLoop_pres : ∀ (fuel : Nat) (s s' : Lexer),
    Lexer.lexIdentLoop fuel s = some s' → s'.input = s.input ∧ s.curEnd ≤ s'.curEnd := by
  intro fuel
  induction fuel with
  | zero => intro s s' h; simp [Lexer.lexIdentLoop] at h
  | succ n ih =>
    intro s s' h
    unfold Lexer.lexIdentLoop at h
    split at h
    · split at h
      · obtain ⟨hi, he⟩ := ih s.advance s' h
        exact ⟨hi, by simp [Lexer.advance] at he; omega⟩
      · cases h; exact ⟨rfl, le_refl _⟩
    · cases h; exact ⟨rfl, le_refl _⟩

theorem lexIdentLoop_suff : ∀ (fuel : Nat) (s : Lexer),
    s.remaining < fuel → (Lexer.lexIdentLoop fuel s).isSome := by
  intro fuel
  induction fuel with
  | zero => intro s h; omega
  | succ n ih =>
    intro s h
    unfold Lexer.lexIdentLoop
    split
    · split
      · rename_i heq hb
        apply ih
        have := remaining_pos heq
        rw [remaining_advance]
        omega
      · simp
    · simp

theorem lexSpacesLoop_pres : ∀ (fuel : Nat) (s s' : Lexer),
    Lexer.lexSpacesLoop fuel s = some s' → s'.input = s.input ∧ s.curEnd ≤ s'.curEnd := by
  intro fuel
  induction fuel with
  | zero => intro s s' h; simp [Lexer.lexSpacesLoop] at h
  | succ n ih =>
    intro s s' h
    unfold Lexer.lexSpacesLoop at h
    split at h
    · obtain ⟨hi, he⟩ := ih s.advance s' h
      exact ⟨hi, by simp [Lexer.advance] at he; omega⟩
    · cases h; exact ⟨rfl, le_refl _⟩

theorem lexSpacesLoop_suff : ∀ (fuel : Nat) (s : Lexer),
    s.remaining < fuel → (Lexer.lexSpacesLoop fuel s).isSome := by
  intro fuel
  induction fuel with
  | zero => intro s h; omega
  | succ n ih =>
    intro s h
    unfold Lexer.lexSpacesLoop
    split
    · rename_i heq
      apply ih
      have := remaining_pos heq
      rw [remaining_advance]
      omega
    · simp

theorem lexBareLoop_pres : ∀ (fuel : Nat) (s : Lexer) (acc r : List Byte) (s' : Lexer),
    Lexer.lexBareLoop fuel s acc = some (r, s') →
      s'.input = s.input ∧ s.curEnd ≤ s'.curEnd := by
  intro fuel
  induction fuel with
  | zero => intro s acc r s' h; simp [Lexer.lexBareLoop] at h
  | succ n ih =>
    intro s acc r s' h
    unfold Lexer.lexBareLoop at h
    split at h
    · split at h
      · obtain ⟨hi, he⟩ := ih s.advance _ _ _ h
        exact ⟨hi, by simp [Lexer.advance] at he; omega⟩
      · cases h; exact ⟨rfl, le_refl _⟩
    · cases h; exact ⟨rfl, le_refl _⟩

theorem lexBareLoop_suff : ∀ (fuel : Nat) (s : Lexer) (acc : List Byte),
    s.remaining < fuel → (Lexer.lexBareLoop fuel s acc).isSome := by
  intro fuel
  induction fuel with
  | zero => intro s acc h; omega
  | succ n ih =>
    intro s acc h
    unfold Lexer.lexBareLoop
    split
    · split
      · rename_i heq hb
        apply ih
        have := remaining_pos heq
        rw [remaining_advance]
        omega
      · simp
    · simp

theorem lexBracedLoop_pres : ∀ (fuel : Nat) (s : Lexer) (acc : List Byte),
    (Lexer.lexBracedLoop fuel s acc).2.input = s.input
    ∧ s.curEnd ≤ (Lexer.lexBracedLoop fuel s acc).2.curEnd := by
  intro fuel
  induction fuel with
  | zero => intro s acc; exact ⟨rfl, le_refl _⟩
  | succ n ih =>
    intro s acc
    unfold Lexer.lexBracedLoop
    split
    · split
      · obtain ⟨hi, he⟩ := ih s.advance _
        exact ⟨hi, le_trans (Nat.le_succ _) he⟩
      · split
        · exact ⟨rfl, Nat.le_succ _⟩
        · exact ⟨rfl, le_refl _⟩
    · exact ⟨rfl, le_refl _⟩

theorem lexBracedLoop_suff : ∀ (fuel : Nat) (s : Lexer) (acc : List Byte),
    s.remaining < fuel → (Lexer.lexBracedLoop fuel s acc).1 ≠ .oof := by
  intro fuel
  induction fuel with
  | zero => intro s acc h; omega
  | succ n ih =>
    intro s acc h
    unfold Lexer.lexBracedLoop
    split
    · split
      · rename_i heq hb
        apply ih
        have := remaining_pos heq
        rw [remaining_advance]
        omega
      · split
        · simp
        · simp
    · simp

theorem lexCommentLoop_pres : ∀ (fuel : Nat) (s : Lexer),
    (Lexer.lexCommentLoop fuel s).2.input = s.input
    ∧ s.curEnd ≤ (Lexer.lexCommentLoop fuel s).2.curEnd := by
  intro fuel
  induction fuel with
  | zero => intro s; exact ⟨rfl, le_refl _⟩
  | succ n ih =>
    intro s
    unfold Lexer.lexCommentLoop
    split
    · exact ⟨rfl, Nat.le_succ _⟩
    · exact ⟨rfl, le_refl _⟩
    · obtain ⟨hi, he⟩ := ih s.advance
      exact ⟨hi, le_trans (Nat.le_succ _) he⟩

theorem lexCommentLoop_suff : ∀ (fuel : Nat) (s : Lexer),
    s.remaining < fuel → (Lexer.lexCommentLoop fuel s).1 ≠ .oof := by
  intro fuel
  induction fuel with
  | zero => intro s h; omega
  | succ n ih =>
    intro s h
    unfold Lexer.lexCommentLoop
    split
    · simp
    · simp
    · rename_i heq
      apply ih
      have := remaining_pos heq
      rw [remaining_advance]
      omega

theorem lexDollar_pres : ∀ (fuel : Nat) (s s' : Lexer) (arena arena' : Table)
    (r : LRes ValuePart),
    Lexer.lexDollar fuel s arena = (r, s', arena') →
      s'.input = s.input ∧ s.curEnd ≤ s'.curEnd := by
  intro fuel s s' arena arena' r h
  unfold Lexer.lexDollar at h
  repeat' split at h
  all_goals (simp at h; obtain ⟨h1, h2, h3⟩ := h; subst h2)
  all_goals try exact ⟨rfl, le_refl _⟩
  all_goals try exact ⟨rfl, Nat.le_succ _⟩
  all_goals try exact ⟨rfl, le_trans (Nat.le_succ _) (Nat.le_succ _)⟩
  · rename_i s1 heqW
    obtain ⟨hi, he⟩ := skipWhitespace_pres fuel s.advance s1 heqW
    exact ⟨hi, le_trans (Nat.le_succ _) he⟩
  · rename_i s2 heqW
    obtain ⟨hi, he⟩ := skipWhitespace_pres fuel s.advance.advance s2 heqW
    exact ⟨hi, le_trans (Nat.le_succ _) (le_trans (Nat.le_succ _) he)⟩
  · rename_i x var s1 heqB xI v a1 heqI
    have hp := lexBracedLoop_pres fuel s.advance []
    rw [heqB] at hp
    exact ⟨hp.1, le_trans (Nat.le_succ _) hp.2⟩
  · rename_i x e s1 heqB
    have hp := lexBracedLoop_pres fuel s.advance []
    rw [heqB] at hp
    exact ⟨hp.1, le_trans (Nat.le_succ _) hp.2⟩
  · rename_i x s1 heqB
    have hp := lexBracedLoop_pres fuel s.advance []
    rw [heqB] at hp
    exact ⟨hp.1, le_trans (Nat.le_succ _) hp.2⟩
  · rename_i x var s1 heqE xI v a1 heqI
    obtain ⟨hi, he⟩ := lexBareLoop_pres fuel s.advance _ _ _ heqE
    exact ⟨hi, le_trans (Nat.le_succ _) he⟩

theorem lexDollar_suff : ∀ (fuel : Nat) (s : Lexer) (arena : Table),
    s.remaining < fuel → (Lexer.lexDollar fuel s arena).1 ≠ .oof := by
  intro fuel s arena h
  unfold Lexer.lexDollar
  repeat' split
  all_goals try simp
  · rename_i heqP hb heqW
    have := skipWhitespace_suff fuel s.advance (by rw [remaining_advance]; omega)
    rw [heqW] at this
    simp at this
  · rename_i heqP hb hb2 hb3 heqW
    have := skipWhitespace_suff fuel s.advance.advance
      (by rw [remaining_advance, remaining_advance]; omega)
    rw [heqW] at this
    simp at this
  · rename_i heqP hb hb2 hb3 hb4 heqB
    have := lexBracedLoop_suff fuel s.advance [] (by rw [remaining_advance]; omega)
    rw [heqB] at this
    simp at this
  · rename_i x b heqPeek heqP hb hb2 hb3 hb4 xE heqE
    have := lexBareLoop_suff fuel s.advance [b] (by rw [remaining_advance]; omega)
    rw [heqE] at this
    simp at this
theorem lexValueLoop_pres : ∀ (fuel : Nat) (s s' : Lexer) (arena arena' : Table)
    (parts : List ValuePart) (r : LRes (List ValuePart)),
    Lexer.lexValueLoop fuel s arena parts = (r, s', arena') →
      s'.input = s.input ∧ s.curEnd ≤ s'.curEnd := by
  intro fuel
  induction fuel with
  | zero =>
    intro s s' arena arena' parts r h
    unfold Lexer.lexValueLoop at h
    simp at h
    obtain ⟨h1, h2, h3⟩ := h
    subst h2
    exact ⟨rfl, le_refl _⟩
  | succ n ih =>
    intro s s' arena arena' parts r h
    unfold Lexer.lexValueLoop at h
    repeat' split at h
    all_goals try (simp at h; obtain ⟨h1, h2, h3⟩ := h; subst h2)
    all_goals try exact ⟨rfl, le_refl _⟩
    · rename_i xD part s1 a1 heqD
      obtain ⟨hi, he⟩ := ih s1 s' a1 arena' _ _ h
      obtain ⟨hi2, he2⟩ := lexDollar_pres (n + 1) s.advance s1 arena a1 _ heqD
      refine ⟨by rw [hi, hi2]; rfl, ?_⟩
      exact le_trans (Nat.le_succ _) (le_trans he2 he)
    · rename_i xD e s1 a1 heqD
      obtain ⟨hi2, he2⟩ := lexDollar_pres (n + 1) s.advance s1 arena a1 _ heqD
      exact ⟨by rw [hi2]; rfl, le_trans (Nat.le_succ _) he2⟩
    · rename_i xD s1 a1 heqD
      obtain ⟨hi2, he2⟩ := lexDollar_pres (n + 1) s.advance s1 arena a1 _ heqD
      exact ⟨by rw [hi2]; rfl, le_trans (Nat.le_succ _) he2⟩
    · obtain ⟨hi, he⟩ := ih s.advance s' arena arena' _ _ h
      exact ⟨hi, le_trans (Nat.le_succ _) he⟩

theorem lexValueLoop_suff : ∀ (fuel : Nat) (s : Lexer) (arena : Table)
    (parts : List ValuePart),
    s.remaining < fuel → (Lexer.lexValueLoop fuel s arena parts).1 ≠ .oof := by
  intro fuel
  induction fuel with
  | zero => intro s arena parts h; omega
  | succ n ih =>
    intro s arena parts h
    unfold Lexer.lexValueLoop
    repeat' split
    all_goals try simp
    · rename_i x b heqPeek hb hbd xD part s1 a1 heqD
      apply ih
      have hpos := remaining_pos heqPeek
      obtain ⟨hi2, he2⟩ := lexDollar_pres (n + 1) s.advance s1 arena a1 _ heqD
      have hm := remaining_mono hi2 he2
      rw [remaining_advance] at hm
      omega
    · rename_i x b heqPeek hb hbd xD s1 a1 heqD
      have := lexDollar_suff (n + 1) s.advance arena (by rw [remaining_advance]; omega)
      rw [heqD] at this
      simp at this
    · rename_i x b heqPeek hb hbd
      apply ih
      have hpos := remaining_pos heqPeek
      rw [remaining_advance]
      omega

theorem lexValue_pres : ∀ (fuel : Nat) (s s' : Lexer) (arena arena' : Table)
    (r : LRes (Option Value)),
    Lexer.lexValue fuel s arena = (r, s', arena') →
      s'.input = s.input ∧ s.curEnd ≤ s'.curEnd := by
  intro fuel s s' arena arena' r h
  unfold Lexer.lexValue at h
  split at h
  · rename_i x parts s1 a1 heqL
    simp at h
    obtain ⟨h1, h2, h3⟩ := h
    subst h2
    have hp := lexValueLoop_pres fuel s s1 arena a1 [] (.ok parts) heqL
    exact ⟨hp.1, hp.2⟩
  · rename_i x e s1 a1 heqL
    simp at h
    obtain ⟨h1, h2, h3⟩ := h
    subst h2
    exact lexValueLoop_pres fuel s s1 arena a1 [] (.err e) heqL
  · rename_i x s1 a1 heqL
    simp at h
    obtain ⟨h1, h2, h3⟩ := h
    subst h2
    exact lexValueLoop_pres fuel s s1 arena a1 [] .oof heqL

theorem lexValue_suff : ∀ (fuel : Nat) (s : Lexer) (arena : Table),
    s.remaining < fuel → (Lexer.lexValue fuel s arena).1 ≠ .oof := by
  intro fuel s arena h
  unfold Lexer.lexValue
  split
  all_goals try simp
  rename_i x s1 a1 heqL
  have := lexValueLoop_suff fuel s arena [] h
  rw [heqL] at this
  simp at this

theorem lexTargetLoop_pres : ∀ (fuel : Nat) (s s' : Lexer) (arena arena' : Table)
    (parts : List ValuePart) (r : LRes (List ValuePart)),
    Lexer.lexTargetLoop fuel s arena parts = (r, s', arena') →
      s'.input = s.input ∧ s.curEnd ≤ s'.curEnd := by
  intro fuel
  induction fuel with
  | zero =>
    intro s s' arena arena' parts r h
    unfold Lexer.lexTargetLoop at h
    simp at h
    obtain ⟨h1, h2, h3⟩ := h
    subst h2
    exact ⟨rfl, le_refl _⟩
  | succ n ih =>
    intro s s' arena arena' parts r h
    unfold Lexer.lexTargetLoop at h
    repeat' split at h
    all_goals try (simp at h; obtain ⟨h1, h2, h3⟩ := h; subst h2)
    all_goals try exact ⟨rfl, le_refl _⟩
    · rename_i xD part s1 a1 heqD
      obtain ⟨hi, he⟩ := ih s1 s' a1 arena' _ _ h
      obtain ⟨hi2, he2⟩ := lexDollar_pres (n + 1) s.advance s1 arena a1 _ heqD
      refine ⟨by rw [hi, hi2]; rfl, ?_⟩
      exact le_trans (Nat.le_succ _) (le_trans he2 he)
    · rename_i xD e s1 a1 heqD
      obtain ⟨hi2, he2⟩ := lexDollar_pres (n + 1) s.advance s1 arena a1 _ heqD
      exact ⟨by rw [hi2]; rfl, le_trans (Nat.le_succ _) he2⟩
    · rename_i xD s1 a1 heqD
      obtain ⟨hi2, he2⟩ := lexDollar_pres (n + 1) s.advance s1 arena a1 _ heqD
      exact ⟨by rw [hi2]; rfl, le_trans (Nat.le_succ _) he2⟩
    · obtain ⟨hi, he⟩ := ih s.advance s' arena arena' _ _ h
      exact ⟨hi, le_trans (Nat.le_succ _) he⟩

theorem lexTargetLoop_suff : ∀ (fuel : Nat) (s : Lexer) (arena : Table)
    (parts : List ValuePart),
    s.remaining < fuel → (Lexer.lexTargetLoop fuel s arena parts).1 ≠ .oof := by
  intro fuel
  induction fuel with
  | zero => intro s arena parts h; omega
  | succ n ih =>
    intro s arena parts h
    unfold Lexer.lexTargetLoop
    repeat' split
    all_goals try simp
    · rename_i x b heqPeek hb hbd xD part s1 a1 heqD
      apply ih
      have hpos := remaining_pos heqPeek
      obtain ⟨hi2, he2⟩ := lexDollar_pres (n + 1) s.advance s1 arena a1 _ heqD
      have hm := remaining_mono hi2 he2
      rw [remaining_advance] at hm
      omega
    · rename_i x b heqPeek hb hbd xD s1 a1 heqD
      have := lexDollar_suff (n + 1) s.advance arena (by rw [remaining_advance]; omega)
      rw [heqD] at this
      simp at this
    · rename_i x b heqPeek hb hbd
      apply ih
      have hpos := remaining_pos heqPeek
      rw [remaining_advance]
      omega

theorem lexTargetLoop_strict : ∀ (fuel : Nat) (s s' : Lexer) (arena arena' : Table)
    (acc ps : List ValuePart),
    Lexer.lexTargetLoop fuel s arena acc = (.ok ps, s', arena') →
      (ps = acc ∧ s' = s) ∨ (s.curEnd < s'.curEnd ∧ 0 < s.remaining) := by
  intro fuel
  induction fuel with
  | zero =>
    intro s s' arena arena' acc ps h
    unfold Lexer.lexTargetLoop at h
    simp at h
  | succ n ih =>
    intro s s' arena arena' acc ps h
    unfold Lexer.lexTargetLoop at h
    repeat' split at h
    all_goals try simp at h
    · obtain ⟨h1, h2, h3⟩ := h
      subst h2
      exact Or.inl ⟨h1.symm, rfl⟩
    · rename_i x b heqPeek hb hbd xD part s1 a1 heqD
      right
      have hpos := remaining_pos heqPeek
      obtain ⟨hi2, he2⟩ := lexDollar_pres (n + 1) s.advance s1 arena a1 _ heqD
      rcases ih s1 s' a1 arena' _ _ h with ⟨hp, hs⟩ | ⟨hlt, hpos2⟩
      · subst hs
        exact ⟨lt_of_lt_of_le (Nat.lt_succ_self _) he2, hpos⟩
      · exact ⟨lt_of_le_of_lt (le_trans (Nat.le_succ _) he2) hlt, hpos⟩
    · rename_i x b heqPeek hb hbd
      right
      have hpos := remaining_pos heqPeek
      rcases ih s.advance s' arena arena' _ _ h with ⟨hp, hs⟩ | ⟨hlt, hpos2⟩
      · subst hs
        exact ⟨Nat.lt_succ_self _, hpos⟩
      · exact ⟨lt_trans (Nat.lt_succ_self _) hlt, hpos⟩

theorem lexTarget_pres : ∀ (fuel : Nat) (s s' : Lexer) (arena arena' : Table)
    (r : LRes (Option Value)),
    Lexer.lexTarget fuel s arena = (r, s', arena') →
      s'.input = s.input ∧ s.curEnd ≤ s'.curEnd := by
  intro fuel s s' arena arena' r h
  unfold Lexer.lexTarget at h
  repeat' split at h
  all_goals (simp at h; obtain ⟨h1, h2, h3⟩ := h; subst h2)
  · rename_i x parts s1 a1 heqL x2 s2 heqW hIf
    obtain ⟨hi1, he1⟩ := lexTargetLoop_pres fuel s s1 arena a1 [] (.ok parts) heqL
    obtain ⟨hi2, he2⟩ := skipWhitespace_pres fuel s1 s2 heqW
    exact ⟨hi2.trans hi1, le_trans he1 he2⟩
  · rename_i x parts s1 a1 heqL x2 s2 heqW hIf
    obtain ⟨hi1, he1⟩ := lexTargetLoop_pres fuel s s1 arena a1 [] (.ok parts) heqL
    obtain ⟨hi2, he2⟩ := skipWhitespace_pres fuel s1 s2 heqW
    exact ⟨hi2.trans hi1, le_trans he1 he2⟩
  · rename_i x parts s1 a1 heqL x2 heqW
    exact lexTargetLoop_pres fuel s s1 arena a1 [] (.ok parts) heqL
  · rename_i x e s1 a1 heqL
    exact lexTargetLoop_pres fuel s s1 arena a1 [] (.err e) heqL
  · rename_i x s1 a1 heqL
    exact lexTargetLoop_pres fuel s s1 arena a1 [] .oof heqL

theorem lexTarget_suff : ∀ (fuel : Nat) (s : Lexer) (arena : Table),
    s.remaining < fuel → (Lexer.lexTarget fuel s arena).1 ≠ .oof := by
  intro fuel s arena h
  unfold Lexer.lexTarget
  repeat' split
  all_goals try simp
  · rename_i x parts s1 a1 heqL x2 heqW
    obtain ⟨hi1, he1⟩ := lexTargetLoop_pres fuel s s1 arena a1 [] (.ok parts) heqL
    have := skipWhitespace_suff fuel s1 (lt_of_le_of_lt (remaining_mono hi1 he1) h)
    rw [heqW] at this
    simp at this
  · rename_i x heqL
    have := lexTargetLoop_suff fuel s arena [] h
    rw [heqL] at this
    simp at this

theorem lexTarget_strict : ∀ (fuel : Nat) (s s' : Lexer) (arena arena' : Table)
    (v : Value),
    Lexer.lexTarget fuel s arena = (.ok (some v), s', arena') →
      s.curEnd < s'.curEnd ∧ 0 < s.remaining := by
  intro fuel s s' arena arena' v h
  unfold Lexer.lexTarget at h
  repeat' split at h
  all_goals simp at h
  obtain ⟨h1, h2, h3⟩ := h
  subst h2
  rename_i x parts s1 a1 heqL x2 s2 heqW hIf
  obtain ⟨hi2, he2⟩ := skipWhitespace_pres fuel s1 s2 heqW
  rcases lexTargetLoop_strict fuel s s1 arena a1 [] parts heqL with ⟨hp, hs⟩ | ⟨hlt, hpos⟩
  · exact absurd hp hIf
  · exact ⟨lt_of_lt_of_le hlt he2, hpos⟩
theorem token_pres_eq {s s1 : Lexer} {l : Lexed} {k : TokenKind}
    (heq : s.token k = (l, s1)) : s1.input = s.input ∧ s1.curEnd = s.curEnd := by
  have := token_pres s k
  rw [heq] at this
  exact this

theorem commentLoop_pres_eq {fuel : Nat} {s s1 : Lexer} {r : LRes Unit}
    (heq : Lexer.lexCommentLoop fuel s = (r, s1)) :
    s1.input = s.input ∧ s.curEnd ≤ s1.curEnd := by
  have := lexCommentLoop_pres fuel s
  rw [heq] at this
  exact this

theorem peek_none_of_remaining {s : Lexer} (h : s.remaining = 0) : s.peek = none := by
  unfold Lexer.peek
  unfold Lexer.remaining at h
  exact List.get?_eq_none.mpr (by omega)

theorem lexOne_pres : ∀ (fuel : Nat) (s s' : Lexer) (r : LRes Lexed),
    Lexer.lexOne fuel s = (r, s') → s'.input = s.input ∧ s.curEnd ≤ s'.curEnd := by
  intro fuel s s' r h
  unfold Lexer.lexOne at h
  repeat' split at h
  all_goals (simp at h; obtain ⟨h1, h2⟩ := h; subst h2)
  · exact ⟨rfl, le_refl _⟩
  · rename_i x l s1 heq
    obtain ⟨hi, he⟩ := token_pres_eq heq
    exact ⟨hi, by rw [he]; exact Nat.le_succ _⟩
  · rename_i x l s1 heq
    obtain ⟨hi, he⟩ := token_pres_eq heq
    exact ⟨hi, by rw [he]; exact Nat.le_succ _⟩
  · rename_i x l s1 heq
    obtain ⟨hi, he⟩ := token_pres_eq heq
    exact ⟨hi, by rw [he]; exact le_trans (Nat.le_succ _) (Nat.le_succ _)⟩
  · rename_i x l s1 heq
    obtain ⟨hi, he⟩ := token_pres_eq heq
    exact ⟨hi, by rw [he]; exact Nat.le_succ _⟩
  · rename_i xo sI heqI x l s1 heq
    obtain ⟨hiL, heL⟩ := lexIdentLoop_pres fuel s.advance sI heqI
    obtain ⟨hi, he⟩ := token_pres_eq heq
    exact ⟨hi.trans hiL, by rw [he]; exact le_trans (Nat.le_succ _) heL⟩
  · exact ⟨rfl, Nat.le_succ _⟩
  · rename_i xo sI heqI x l s1 heq
    obtain ⟨hiL, heL⟩ := lexSpacesLoop_pres fuel s.advance sI heqI
    obtain ⟨hi, he⟩ := token_pres_eq heq
    exact ⟨hi.trans hiL, by rw [he]; exact le_trans (Nat.le_succ _) heL⟩
  · exact ⟨rfl, Nat.le_succ _⟩
  · rename_i x l s1 heq
    obtain ⟨hi, he⟩ := token_pres_eq heq
    exact ⟨hi, by rw [he]; exact le_trans (Nat.le_succ _) (Nat.le_succ _)⟩
  · exact ⟨rfl, Nat.le_succ _⟩
  · rename_i x l s1 heq
    obtain ⟨hi, he⟩ := token_pres_eq heq
    exact ⟨hi, by rw [he]; exact Nat.le_succ _⟩
  · rename_i xc u s1 heq
    obtain ⟨hi, he⟩ := commentLoop_pres_eq heq
    exact ⟨hi, le_trans (Nat.le_succ _) he⟩
  · rename_i xc e s1 heq
    obtain ⟨hi, he⟩ := commentLoop_pres_eq heq
    exact ⟨hi, le_trans (Nat.le_succ _) he⟩
  · rename_i xc s1 heq
    obtain ⟨hi, he⟩ := commentLoop_pres_eq heq
    exact ⟨hi, le_trans (Nat.le_succ _) he⟩
  · exact ⟨rfl, le_refl _⟩

theorem lexOne_suff : ∀ (fuel : Nat) (s : Lexer),
    s.remaining < fuel → (Lexer.lexOne fuel s).1 ≠ .oof := by
  intro fuel s h
  unfold Lexer.lexOne
  repeat' split
  all_goals try simp
  · rename_i heqPeek hb1 hb2 hb3 hb4 heqI
    have := lexIdentLoop_suff fuel s.advance (by rw [remaining_advance]; omega)
    rw [heqI] at this
    simp at this
  · rename_i heqPeek hb1 hb2 hb3 hb4 hb5 heqS
    have := lexSpacesLoop_suff fuel s.advance (by rw [remaining_advance]; omega)
    rw [heqS] at this
    simp at this
  · rename_i xc heqC
    have := lexCommentLoop_suff fuel s.advance (by rw [remaining_advance]; omega)
    rw [heqC] at this
    simp at this

theorem lexOne_strict : ∀ (fuel : Nat) (s s' : Lexer) (r : Lexed),
    Lexer.lexOne fuel s = (.ok r, s') → r ≠ .Eof →
      s.curEnd < s'.curEnd ∧ 0 < s.remaining := by
  intro fuel s s' r h hr
  have hpos : 0 < s.remaining := by
    by_contra hz
    push_neg at hz
    have hnone := @peek_none_of_remaining s (by omega)
    unfold Lexer.lexOne at h
    rw [hnone] at h
    simp at h
    exact hr h.1.symm
  refine ⟨?_, hpos⟩
  unfold Lexer.lexOne at h
  repeat' split at h
  all_goals simp at h
  all_goals (obtain ⟨h1, h2⟩ := h; subst h2)
  · exact absurd h1.symm hr
  · rename_i x l s1 heq
    obtain ⟨hi, he⟩ := token_pres_eq heq
    rw [he]
    exact Nat.lt_succ_self _
  · rename_i x l s1 heq
    obtain ⟨hi, he⟩ := token_pres_eq heq
    rw [he]
    exact Nat.lt_succ_self _
  · rename_i x l s1 heq
    obtain ⟨hi, he⟩ := token_pres_eq heq
    rw [he]
    exact lt_trans (Nat.lt_succ_self _) (Nat.lt_succ_self _)
  · rename_i x l s1 heq
    obtain ⟨hi, he⟩ := token_pres_eq heq
    rw [he]
    exact Nat.lt_succ_self _
  · rename_i xo sI heqI x l s1 heq
    obtain ⟨hiL, heL⟩ := lexIdentLoop_pres fuel s.advance sI heqI
    obtain ⟨hi, he⟩ := token_pres_eq heq
    rw [he]
    exact lt_of_lt_of_le (Nat.lt_succ_self _) heL
  · rename_i xo sI heqI x l s1 heq
    obtain ⟨hiL, heL⟩ := lexSpacesLoop_pres fuel s.advance sI heqI
    obtain ⟨hi, he⟩ := token_pres_eq heq
    rw [he]
    exact lt_of_lt_of_le (Nat.lt_succ_self _) heL
  · rename_i x l s1 heq
    obtain ⟨hi, he⟩ := token_pres_eq heq
    rw [he]
    exact lt_trans (Nat.lt_succ_self _) (Nat.lt_succ_self _)
  · rename_i x l s1 heq
    obtain ⟨hi, he⟩ := token_pres_eq heq
    rw [he]
    exact Nat.lt_succ_self _
  · rename_i xc u s1 heq
    obtain ⟨hi, he⟩ := commentLoop_pres_eq heq
    exact lt_of_lt_of_le (Nat.lt_succ_self _) he
theorem lex_pres : ∀ (fuel : Nat) (s s' : Lexer) (r : LRes (Option (Token TokenKind))),
    Lexer.lex fuel s = (r, s') → s'.input = s.input ∧ s.curEnd ≤ s'.curEnd := by
  intro fuel
  induction fuel with
  | zero =>
    intro s s' r h
    simp [Lexer.lex] at h
    obtain ⟨h1, h2⟩ := h
    subst h2
    exact ⟨rfl, le_refl _⟩
  | succ n ih =>
    intro s s' r h
    unfold Lexer.lex at h
    repeat' split at h
    all_goals try (simp at h; obtain ⟨h1, h2⟩ := h; subst h2)
    · rename_i x token s1 heqO hne x2 s2 heqW
      obtain ⟨hi1, he1⟩ := lexOne_pres (n + 1) s s1 _ heqO
      obtain ⟨hi2, he2⟩ := skipWhitespace_pres (n + 1) s1 s2 heqW
      exact ⟨hi2.trans hi1, le_trans he1 he2⟩
    · rename_i x token s1 heqO hne x2 heqW
      exact lexOne_pres (n + 1) s s1 _ heqO
    · rename_i x token s1 heqO x2
      exact lexOne_pres (n + 1) s s1 _ heqO
    · rename_i x s1 heqO
      exact lexOne_pres (n + 1) s s1 _ heqO
    · rename_i x s1 heqO
      obtain ⟨hi1, he1⟩ := lexOne_pres (n + 1) s s1 _ heqO
      obtain ⟨hi2, he2⟩ := ih s1 s' r h
      exact ⟨hi2.trans hi1, le_trans he1 he2⟩
    · rename_i x e s1 heqO
      exact lexOne_pres (n + 1) s s1 _ heqO
    · rename_i x s1 heqO
      exact lexOne_pres (n + 1) s s1 _ heqO

theorem lex_suff : ∀ (fuel : Nat) (s : Lexer),
    s.remaining < fuel → (Lexer.lex fuel s).1 ≠ .oof := by
  intro fuel
  induction fuel with
  | zero => intro s h; omega
  | succ n ih =>
    intro s h
    unfold Lexer.lex
    repeat' split
    all_goals try simp
    · rename_i x token s1 heqO hne x2 heqW
      obtain ⟨hi1, he1⟩ := lexOne_pres (n + 1) s s1 _ heqO
      have := skipWhitespace_suff (n + 1) s1 (lt_of_le_of_lt (remaining_mono hi1 he1) h)
      rw [heqW] at this
      simp at this
    · rename_i x s1 heqO
      obtain ⟨hi1, he1⟩ := lexOne_pres (n + 1) s s1 _ heqO
      obtain ⟨hlt, hpos⟩ := lexOne_strict (n + 1) s s1 .Comment heqO (by simp)
      have hs1 := remaining_step hi1 hlt
      exact ih s1 (by omega)
    · rename_i x s1 heqO
      have := lexOne_suff (n + 1) s h
      rw [heqO] at this
      simp at this

theorem lex_strict : ∀ (fuel : Nat) (s s' : Lexer) (t : Token TokenKind),
    Lexer.lex fuel s = (.ok (some t), s') →
      s.curEnd < s'.curEnd ∧ 0 < s.remaining := by
  intro fuel
  induction fuel with
  | zero => intro s s' t h; simp [Lexer.lex] at h
  | succ n ih =>
    intro s s' t h
    unfold Lexer.lex at h
    repeat' split at h
    all_goals try simp at h
    all_goals try (obtain ⟨h1, h2⟩ := h; subst h2)
    · rename_i x token s1 heqO hne x2 s2 heqW
      obtain ⟨hlt, hpos⟩ := lexOne_strict (n + 1) s s1 (.Token token) heqO (by simp)
      obtain ⟨hi2, he2⟩ := skipWhitespace_pres (n + 1) s1 s2 heqW
      exact ⟨lt_of_lt_of_le hlt he2, hpos⟩
    · rename_i x token s1 heqO x2
      exact lexOne_strict (n + 1) s s1 (.Token token) heqO (by simp)
    · rename_i x s1 heqO
      obtain ⟨hlt1, hpos⟩ := lexOne_strict (n + 1) s s1 .Comment heqO (by simp)
      obtain ⟨hlt2, _⟩ := ih s1 s' t h
      exact ⟨lt_trans hlt1 hlt2, hpos⟩

theorem lexDecl_pres : ∀ (fuel : Nat) (s s' : Lexer) (r : LRes (Option (Token DeclKind))),
    Lexer.lexDecl fuel s = (r, s') → s'.input = s.input ∧ s.curEnd ≤ s'.curEnd := by
  intro fuel s s' r h
  unfold Lexer.lexDecl at h
  repeat' split at h
  all_goals (simp at h; obtain ⟨h1, h2⟩ := h; subst h2)
  · rename_i x token s1 heqL x2 d heqD
    exact lex_pres fuel s s1 _ heqL
  · rename_i x token s1 heqL x2 heqD
    exact lex_pres fuel s s1 _ heqL
  · rename_i x s1 heqL
    exact lex_pres fuel s s1 _ heqL
  · rename_i x e s1 heqL
    exact lex_pres fuel s s1 _ heqL
  · rename_i x s1 heqL
    exact lex_pres fuel s s1 _ heqL

theorem lexDecl_suff : ∀ (fuel : Nat) (s : Lexer),
    s.remaining < fuel → (Lexer.lexDecl fuel s).1 ≠ .oof := by
  intro fuel s h
  unfold Lexer.lexDecl
  repeat' split
  all_goals try simp
  rename_i x s1 heqL
  have := lex_suff fuel s h
  rw [heqL] at this
  simp at this

theorem lexDecl_strict : ∀ (fuel : Nat) (s s' : Lexer) (d : Token DeclKind),
    Lexer.lexDecl fuel s = (.ok (some d), s') →
      s.curEnd < s'.curEnd ∧ 0 < s.remaining := by
  intro fuel s s' d h
  unfold Lexer.lexDecl at h
  repeat' split at h
  all_goals simp at h
  obtain ⟨h1, h2⟩ := h
  subst h2
  rename_i x token s1 heqL x2 d0 heqD
  exact lex_strict fuel s s1 token heqL
theorem advance_pres (fuel : Nat) (s : Lexer) :
    ((Parser.advance fuel s).2).input = s.input ∧
      s.curEnd ≤ ((Parser.advance fuel s).2).curEnd := by
  unfold Parser.advance
  rcases heq : Lexer.lex fuel s with ⟨r0, s1⟩
  exact lex_pres fuel s s1 r0 heq

theorem advance_suff (fuel : Nat) (s : Lexer) (h : s.remaining < fuel) :
    (Parser.advance fuel s).1 ≠ .oof := by
  unfold Parser.advance
  rcases heq : Lexer.lex fuel s with ⟨r0, s1⟩
  have hl := lex_suff fuel s h
  rw [heq] at hl
  cases r0 with
  | ok a => simp [PRes.ofLex]
  | err e => simp [PRes.ofLex]
  | oof => simp at hl

theorem advance_strict (fuel : Nat) (s s2 : Lexer) (t : Token TokenKind)
    (h : Parser.advance fuel s = (.ok (some t), s2)) :
    s.curEnd < s2.curEnd ∧ 0 < s.remaining := by
  unfold Parser.advance at h
  rcases heq : Lexer.lex fuel s with ⟨r0, s1⟩
  rw [heq] at h
  cases r0 with
  | ok a =>
    simp [PRes.ofLex] at h
    obtain ⟨h1, h2⟩ := h
    subst h1
    subst h2
    exact lex_strict fuel s s1 t heq
  | err e => simp [PRes.ofLex] at h
  | oof => simp [PRes.ofLex] at h

theorem advanceDecl_pres (fuel : Nat) (s : Lexer) :
    ((Parser.advanceDecl fuel s).2).input = s.input ∧
      s.curEnd ≤ ((Parser.advanceDecl fuel s).2).curEnd := by
  unfold Parser.advanceDecl
  rcases heq : Lexer.lexDecl fuel s with ⟨r0, s1⟩
  exact lexDecl_pres fuel s s1 r0 heq

theorem advanceDecl_suff (fuel : Nat) (s : Lexer) (h : s.remaining < fuel) :
    (Parser.advanceDecl fuel s).1 ≠ .oof := by
  unfold Parser.advanceDecl
  rcases heq : Lexer.lexDecl fuel s with ⟨r0, s1⟩
  have hl := lexDecl_suff fuel s h
  rw [heq] at hl
  cases r0 with
  | ok a => simp [PRes.ofLex]
  | err e => simp [PRes.ofLex]
  | oof => simp at hl

theorem advanceDecl_strict (fuel : Nat) (s s2 : Lexer) (t : Token DeclKind)
    (h : Parser.advanceDecl fuel s = (.ok (some t), s2)) :
    s.curEnd < s2.curEnd ∧ 0 < s.remaining := by
  unfold Parser.advanceDecl at h
  rcases heq : Lexer.lexDecl fuel s with ⟨r0, s1⟩
  rw [heq] at h
  cases r0 with
  | ok a =>
    simp [PRes.ofLex] at h
    obtain ⟨h1, h2⟩ := h
    subst h1
    subst h2
    exact lexDecl_strict fuel s s1 t heq
  | err e => simp [PRes.ofLex] at h
  | oof => simp [PRes.ofLex] at h

theorem consume_pres (fuel : Nat) (expected : TokenKind) (s : Lexer) :
    ((Parser.consume fuel expected s).2).input = s.input ∧
      s.curEnd ≤ ((Parser.consume fuel expected s).2).curEnd := by
  unfold Parser.consume
  rcases heq : Parser.advance fuel s with ⟨r0, s1⟩
  have hadv := advance_pres fuel s
  rw [heq] at hadv
  cases r0 with
  | ok o =>
    cases o with
    | none => exact hadv
    | some token =>
      dsimp only
      split
      · exact hadv
      · exact hadv
  | err e => exact hadv
  | panicked => exact hadv
  | oof => exact hadv

theorem consume_suff (fuel : Nat) (expected : TokenKind) (s : Lexer)
    (h : s.remaining < fuel) : (Parser.consume fuel expected s).1 ≠ .oof := by
  unfold Parser.consume
  rcases heq : Parser.advance fuel s with ⟨r0, s1⟩
  have hadv := advance_suff fuel s h
  rw [heq] at hadv
  cases r0 with
  | ok o =>
    cases o with
    | none => simp
    | some token =>
      dsimp only
      split
      · simp
      · simp
  | err e => simp
  | panicked => simp
  | oof => simp at hadv

theorem consume_strict (fuel : Nat) (expected : TokenKind) (s s2 : Lexer)
    (t : Token TokenKind) (h : Parser.consume fuel expected s = (.ok t, s2)) :
    s.curEnd < s2.curEnd ∧ 0 < s.remaining := by
  unfold Parser.consume at h
  rcases heq : Parser.advance fuel s with ⟨r0, s1⟩
  rw [heq] at h
  cases r0 with
  | ok o =>
    cases o with
    | none => simp at h
    | some token =>
      dsimp only at h
      split at h
      · simp at h
        obtain ⟨h1, h2⟩ := h
        subst h2
        exact advance_strict fuel s s1 token heq
      · simp at h
  | err e => simp at h
  | panicked => simp at h
  | oof => simp at h

theorem parseIdentifier_pres (fuel : Nat) (s : Lexer) (arena : Table) :
    ((Parser.parseIdentifier fuel s arena).2.1).input = s.input ∧
      s.curEnd ≤ ((Parser.parseIdentifier fuel s arena).2.1).curEnd := by
  unfold Parser.parseIdentifier
  rcases heq : Parser.consume fuel .Identifier s with ⟨r0, s1⟩
  have hc := consume_pres fuel .Identifier s
  rw [heq] at hc
  cases r0 with
  | ok token =>
    dsimp only
    rcases heqI : Identifier.new arena (s1.lexeme token) with ⟨identifier, arena1⟩
    exact hc
  | err e => exact hc
  | panicked => exact hc
  | oof => exact hc

theorem parseIdentifier_suff (fuel : Nat) (s : Lexer) (arena : Table)
    (h : s.remaining < fuel) : (Parser.parseIdentifier fuel s arena).1 ≠ .oof := by
  unfold Parser.parseIdentifier
  rcases heq : Parser.consume fuel .Identifier s with ⟨r0, s1⟩
  have hc := consume_suff fuel .Identifier s h
  rw [heq] at hc
  cases r0 with
  | ok token =>
    dsimp only
    rcases heqI : Identifier.new arena (s1.lexeme token) with ⟨identifier, arena1⟩
    simp
  | err e => simp
  | panicked => simp
  | oof => simp at hc

theorem parseIdentifier_strict (fuel : Nat) (s s2 : Lexer) (arena arena2 : Table)
    (i : Identifier) (h : Parser.parseIdentifier fuel s arena = (.ok i, s2, arena2)) :
    s.curEnd < s2.curEnd ∧ 0 < s.remaining := by
  unfold Parser.parseIdentifier at h
  rcases heq : Parser.consume fuel .Identifier s with ⟨r0, s1⟩
  rw [heq] at h
  cases r0 with
  | ok token =>
    dsimp only at h
    rcases heqI : Identifier.new arena (s1.lexeme token) with ⟨identifier, arena1⟩
    rw [heqI] at h
    simp at h
    obtain ⟨h1, h2, h3⟩ := h
    subst h2
    exact consume_strict fuel .Identifier s s1 token heq
  | err e => simp at h
  | panicked => simp at h
  | oof => simp at h

theorem parseValue_pres (fuel : Nat) (s : Lexer) (arena : Table) :
    ((Parser.parseValue fuel s arena).2.1).input = s.input ∧
      s.curEnd ≤ ((Parser.parseValue fuel s arena).2.1).curEnd := by
  unfold Parser.parseValue
  rcases heq : Lexer.lexValue fuel s arena with ⟨r0, s1, arena1⟩
  have hv := lexValue_pres fuel s s1 arena arena1 r0 heq
  cases r0 with
  | ok o =>
    cases o with
    | none => exact hv
    | some value => exact hv
  | err e => exact hv
  | oof => exact hv

theorem parseValue_suff (fuel : Nat) (s : Lexer) (arena : Table)
    (h : s.remaining < fuel) : (Parser.parseValue fuel s arena).1 ≠ .oof := by
  unfold Parser.parseValue
  rcases heq : Lexer.lexValue fuel s arena with ⟨r0, s1, arena1⟩
  have hv := lexValue_suff fuel s arena h
  rw [heq] at hv
  cases r0 with
  | ok o =>
    cases o with
    | none => simp
    | some value => simp
  | err e => simp
  | oof => simp at hv

theorem parseTarget_pres (fuel : Nat) (s : Lexer) (arena : Table) :
    ((Parser.parseTarget fuel s arena).2.1).input = s.input ∧
      s.curEnd ≤ ((Parser.parseTarget fuel s arena).2.1).curEnd := by
  unfold Parser.parseTarget
  rcases heq : Lexer.lexTarget fuel s arena with ⟨r0, s1, arena1⟩
  have hv := lexTarget_pres fuel s s1 arena arena1 r0 heq
  cases r0 with
  | ok o =>
    cases o with
    | none => exact hv
    | some value => exact hv
  | err e => exact hv
  | oof => exact hv

theorem parseTarget_suff (fuel : Nat) (s : Lexer) (arena : Table)
    (h : s.remaining < fuel) : (Parser.parseTarget fuel s arena).1 ≠ .oof := by
  unfold Parser.parseTarget
  rcases heq : Lexer.lexTarget fuel s arena with ⟨r0, s1, arena1⟩
  have hv := lexTarget_suff fuel s arena h
  rw [heq] at hv
  cases r0 with
  | ok o =>
    cases o with
    | none => simp
    | some value => simp
  | err e => simp
  | oof => simp at hv

theorem parseTarget_strict (fuel : Nat) (s s2 : Lexer) (arena arena2 : Table)
    (t : Target) (h : Parser.parseTarget fuel s arena = (.ok (some t), s2, arena2)) :
    s.curEnd < s2.curEnd ∧ 0 < s.remaining := by
  unfold Parser.parseTarget at h
  rcases heq : Lexer.lexTarget fuel s arena with ⟨r0, s1, arena1⟩
  rw [heq] at h
  cases r0 with
  | ok o =>
    cases o with
    | none => simp at h
    | some value =>
      simp at h
      obtain ⟨h1, h2, h3⟩ := h
      subst h2
      exact lexTarget_strict fuel s s1 arena arena1 value heq
  | err e => simp at h
  | oof => simp at h

theorem parseTargets_pres : ∀ (fuel : Nat) (s : Lexer) (arena : Table),
    ((Parser.parseTargets fuel s arena).2.1).input = s.input ∧
      s.curEnd ≤ ((Parser.parseTargets fuel s arena).2.1).curEnd := by
  intro fuel
  induction fuel with
  | zero => intro s arena; exact ⟨rfl, le_refl _⟩
  | succ n ih =>
    intro s arena
    unfold Parser.parseTargets
    rcases heqT : Parser.parseTarget (n + 1) s arena with ⟨r0, s1, arena1⟩
    have hT := parseTarget_pres (n + 1) s arena
    rw [heqT] at hT
    cases r0 with
    | ok o =>
      cases o with
      | none => exact hT
      | some target =>
        dsimp only
        rcases heqR : Parser.parseTargets n s1 arena1 with ⟨r1, s2, arena2⟩
        have hR := ih s1 arena1
        rw [heqR] at hR
        cases r1 with
        | ok ts => exact ⟨hR.1.trans hT.1, le_trans hT.2 hR.2⟩
        | err e => exact ⟨hR.1.trans hT.1, le_trans hT.2 hR.2⟩
        | panicked => exact ⟨hR.1.trans hT.1, le_trans hT.2 hR.2⟩
        | oof => exact ⟨hR.1.trans hT.1, le_trans hT.2 hR.2⟩
    | err e => exact hT
    | panicked => exact hT
    | oof => exact hT

theorem parseTargets_suff : ∀ (fuel : Nat) (s : Lexer) (arena : Table),
    s.remaining < fuel → (Parser.parseTargets fuel s arena).1 ≠ .oof := by
  intro fuel
  induction fuel with
  | zero => intro s arena h; omega
  | succ n ih =>
    intro s arena h
    unfold Parser.parseTargets
    rcases heqT : Parser.parseTarget (n + 1) s arena with ⟨r0, s1, arena1⟩
    cases r0 with
    | ok o =>
      cases o with
      | none => simp
      | some target =>
        dsimp only
        have hT := parseTarget_pres (n + 1) s arena
        rw [heqT] at hT
        dsimp only at hT
        obtain ⟨hlt, hpos⟩ := parseTarget_strict (n + 1) s s1 arena arena1 target heqT
        have hstep := remaining_step hT.1 hlt
        have hrec := ih s1 arena1 (by omega)
        rcases heqR : Parser.parseTargets n s1 arena1 with ⟨r1, s2, arena2⟩
        rw [heqR] at hrec
        cases r1 with
        | ok ts => simp
        | err e => simp
        | panicked => simp
        | oof => simp at hrec
    | err e => simp
    | panicked => simp
    | oof =>
      have hv := parseTarget_suff (n + 1) s arena h
      rw [heqT] at hv
      simp at hv
theorem parseBinding_pres (fuel : Nat) (s : Lexer) (scopes : Scopes) (arena : Table) :
    ((Parser.parseBinding fuel s scopes arena).2.1).input = s.input ∧
      s.curEnd ≤ ((Parser.parseBinding fuel s scopes arena).2.1).curEnd := by
  unfold Parser.parseBinding
  rcases heqI : Parser.parseIdentifier fuel s arena with ⟨rI, s1, arena1⟩
  have hI := parseIdentifier_pres fuel s arena
  rw [heqI] at hI
  dsimp only at hI
  cases rI with
  | ok identifier =>
    dsimp only
    rcases heqE : Parser.consume fuel .Equal s1 with ⟨rE, s2⟩
    have hE := consume_pres fuel .Equal s1
    rw [heqE] at hE
    dsimp only at hE
    cases rE with
    | ok tokE =>
      dsimp only
      rcases heqV : Parser.parseValue fuel s2 arena1 with ⟨rV, s3, arena2⟩
      have hV := parseValue_pres fuel s2 arena1
      rw [heqV] at hV
      dsimp only at hV
      cases rV with
      | ok o =>
        cases o with
        | none => exact ⟨(hV.1.trans hE.1).trans hI.1, le_trans hI.2 (le_trans hE.2 hV.2)⟩
        | some value =>
          dsimp only
          rcases heqN : Parser.consume fuel .Newline s3 with ⟨rN, s4⟩
          have hN := consume_pres fuel .Newline s3
          rw [heqN] at hN
          dsimp only at hN
          have hc : s4.input = s.input ∧ s.curEnd ≤ s4.curEnd :=
            ⟨((hN.1.trans hV.1).trans hE.1).trans hI.1,
              le_trans hI.2 (le_trans hE.2 (le_trans hV.2 hN.2))⟩
          cases rN with
          | ok tokN => exact hc
          | err e => exact hc
          | panicked => exact hc
          | oof => exact hc
      | err e => exact ⟨(hV.1.trans hE.1).trans hI.1, le_trans hI.2 (le_trans hE.2 hV.2)⟩
      | panicked => exact ⟨(hV.1.trans hE.1).trans hI.1, le_trans hI.2 (le_trans hE.2 hV.2)⟩
      | oof => exact ⟨(hV.1.trans hE.1).trans hI.1, le_trans hI.2 (le_trans hE.2 hV.2)⟩
    | err e => exact ⟨hE.1.trans hI.1, le_trans hI.2 hE.2⟩
    | panicked => exact ⟨hE.1.trans hI.1, le_trans hI.2 hE.2⟩
    | oof => exact ⟨hE.1.trans hI.1, le_trans hI.2 hE.2⟩
  | err e => exact hI
  | panicked => exact hI
  | oof => exact hI

theorem parseBinding_suff (fuel : Nat) (s : Lexer) (scopes : Scopes) (arena : Table)
    (h : s.remaining < fuel) : (Parser.parseBinding fuel s scopes arena).1 ≠ .oof := by
  unfold Parser.parseBinding
  rcases heqI : Parser.parseIdentifier fuel s arena with ⟨rI, s1, arena1⟩
  have hI := parseIdentifier_pres fuel s arena
  rw [heqI] at hI
  dsimp only at hI
  cases rI with
  | ok identifier =>
    dsimp only
    rcases heqE : Parser.consume fuel .Equal s1 with ⟨rE, s2⟩
    have hE := consume_pres fuel .Equal s1
    rw [heqE] at hE
    dsimp only at hE
    cases rE with
    | ok tokE =>
      dsimp only
      rcases heqV : Parser.parseValue fuel s2 arena1 with ⟨rV, s3, arena2⟩
      have hV := parseValue_pres fuel s2 arena1
      rw [heqV] at hV
      dsimp only at hV
      cases rV with
      | ok o =>
        cases o with
        | none => simp
        | some value =>
          dsimp only
          rcases heqN : Parser.consume fuel .Newline s3 with ⟨rN, s4⟩
          cases rN with
          | ok tokN => simp
          | err e => simp
          | panicked => simp
          | oof =>
            have hc := consume_suff fuel .Newline s3
              (lt_of_le_of_lt (remaining_mono ((hV.1.trans hE.1).trans hI.1)
                (le_trans hI.2 (le_trans hE.2 hV.2))) h)
            rw [heqN] at hc
            simp at hc
      | err e => simp
      | panicked => simp
      | oof =>
        have hc := parseValue_suff fuel s2 arena1
          (lt_of_le_of_lt (remaining_mono (hE.1.trans hI.1) (le_trans hI.2 hE.2)) h)
        rw [heqV] at hc
        simp at hc
    | err e => simp
    | panicked => simp
    | oof =>
      have hc := consume_suff fuel .Equal s1
        (lt_of_le_of_lt (remaining_mono hI.1 hI.2) h)
      rw [heqE] at hc
      simp at hc
  | err e => simp
  | panicked => simp
  | oof =>
    have hc := parseIdentifier_suff fuel s arena h
    rw [heqI] at hc
    simp at hc

theorem parseBinding_strict (fuel : Nat) (s s9 : Lexer) (scopes scopes9 : Scopes)
    (arena arena9 : Table) (b : Binding)
    (h : Parser.parseBinding fuel s scopes arena = (.ok b, s9, scopes9, arena9)) :
    s.curEnd < s9.curEnd ∧ 0 < s.remaining := by
  unfold Parser.parseBinding at h
  rcases heqI : Parser.parseIdentifier fuel s arena with ⟨rI, s1, arena1⟩
  rw [heqI] at h
  cases rI with
  | ok identifier =>
    dsimp only at h
    rcases heqE : Parser.consume fuel .Equal s1 with ⟨rE, s2⟩
    rw [heqE] at h
    have hE := consume_pres fuel .Equal s1
    rw [heqE] at hE
    dsimp only at hE
    cases rE with
    | ok tokE =>
      dsimp only at h
      rcases heqV : Parser.parseValue fuel s2 arena1 with ⟨rV, s3, arena2⟩
      rw [heqV] at h
      have hV := parseValue_pres fuel s2 arena1
      rw [heqV] at hV
      dsimp only at hV
      cases rV with
      | ok o =>
        cases o with
        | none => simp at h
        | some value =>
          dsimp only at h
          rcases heqN : Parser.consume fuel .Newline s3 with ⟨rN, s4⟩
          rw [heqN] at h
          have hN := consume_pres fuel .Newline s3
          rw [heqN] at hN
          dsimp only at hN
          cases rN with
          | ok tokN =>
            simp at h
            obtain ⟨h1, h2, h3, h4⟩ := h
            subst h2
            obtain ⟨hlt, hpos⟩ := parseIdentifier_strict fuel s s1 arena arena1 identifier heqI
            exact ⟨lt_of_lt_of_le hlt (le_trans hE.2 (le_trans hV.2 hN.2)), hpos⟩
          | err e => simp at h
          | panicked => simp at h
          | oof => simp at h
      | err e => simp at h
      | panicked => simp at h
      | oof => simp at h
    | err e => simp at h
    | panicked => simp at h
    | oof => simp at h
  | err e => simp at h
  | panicked => simp at h
  | oof => simp at h

theorem parseBindings_pres : ∀ (fuel : Nat) (s : Lexer) (scopes : Scopes)
    (arena : Table) (bindings : List Binding),
    ((Parser.parseBindings fuel s scopes arena bindings).2.1).input = s.input ∧
      s.curEnd ≤ ((Parser.parseBindings fuel s scopes arena bindings).2.1).curEnd := by
  intro fuel
  induction fuel with
  | zero => intro s scopes arena bindings; exact ⟨rfl, le_refl _⟩
  | succ n ih =>
    intro s scopes arena bindings
    unfold Parser.parseBindings
    split
    · rcases heqC : Parser.consume (n + 1) .Indent s with ⟨rC, s1⟩
      have hC := consume_pres (n + 1) .Indent s
      rw [heqC] at hC
      dsimp only at hC
      dsimp only
      rcases heqB : Parser.parseBinding (n + 1) s1 scopes arena with ⟨rB, s2, scopes2, arena2⟩
      have hB := parseBinding_pres (n + 1) s1 scopes arena
      rw [heqB] at hB
      dsimp only at hB
      cases rB with
      | ok binding =>
        dsimp only
        have hR := ih s2 scopes2 arena2 (bindings ++ [binding])
        exact ⟨hR.1.trans (hB.1.trans hC.1), le_trans hC.2 (le_trans hB.2 hR.2)⟩
      | err e => exact ⟨hB.1.trans hC.1, le_trans hC.2 hB.2⟩
      | panicked => exact ⟨hB.1.trans hC.1, le_trans hC.2 hB.2⟩
      | oof => exact ⟨hB.1.trans hC.1, le_trans hC.2 hB.2⟩
    · exact ⟨rfl, le_refl _⟩

theorem parseBindings_suff : ∀ (fuel : Nat) (s : Lexer) (scopes : Scopes)
    (arena : Table) (bindings : List Binding),
    s.remaining < fuel → (Parser.parseBindings fuel s scopes arena bindings).1 ≠ .oof := by
  intro fuel
  induction fuel with
  | zero => intro s scopes arena bindings h; omega
  | succ n ih =>
    intro s scopes arena bindings h
    unfold Parser.parseBindings
    split
    · rcases heqC : Parser.consume (n + 1) .Indent s with ⟨rC, s1⟩
      have hC := consume_pres (n + 1) .Indent s
      rw [heqC] at hC
      dsimp only at hC
      dsimp only
      rcases heqB : Parser.parseBinding (n + 1) s1 scopes arena with ⟨rB, s2, scopes2, arena2⟩
      have hB := parseBinding_pres (n + 1) s1 scopes arena
      rw [heqB] at hB
      dsimp only at hB
      cases rB with
      | ok binding =>
        dsimp only
        have hm1 := remaining_mono hC.1 hC.2
        obtain ⟨hlt, hpos⟩ := parseBinding_strict (n + 1) s1 s2 scopes scopes2
          arena arena2 binding heqB
        have hstep := remaining_step hB.1 hlt
        exact ih s2 scopes2 arena2 (bindings ++ [binding]) (by omega)
      | err e => simp
      | panicked => simp
      | oof =>
        have hc := parseBinding_suff (n + 1) s1 scopes arena
          (lt_of_le_of_lt (remaining_mono hC.1 hC.2) h)
        rw [heqB] at hc
        simp at hc
    · simp

theorem parseScope_pres (fuel : Nat) (s : Lexer) (scopes : Scopes) (arena : Table) :
    ((Parser.parseScope fuel s scopes arena).2.1).input = s.input ∧
      s.curEnd ≤ ((Parser.parseScope fuel s scopes arena).2.1).curEnd := by
  unfold Parser.parseScope
  rcases heqB : Parser.parseBindings fuel s scopes arena [] with ⟨rB, s1, scopes1, arena1⟩
  have hB := parseBindings_pres fuel s scopes arena []
  rw [heqB] at hB
  dsimp only at hB
  cases rB with
  | ok bindings =>
    dsimp only
    rcases heqN : scopes1.newScope bindings with ⟨id, scopes2⟩ | e
    · exact hB
    · exact hB
  | err e => exact hB
  | panicked => exact hB
  | oof => exact hB

theorem parseScope_suff (fuel : Nat) (s : Lexer) (scopes : Scopes) (arena : Table)
    (h : s.remaining < fuel) : (Parser.parseScope fuel s scopes arena).1 ≠ .oof := by
  unfold Parser.parseScope
  rcases heqB : Parser.parseBindings fuel s scopes arena [] with ⟨rB, s1, scopes1, arena1⟩
  cases rB with
  | ok bindings =>
    dsimp only
    rcases heqN : scopes1.newScope bindings with ⟨id, scopes2⟩ | e
    · simp
    · simp
  | err e => simp
  | panicked => simp
  | oof =>
    have hc := parseBindings_suff fuel s scopes arena [] h
    rw [heqB] at hc
    simp at hc
theorem parseTopLevelBinding_pres (fuel : Nat) (identifier : Identifier) (s : Lexer)
    (scopes : Scopes) (arena : Table) :
    ((Parser.parseTopLevelBinding fuel identifier s scopes arena).2.1).input = s.input ∧
      s.curEnd ≤ ((Parser.parseTopLevelBinding fuel identifier s scopes arena).2.1).curEnd := by
  unfold Parser.parseTopLevelBinding
  rcases heqE : Parser.consume fuel .Equal s with ⟨rE, s1⟩
  have hE := consume_pres fuel .Equal s
  rw [heqE] at hE
  dsimp only at hE
  cases rE with
  | ok tokE =>
    dsimp only
    rcases heqV : Parser.parseValue fuel s1 arena with ⟨rV, s2, arena1⟩
    have hV := parseValue_pres fuel s1 arena
    rw [heqV] at hV
    dsimp only at hV
    cases rV with
    | ok o =>
      cases o with
      | none => exact ⟨hV.1.trans hE.1, le_trans hE.2 hV.2⟩
      | some value =>
        dsimp only
        rcases heqN : Parser.consume fuel .Newline s2 with ⟨rN, s3⟩
        have hN := consume_pres fuel .Newline s2
        rw [heqN] at hN
        dsimp only at hN
        have hc : s3.input = s.input ∧ s.curEnd ≤ s3.curEnd :=
          ⟨(hN.1.trans hV.1).trans hE.1, le_trans hE.2 (le_trans hV.2 hN.2)⟩
        cases rN with
        | ok tokN => exact hc
        | err e => exact hc
        | panicked => exact hc
        | oof => exact hc
    | err e => exact ⟨hV.1.trans hE.1, le_trans hE.2 hV.2⟩
    | panicked => exact ⟨hV.1.trans hE.1, le_trans hE.2 hV.2⟩
    | oof => exact ⟨hV.1.trans hE.1, le_trans hE.2 hV.2⟩
  | err e => exact hE
  | panicked => exact hE
  | oof => exact hE

theorem parseTopLevelBinding_suff (fuel : Nat) (identifier : Identifier) (s : Lexer)
    (scopes : Scopes) (arena : Table) (h : s.remaining < fuel) :
    (Parser.parseTopLevelBinding fuel identifier s scopes arena).1 ≠ .oof := by
  unfold Parser.parseTopLevelBinding
  rcases heqE : Parser.consume fuel .Equal s with ⟨rE, s1⟩
  have hE := consume_pres fuel .Equal s
  rw [heqE] at hE
  dsimp only at hE
  cases rE with
  | ok tokE =>
    dsimp only
    rcases heqV : Parser.parseValue fuel s1 arena with ⟨rV, s2, arena1⟩
    have hV := parseValue_pres fuel s1 arena
    rw [heqV] at hV
    dsimp only at hV
    cases rV with
    | ok o =>
      cases o with
      | none => simp
      | some value =>
        dsimp only
        rcases heqN : Parser.consume fuel .Newline s2 with ⟨rN, s3⟩
        cases rN with
        | ok tokN => simp
        | err e => simp
        | panicked => simp
        | oof =>
          have hc := consume_suff fuel .Newline s2
            (lt_of_le_of_lt (remaining_mono (hV.1.trans hE.1)
              (le_trans hE.2 hV.2)) h)
          rw [heqN] at hc
          simp at hc
    | err e => simp
    | panicked => simp
    | oof =>
      have hc := parseValue_suff fuel s1 arena
        (lt_of_le_of_lt (remaining_mono hE.1 hE.2) h)
      rw [heqV] at hc
      simp at hc
  | err e => simp
  | panicked => simp
  | oof =>
    have hc := consume_suff fuel .Equal s h
    rw [heqE] at hc
    simp at hc

theorem parseRule_pres (fuel : Nat) (s : Lexer) (scopes : Scopes) (arena : Table) :
    ((Parser.parseRule fuel s scopes arena).2.1).input = s.input ∧
      s.curEnd ≤ ((Parser.parseRule fuel s scopes arena).2.1).curEnd := by
  unfold Parser.parseRule
  rcases heqI : Parser.parseIdentifier fuel s arena with ⟨rI, s1, arena1⟩
  have hI := parseIdentifier_pres fuel s arena
  rw [heqI] at hI
  dsimp only at hI
  cases rI with
  | ok name =>
    dsimp only
    rcases heqN : Parser.consume fuel .Newline s1 with ⟨rN, s2⟩
    have hN := consume_pres fuel .Newline s1
    rw [heqN] at hN
    dsimp only at hN
    cases rN with
    | ok tokN =>
      dsimp only
      rcases heqS : Parser.parseScope fuel s2 scopes arena1 with ⟨rS, s3, scopes3, arena3⟩
      have hS := parseScope_pres fuel s2 scopes arena1
      rw [heqS] at hS
      dsimp only at hS
      have hc : s3.input = s.input ∧ s.curEnd ≤ s3.curEnd :=
        ⟨(hS.1.trans hN.1).trans hI.1, le_trans hI.2 (le_trans hN.2 hS.2)⟩
      cases rS with
      | ok scope => exact hc
      | err e => exact hc
      | panicked => exact hc
      | oof => exact hc
    | err e => exact ⟨hN.1.trans hI.1, le_trans hI.2 hN.2⟩
    | panicked => exact ⟨hN.1.trans hI.1, le_trans hI.2 hN.2⟩
    | oof => exact ⟨hN.1.trans hI.1, le_trans hI.2 hN.2⟩
  | err e => exact hI
  | panicked => exact hI
  | oof => exact hI

theorem parseRule_suff (fuel : Nat) (s : Lexer) (scopes : Scopes) (arena : Table)
    (h : s.remaining < fuel) : (Parser.parseRule fuel s scopes arena).1 ≠ .oof := by
  unfold Parser.parseRule
  rcases heqI : Parser.parseIdentifier fuel s arena with ⟨rI, s1, arena1⟩
  have hI := parseIdentifier_pres fuel s arena
  rw [heqI] at hI
  dsimp only at hI
  cases rI with
  | ok name =>
    dsimp only
    rcases heqN : Parser.consume fuel .Newline s1 with ⟨rN, s2⟩
    have hN := consume_pres fuel .Newline s1
    rw [heqN] at hN
    dsimp only at hN
    cases rN with
    | ok tokN =>
      dsimp only
      rcases heqS : Parser.parseScope fuel s2 scopes arena1 with ⟨rS, s3, scopes3, arena3⟩
      cases rS with
      | ok scope => simp
      | err e => simp
      | panicked => simp
      | oof =>
        have hc := parseScope_suff fuel s2 scopes arena1
          (lt_of_le_of_lt (remaining_mono (hN.1.trans hI.1)
            (le_trans hI.2 hN.2)) h)
        rw [heqS] at hc
        simp at hc
    | err e => simp
    | panicked => simp
    | oof =>
      have hc := consume_suff fuel .Newline s1
        (lt_of_le_of_lt (remaining_mono hI.1 hI.2) h)
      rw [heqN] at hc
      simp at hc
  | err e => simp
  | panicked => simp
  | oof =>
    have hc := parseIdentifier_suff fuel s arena h
    rw [heqI] at hc
    simp at hc

theorem parseDefault_pres (fuel : Nat) (s : Lexer) (arena : Table) :
    ((Parser.parseDefault fuel s arena).2.1).input = s.input ∧
      s.curEnd ≤ ((Parser.parseDefault fuel s arena).2.1).curEnd := by
  unfold Parser.parseDefault
  rcases heqT : Parser.parseTargets fuel s arena with ⟨rT, s1, arena1⟩
  have hT := parseTargets_pres fuel s arena
  rw [heqT] at hT
  dsimp only at hT
  cases rT with
  | ok targets =>
    dsimp only
    rcases heqN : Parser.consume fuel .Newline s1 with ⟨rN, s2⟩
    have hN := consume_pres fuel .Newline s1
    rw [heqN] at hN
    dsimp only at hN
    have hc : s2.input = s.input ∧ s.curEnd ≤ s2.curEnd :=
      ⟨hN.1.trans hT.1, le_trans hT.2 hN.2⟩
    cases rN with
    | ok tokN => exact hc
    | err e => exact hc
    | panicked => exact hc
    | oof => exact hc
  | err e => exact hT
  | panicked => exact hT
  | oof => exact hT

theorem parseDefault_suff (fuel : Nat) (s : Lexer) (arena : Table)
    (h : s.remaining < fuel) : (Parser.parseDefault fuel s arena).1 ≠ .oof := by
  unfold Parser.parseDefault
  rcases heqT : Parser.parseTargets fuel s arena with ⟨rT, s1, arena1⟩
  have hT := parseTargets_pres fuel s arena
  rw [heqT] at hT
  dsimp only at hT
  cases rT with
  | ok targets =>
    dsimp only
    rcases heqN : Parser.consume fuel .Newline s1 with ⟨rN, s2⟩
    cases rN with
    | ok tokN => simp
    | err e => simp
    | panicked => simp
    | oof =>
      have hc := consume_suff fuel .Newline s1
        (lt_of_le_of_lt (remaining_mono hT.1 hT.2) h)
      rw [heqN] at hc
      simp at hc
  | err e => simp
  | panicked => simp
  | oof =>
    have hc := parseTargets_suff fuel s arena h
    rw [heqT] at hc
    simp at hc

theorem parsePool_pres (fuel : Nat) (s : Lexer) (scopes : Scopes) (arena : Table) :
    ((Parser.parsePool fuel s scopes arena).2.1).input = s.input ∧
      s.curEnd ≤ ((Parser.parsePool fuel s scopes arena).2.1).curEnd := by
  unfold Parser.parsePool
  rcases heqI : Parser.parseIdentifier fuel s arena with ⟨rI, s1, arena1⟩
  have hI := parseIdentifier_pres fuel s arena
  rw [heqI] at hI
  dsimp only at hI
  cases rI with
  | ok name =>
    dsimp only
    rcases heqN : Parser.consume fuel .Newline s1 with ⟨rN, s2⟩
    have hN := consume_pres fuel .Newline s1
    rw [heqN] at hN
    dsimp only at hN
    cases rN with
    | ok tokN =>
      dsimp only
      rcases heqS : Parser.parseScope fuel s2 scopes arena1 with ⟨rS, s3, scopes3, arena3⟩
      have hS := parseScope_pres fuel s2 scopes arena1
      rw [heqS] at hS
      dsimp only at hS
      have hc : s3.input = s.input ∧ s.curEnd ≤ s3.curEnd :=
        ⟨(hS.1.trans hN.1).trans hI.1, le_trans hI.2 (le_trans hN.2 hS.2)⟩
      cases rS with
      | ok scope_id =>
        dsimp only
        split
        · exact hc
        · rcases heqD : Identifier.new arena3 (bs "depth") with ⟨depthId, arena4⟩
          dsimp only
          rcases heqG : (Scopes.getScope scopes3 scope_id).get depthId with _ | depth
          · exact hc
          · dsimp only
            split
            · exact hc
            · rcases heqU : parseUsize depth with _ | d
              · exact hc
              · exact hc
      | err e => exact hc
      | panicked => exact hc
      | oof => exact hc
    | err e => exact ⟨hN.1.trans hI.1, le_trans hI.2 hN.2⟩
    | panicked => exact ⟨hN.1.trans hI.1, le_trans hI.2 hN.2⟩
    | oof => exact ⟨hN.1.trans hI.1, le_trans hI.2 hN.2⟩
  | err e => exact hI
  | panicked => exact hI
  | oof => exact hI

theorem parsePool_suff (fuel : Nat) (s : Lexer) (scopes : Scopes) (arena : Table)
    (h : s.remaining < fuel) : (Parser.parsePool fuel s scopes arena).1 ≠ .oof := by
  unfold Parser.parsePool
  rcases heqI : Parser.parseIdentifier fuel s arena with ⟨rI, s1, arena1⟩
  have hI := parseIdentifier_pres fuel s arena
  rw [heqI] at hI
  dsimp only at hI
  cases rI with
  | ok name =>
    dsimp only
    rcases heqN : Parser.consume fuel .Newline s1 with ⟨rN, s2⟩
    have hN := consume_pres fuel .Newline s1
    rw [heqN] at hN
    dsimp only at hN
    cases rN with
    | ok tokN =>
      dsimp only
      rcases heqS : Parser.parseScope fuel s2 scopes arena1 with ⟨rS, s3, scopes3, arena3⟩
      cases rS with
      | ok scope_id =>
        dsimp only
        split
        · simp
        · rcases heqD : Identifier.new arena3 (bs "depth") with ⟨depthId, arena4⟩
          dsimp only
          rcases heqG : (Scopes.getScope scopes3 scope_id).get depthId with _ | depth
          · simp
          · dsimp only
            split
            · simp
            · rcases heqU : parseUsize depth with _ | d
              · simp
              · simp
      | err e => simp
      | panicked => simp
      | oof =>
        have hc := parseScope_suff fuel s2 scopes arena1
          (lt_of_le_of_lt (remaining_mono (hN.1.trans hI.1)
            (le_trans hI.2 hN.2)) h)
        rw [heqS] at hc
        simp at hc
    | err e => simp
    | panicked => simp
    | oof =>
      have hc := consume_suff fuel .Newline s1
        (lt_of_le_of_lt (remaining_mono hI.1 hI.2) h)
      rw [heqN] at hc
      simp at hc
  | err e => simp
  | panicked => simp
  | oof =>
    have hc := parseIdentifier_suff fuel s arena h
    rw [heqI] at hc
    simp at hc
theorem parseBuildColon_pres (fuel : Nat) (s : Lexer) (arena : Table) :
    ((Parser.parseBuildColon fuel s arena).2.1).input = s.input ∧
      s.curEnd ≤ ((Parser.parseBuildColon fuel s arena).2.1).curEnd := by
  unfold Parser.parseBuildColon
  rcases heqA : Parser.advance fuel s with ⟨rA, s1⟩
  have hA := advance_pres fuel s
  rw [heqA] at hA
  dsimp only at hA
  cases rA with
  | ok o =>
    cases o with
    | none => exact hA
    | some token =>
      dsimp only
      cases htk : token.kind with
      | Pipe =>
        dsimp only
        rcases heqT : Parser.parseTargets fuel s1 arena with ⟨rT, s2, arena2⟩
        have hT := parseTargets_pres fuel s1 arena
        rw [heqT] at hT
        dsimp only at hT
        cases rT with
        | ok implicit_outputs =>
          dsimp only
          rcases heqC : Parser.consume fuel .Colon s2 with ⟨rC, s3⟩
          have hC := consume_pres fuel .Colon s2
          rw [heqC] at hC
          dsimp only at hC
          have hc : s3.input = s.input ∧ s.curEnd ≤ s3.curEnd :=
            ⟨(hC.1.trans hT.1).trans hA.1, le_trans hA.2 (le_trans hT.2 hC.2)⟩
          cases rC with
          | ok t => exact hc
          | err e => exact hc
          | panicked => exact hc
          | oof => exact hc
        | err e => exact ⟨hT.1.trans hA.1, le_trans hA.2 hT.2⟩
        | panicked => exact ⟨hT.1.trans hA.1, le_trans hA.2 hT.2⟩
        | oof => exact ⟨hT.1.trans hA.1, le_trans hA.2 hT.2⟩
      | PipePipe => exact hA
      | Equal => exact hA
      | Colon => exact hA
      | Identifier => exact hA
      | Newline => exact hA
      | Indent => exact hA
  | err e => exact hA
  | panicked => exact hA
  | oof => exact hA

theorem parseBuildColon_suff (fuel : Nat) (s : Lexer) (arena : Table)
    (h : s.remaining < fuel) : (Parser.parseBuildColon fuel s arena).1 ≠ .oof := by
  unfold Parser.parseBuildColon
  rcases heqA : Parser.advance fuel s with ⟨rA, s1⟩
  have hA := advance_pres fuel s
  rw [heqA] at hA
  dsimp only at hA
  cases rA with
  | ok o =>
    cases o with
    | none => simp
    | some token =>
      dsimp only
      cases htk : token.kind with
      | Pipe =>
        dsimp only
        rcases heqT : Parser.parseTargets fuel s1 arena with ⟨rT, s2, arena2⟩
        have hT := parseTargets_pres fuel s1 arena
        rw [heqT] at hT
        dsimp only at hT
        cases rT with
        | ok implicit_outputs =>
          dsimp only
          rcases heqC : Parser.consume fuel .Colon s2 with ⟨rC, s3⟩
          cases rC with
          | ok t => simp
          | err e => simp
          | panicked => simp
          | oof =>
            have hc := consume_suff fuel .Colon s2
              (lt_of_le_of_lt (remaining_mono (hT.1.trans hA.1)
                (le_trans hA.2 hT.2)) h)
            rw [heqC] at hc
            simp at hc
        | err e => simp
        | panicked => simp
        | oof =>
          have hc := parseTargets_suff fuel s1 arena
            (lt_of_le_of_lt (remaining_mono hA.1 hA.2) h)
          rw [heqT] at hc
          simp at hc
      | PipePipe => simp
      | Equal => simp
      | Colon => simp
      | Identifier => simp
      | Newline => simp
      | Indent => simp
  | err e => simp
  | panicked => simp
  | oof =>
    have hc := advance_suff fuel s h
    rw [heqA] at hc
    simp at hc

theorem parseBuildNewline_pres (fuel : Nat) (s : Lexer) (arena : Table) :
    ((Parser.parseBuildNewline fuel s arena).2.1).input = s.input ∧
      s.curEnd ≤ ((Parser.parseBuildNewline fuel s arena).2.1).curEnd := by
  unfold Parser.parseBuildNewline
  rcases heqA : Parser.advance fuel s with ⟨rA, s1⟩
  have hA := advance_pres fuel s
  rw [heqA] at hA
  dsimp only at hA
  cases rA with
  | ok o =>
    cases o with
    | none => exact hA
    | some token =>
      dsimp only
      cases htk : token.kind with
      | Newline => exact hA
      | Pipe =>
        dsimp only
        rcases heqT : Parser.parseTargets fuel s1 arena with ⟨rT, s2, arena2⟩
        have hT := parseTargets_pres fuel s1 arena
        rw [heqT] at hT
        dsimp only at hT
        have h2 : s2.input = s.input ∧ s.curEnd ≤ s2.curEnd :=
          ⟨hT.1.trans hA.1, le_trans hA.2 hT.2⟩
        cases rT with
        | ok implicit_inputs =>
          dsimp only
          rcases heqA2 : Parser.advance fuel s2 with ⟨rA2, s3⟩
          have hA2 := advance_pres fuel s2
          rw [heqA2] at hA2
          dsimp only at hA2
          have h3 : s3.input = s.input ∧ s.curEnd ≤ s3.curEnd :=
            ⟨hA2.1.trans h2.1, le_trans h2.2 hA2.2⟩
          cases rA2 with
          | ok o2 =>
            cases o2 with
            | none => exact h3
            | some token2 =>
              dsimp only
              cases htk2 : token2.kind with
              | Newline => exact h3
              | PipePipe =>
                dsimp only
                rcases heqT2 : Parser.parseTargets fuel s3 arena2 with ⟨rT2, s4, arena4⟩
                have hT2 := parseTargets_pres fuel s3 arena2
                rw [heqT2] at hT2
                dsimp only at hT2
                have h4 : s4.input = s.input ∧ s.curEnd ≤ s4.curEnd :=
                  ⟨hT2.1.trans h3.1, le_trans h3.2 hT2.2⟩
                cases rT2 with
                | ok order_inputs =>
                  dsimp only
                  rcases heqC : Parser.consume fuel .Newline s4 with ⟨rC, s5⟩
                  have hC := consume_pres fuel .Newline s4
                  rw [heqC] at hC
                  dsimp only at hC
                  have h5 : s5.input = s.input ∧ s.curEnd ≤ s5.curEnd :=
                    ⟨hC.1.trans h4.1, le_trans h4.2 hC.2⟩
                  cases rC with
                  | ok t => exact h5
                  | err e => exact h5
                  | panicked => exact h5
                  | oof => exact h5
                | err e => exact h4
                | panicked => exact h4
                | oof => exact h4
              | Pipe => exact h3
              | Equal => exact h3
              | Colon => exact h3
              | Identifier => exact h3
              | Indent => exact h3
          | err e => exact h3
          | panicked => exact h3
          | oof => exact h3
        | err e => exact h2
        | panicked => exact h2
        | oof => exact h2
      | PipePipe =>
        dsimp only
        rcases heqT : Parser.parseTargets fuel s1 arena with ⟨rT, s2, arena2⟩
        have hT := parseTargets_pres fuel s1 arena
        rw [heqT] at hT
        dsimp only at hT
        have h2 : s2.input = s.input ∧ s.curEnd ≤ s2.curEnd :=
          ⟨hT.1.trans hA.1, le_trans hA.2 hT.2⟩
        cases rT with
        | ok order_inputs =>
          dsimp only
          rcases heqC : Parser.consume fuel .Newline s2 with ⟨rC, s3⟩
          have hC := consume_pres fuel .Newline s2
          rw [heqC] at hC
          dsimp only at hC
          have h3 : s3.input = s.input ∧ s.curEnd ≤ s3.curEnd :=
            ⟨hC.1.trans h2.1, le_trans h2.2 hC.2⟩
          cases rC with
          | ok t => exact h3
          | err e => exact h3
          | panicked => exact h3
          | oof => exact h3
        | err e => exact h2
        | panicked => exact h2
        | oof => exact h2
      | Equal => exact hA
      | Colon => exact hA
      | Identifier => exact hA
      | Indent => exact hA
  | err e => exact hA
  | panicked => exact hA
  | oof => exact hA

theorem parseBuildNewline_suff (fuel : Nat) (s : Lexer) (arena : Table)
    (h : s.remaining < fuel) : (Parser.parseBuildNewline fuel s arena).1 ≠ .oof := by
  unfold Parser.parseBuildNewline
  rcases heqA : Parser.advance fuel s with ⟨rA, s1⟩
  have hA := advance_pres fuel s
  rw [heqA] at hA
  dsimp only at hA
  cases rA with
  | ok o =>
    cases o with
    | none => simp
    | some token =>
      dsimp only
      cases htk : token.kind with
      | Newline => simp
      | Pipe =>
        dsimp only
        rcases heqT : Parser.parseTargets fuel s1 arena with ⟨rT, s2, arena2⟩
        have hT := parseTargets_pres fuel s1 arena
        rw [heqT] at hT
        dsimp only at hT
        have h2 : s2.input = s.input ∧ s.curEnd ≤ s2.curEnd :=
          ⟨hT.1.trans hA.1, le_trans hA.2 hT.2⟩
        cases rT with
        | ok implicit_inputs =>
          dsimp only
          rcases heqA2 : Parser.advance fuel s2 with ⟨rA2, s3⟩
          have hA2 := advance_pres fuel s2
          rw [heqA2] at hA2
          dsimp only at hA2
          have h3 : s3.input = s.input ∧ s.curEnd ≤ s3.curEnd :=
            ⟨hA2.1.trans h2.1, le_trans h2.2 hA2.2⟩
          cases rA2 with
          | ok o2 =>
            cases o2 with
            | none => simp
            | some token2 =>
              dsimp only
              cases htk2 : token2.kind with
              | Newline => simp
              | PipePipe =>
                dsimp only
                rcases heqT2 : Parser.parseTargets fuel s3 arena2 with ⟨rT2, s4, arena4⟩
                have hT2 := parseTargets_pres fuel s3 arena2
                rw [heqT2] at hT2
                dsimp only at hT2
                have h4 : s4.input = s.input ∧ s.curEnd ≤ s4.curEnd :=
                  ⟨hT2.1.trans h3.1, le_trans h3.2 hT2.2⟩
                cases rT2 with
                | ok order_inputs =>
                  dsimp only
                  rcases heqC : Parser.consume fuel .Newline s4 with ⟨rC, s5⟩
                  cases rC with
                  | ok t => simp
                  | err e => simp
                  | panicked => simp
                  | oof =>
                    have hc := consume_suff fuel .Newline s4
                      (lt_of_le_of_lt (remaining_mono h4.1 h4.2) h)
                    rw [heqC] at hc
                    simp at hc
                | err e => simp
                | panicked => simp
                | oof =>
                  have hc := parseTargets_suff fuel s3 arena2
                    (lt_of_le_of_lt (remaining_mono h3.1 h3.2) h)
                  rw [heqT2] at hc
                  simp at hc
              | Pipe => simp
              | Equal => simp
              | Colon => simp
              | Identifier => simp
              | Indent => simp
          | err e => simp
          | panicked => simp
          | oof =>
            have hc := advance_suff fuel s2
              (lt_of_le_of_lt (remaining_mono h2.1 h2.2) h)
            rw [heqA2] at hc
            simp at hc
        | err e => simp
        | panicked => simp
        | oof =>
          have hc := parseTargets_suff fuel s1 arena
            (lt_of_le_of_lt (remaining_mono hA.1 hA.2) h)
          rw [heqT] at hc
          simp at hc
      | PipePipe =>
        dsimp only
        rcases heqT : Parser.parseTargets fuel s1 arena with ⟨rT, s2, arena2⟩
        have hT := parseTargets_pres fuel s1 arena
        rw [heqT] at hT
        dsimp only at hT
        have h2 : s2.input = s.input ∧ s.curEnd ≤ s2.curEnd :=
          ⟨hT.1.trans hA.1, le_trans hA.2 hT.2⟩
        cases rT with
        | ok order_inputs =>
          dsimp only
          rcases heqC : Parser.consume fuel .Newline s2 with ⟨rC, s3⟩
          cases rC with
          | ok t => simp
          | err e => simp
          | panicked => simp
          | oof =>
            have hc := consume_suff fuel .Newline s2
              (lt_of_le_of_lt (remaining_mono h2.1 h2.2) h)
            rw [heqC] at hc
            simp at hc
        | err e => simp
        | panicked => simp
        | oof =>
          have hc := parseTargets_suff fuel s1 arena
            (lt_of_le_of_lt (remaining_mono hA.1 hA.2) h)
          rw [heqT] at hc
          simp at hc
      | Equal => simp
      | Colon => simp
      | Identifier => simp
      | Indent => simp
  | err e => simp
  | panicked => simp
  | oof =>
    have hc := advance_suff fuel s h
    rw [heqA] at hc
    simp at hc
theorem parseBuild_pres (fuel : Nat) (s : Lexer) (scopes : Scopes) (arena : Table) :
    ((Parser.parseBuild fuel s scopes arena).2.1).input = s.input ∧
      s.curEnd ≤ ((Parser.parseBuild fuel s scopes arena).2.1).curEnd := by
  unfold Parser.parseBuild
  rcases heqT : Parser.parseTargets fuel s arena with ⟨rT, s1, arena1⟩
  have hT := parseTargets_pres fuel s arena
  rw [heqT] at hT
  dsimp only at hT
  cases rT with
  | ok outputs =>
    dsimp only
    rcases heqBC : Parser.parseBuildColon fuel s1 arena1 with ⟨rBC, s2, arena2⟩
    have hBC := parseBuildColon_pres fuel s1 arena1
    rw [heqBC] at hBC
    dsimp only at hBC
    have h2 : s2.input = s.input ∧ s.curEnd ≤ s2.curEnd :=
      ⟨hBC.1.trans hT.1, le_trans hT.2 hBC.2⟩
    cases rBC with
    | ok implicit_outputs =>
      dsimp only
      rcases heqI : Parser.parseIdentifier fuel s2 arena2 with ⟨rI, s3, arena3⟩
      have hI := parseIdentifier_pres fuel s2 arena2
      rw [heqI] at hI
      dsimp only at hI
      have h3 : s3.input = s.input ∧ s.curEnd ≤ s3.curEnd :=
        ⟨hI.1.trans h2.1, le_trans h2.2 hI.2⟩
      cases rI with
      | ok rule =>
        dsimp only
        rcases heqT2 : Parser.parseTargets fuel s3 arena3 with ⟨rT2, s4, arena4⟩
        have hT2 := parseTargets_pres fuel s3 arena3
        rw [heqT2] at hT2
        dsimp only at hT2
        have h4 : s4.input = s.input ∧ s.curEnd ≤ s4.curEnd :=
          ⟨hT2.1.trans h3.1, le_trans h3.2 hT2.2⟩
        cases rT2 with
        | ok inputs =>
          dsimp only
          rcases heqBN : Parser.parseBuildNewline fuel s4 arena4 with ⟨rBN, s5, arena5⟩
          have hBN := parseBuildNewline_pres fuel s4 arena4
          rw [heqBN] at hBN
          dsimp only at hBN
          have h5 : s5.input = s.input ∧ s.curEnd ≤ s5.curEnd :=
            ⟨hBN.1.trans h4.1, le_trans h4.2 hBN.2⟩
          cases rBN with
          | ok pr =>
            rcases pr with ⟨implicit_inputs, order_inputs⟩
            dsimp only
            rcases heqS : Parser.parseScope fuel s5 scopes arena5 with ⟨rS, s6, scopes6, arena6⟩
            have hS := parseScope_pres fuel s5 scopes arena5
            rw [heqS] at hS
            dsimp only at hS
            have h6 : s6.input = s.input ∧ s.curEnd ≤ s6.curEnd :=
              ⟨hS.1.trans h5.1, le_trans h5.2 hS.2⟩
            cases rS with
            | ok scope => exact h6
            | err e => exact h6
            | panicked => exact h6
            | oof => exact h6
          | err e => exact h5
          | panicked => exact h5
          | oof => exact h5
        | err e => exact h4
        | panicked => exact h4
        | oof => exact h4
      | err e => exact h3
      | panicked => exact h3
      | oof => exact h3
    | err e => exact h2
    | panicked => exact h2
    | oof => exact h2
  | err e => exact hT
  | panicked => exact hT
  | oof => exact hT

theorem parseBuild_suff (fuel : Nat) (s : Lexer) (scopes : Scopes) (arena : Table)
    (h : s.remaining < fuel) : (Parser.parseBuild fuel s scopes arena).1 ≠ .oof := by
  unfold Parser.parseBuild
  rcases heqT : Parser.parseTargets fuel s arena with ⟨rT, s1, arena1⟩
  have hT := parseTargets_pres fuel s arena
  rw [heqT] at hT
  dsimp only at hT
  cases rT with
  | ok outputs =>
    dsimp only
    rcases heqBC : Parser.parseBuildColon fuel s1 arena1 with ⟨rBC, s2, arena2⟩
    have hBC := parseBuildColon_pres fuel s1 arena1
    rw [heqBC] at hBC
    dsimp only at hBC
    have h2 : s2.input = s.input ∧ s.curEnd ≤ s2.curEnd :=
      ⟨hBC.1.trans hT.1, le_trans hT.2 hBC.2⟩
    cases rBC with
    | ok implicit_outputs =>
      dsimp only
      rcases heqI : Parser.parseIdentifier fuel s2 arena2 with ⟨rI, s3, arena3⟩
      have hI := parseIdentifier_pres fuel s2 arena2
      rw [heqI] at hI
      dsimp only at hI
      have h3 : s3.input = s.input ∧ s.curEnd ≤ s3.curEnd :=
        ⟨hI.1.trans h2.1, le_trans h2.2 hI.2⟩
      cases rI with
      | ok rule =>
        dsimp only
        rcases heqT2 : Parser.parseTargets fuel s3 arena3 with ⟨rT2, s4, arena4⟩
        have hT2 := parseTargets_pres fuel s3 arena3
        rw [heqT2] at hT2
        dsimp only at hT2
        have h4 : s4.input = s.input ∧ s.curEnd ≤ s4.curEnd :=
          ⟨hT2.1.trans h3.1, le_trans h3.2 hT2.2⟩
        cases rT2 with
        | ok inputs =>
          dsimp only
          rcases heqBN : Parser.parseBuildNewline fuel s4 arena4 with ⟨rBN, s5, arena5⟩
          have hBN := parseBuildNewline_pres fuel s4 arena4
          rw [heqBN] at hBN
          dsimp only at hBN
          have h5 : s5.input = s.input ∧ s.curEnd ≤ s5.curEnd :=
            ⟨hBN.1.trans h4.1, le_trans h4.2 hBN.2⟩
          cases rBN with
          | ok pr =>
            rcases pr with ⟨implicit_inputs, order_inputs⟩
            dsimp only
            rcases heqS : Parser.parseScope fuel s5 scopes arena5 with ⟨rS, s6, scopes6, arena6⟩
            cases rS with
            | ok scope => simp
            | err e => simp
            | panicked => simp
            | oof =>
              have hc := parseScope_suff fuel s5 scopes arena5
                (lt_of_le_of_lt (remaining_mono h5.1 h5.2) h)
              rw [heqS] at hc
              simp at hc
          | err e => simp
          | panicked => simp
          | oof =>
            have hc := parseBuildNewline_suff fuel s4 arena4
              (lt_of_le_of_lt (remaining_mono h4.1 h4.2) h)
            rw [heqBN] at hc
            simp at hc
        | err e => simp
        | panicked => simp
        | oof =>
          have hc := parseTargets_suff fuel s3 arena3
            (lt_of_le_of_lt (remaining_mono h3.1 h3.2) h)
          rw [heqT2] at hc
          simp at hc
      | err e => simp
      | panicked => simp
      | oof =>
        have hc := parseIdentifier_suff fuel s2 arena2
          (lt_of_le_of_lt (remaining_mono h2.1 h2.2) h)
        rw [heqI] at hc
        simp at hc
    | err e => simp
    | panicked => simp
    | oof =>
      have hc := parseBuildColon_suff fuel s1 arena1
        (lt_of_le_of_lt (remaining_mono hT.1 hT.2) h)
      rw [heqBC] at hc
      simp at hc
  | err e => simp
  | panicked => simp
  | oof =>
    have hc := parseTargets_suff fuel s arena h
    rw [heqT] at hc
    simp at hc
theorem parseLoop_suff : ∀ (fuel : Nat) (s : Lexer) (declarations : Declarations)
    (scopes : Scopes) (arena : Table),
    s.remaining < fuel →
      (Parser.parseLoop fuel s declarations scopes arena).1 ≠ .oof := by
  intro fuel
  induction fuel with
  | zero => intro s declarations scopes arena h; omega
  | succ n ih =>
    intro s declarations scopes arena h
    unfold Parser.parseLoop
    rcases heqA : Parser.advanceDecl (n + 1) s with ⟨rA, s1⟩
    have hA := advanceDecl_pres (n + 1) s
    rw [heqA] at hA
    dsimp only at hA
    cases rA with
    | ok o =>
      cases o with
      | none => simp
      | some token =>
        dsimp only
        obtain ⟨hlt, hpos⟩ := advanceDecl_strict (n + 1) s s1 token heqA
        have hstep := remaining_step hA.1 hlt
        cases htk : token.kind with
        | Rule =>
          dsimp only
          rcases heqR : Parser.parseRule (n + 1) s1 scopes arena with ⟨rR, s2, scopes2, arena2⟩
          have hR := parseRule_pres (n + 1) s1 scopes arena
          rw [heqR] at hR
          dsimp only at hR
          cases rR with
          | ok rule =>
            dsimp only
            rcases heqAdd : declarations.addRule rule with e | declarations2
            · simp
            · have hm := remaining_mono hR.1 hR.2
              exact ih s2 declarations2 scopes2 arena2 (by omega)
          | err e => simp
          | panicked => simp
          | oof =>
            have hc := parseRule_suff (n + 1) s1 scopes arena (by omega)
            rw [heqR] at hc
            simp at hc
        | Build =>
          dsimp only
          rcases heqR : Parser.parseBuild (n + 1) s1 scopes arena with ⟨rR, s2, scopes2, arena2⟩
          have hR := parseBuild_pres (n + 1) s1 scopes arena
          rw [heqR] at hR
          dsimp only at hR
          cases rR with
          | ok build =>
            dsimp only
            rcases heqAdd : declarations.addBuild build with e | declarations2
            · simp
            · have hm := remaining_mono hR.1 hR.2
              exact ih s2 declarations2 scopes2 arena2 (by omega)
          | err e => simp
          | panicked => simp
          | oof =>
            have hc := parseBuild_suff (n + 1) s1 scopes arena (by omega)
            rw [heqR] at hc
            simp at hc
        | Default =>
          dsimp only
          rcases heqR : Parser.parseDefault (n + 1) s1 arena with ⟨rR, s2, arena2⟩
          have hR := parseDefault_pres (n + 1) s1 arena
          rw [heqR] at hR
          dsimp only at hR
          cases rR with
          | ok default =>
            dsimp only
            rcases heqAdd : declarations.addDefault default with e | declarations2
            · simp
            · have hm := remaining_mono hR.1 hR.2
              exact ih s2 declarations2 scopes arena2 (by omega)
          | err e => simp
          | panicked => simp
          | oof =>
            have hc := parseDefault_suff (n + 1) s1 arena (by omega)
            rw [heqR] at hc
            simp at hc
        | Subninja => simp
        | Include => simp
        | Pool =>
          dsimp only
          rcases heqR : Parser.parsePool (n + 1) s1 scopes arena with ⟨rR, s2, scopes2, arena2⟩
          have hR := parsePool_pres (n + 1) s1 scopes arena
          rw [heqR] at hR
          dsimp only at hR
          cases rR with
          | ok pool =>
            dsimp only
            rcases heqAdd : declarations.addPool pool with e | declarations2
            · simp
            · have hm := remaining_mono hR.1 hR.2
              exact ih s2 declarations2 scopes2 arena2 (by omega)
          | err e => simp
          | panicked => simp
          | oof =>
            have hc := parsePool_suff (n + 1) s1 scopes arena (by omega)
            rw [heqR] at hc
            simp at hc
        | Identifier =>
          dsimp only
          rcases heqN : Identifier.new arena (s1.lexeme token) with ⟨identifier, arena1⟩
          dsimp only
          rcases heqTL : Parser.parseTopLevelBinding (n + 1) identifier s1 scopes arena1
            with ⟨rTL, s2, scopes2, arena2⟩
          have hTL := parseTopLevelBinding_pres (n + 1) identifier s1 scopes arena1
          rw [heqTL] at hTL
          dsimp only at hTL
          cases rTL with
          | ok binding =>
            dsimp only
            rcases heqP : Scope.push (Scopes.getScope scopes2 scopes2.top) binding
              with e | topScope
            · simp
            · have hm := remaining_mono hTL.1 hTL.2
              exact ih s2 declarations (scopes2.setScope scopes2.top topScope) arena2 (by omega)
          | err e => simp
          | panicked => simp
          | oof =>
            have hc := parseTopLevelBinding_suff (n + 1) identifier s1 scopes arena1 (by omega)
            rw [heqTL] at hc
            simp at hc
        | Newline => exact ih s1 declarations scopes arena (by omega)
    | err e => simp
    | panicked => simp
    | oof =>
      have hc := advanceDecl_suff (n + 1) s h
      rw [heqA] at hc
      simp at hc
/-- C2: for every input buffer and intern table, the parse entry point
terminates: with the fuel `input.length + 1` built into `Parser.parse`
the result is never out-of-fuel, so parsing always returns an `ok File`,
a typed `ParseError`, or the panic of the unimplemented `include` /
`subninja` `todo!()` arms.  The claim as stated (never panics) is
refuted by `C2_todo_cex` below. -/
theorem C2_termination (input : List Byte) (arena : Table) :
    (∃ file, (Parser.parse input arena).1 = .ok file) ∨
    (∃ e, (Parser.parse input arena).1 = .err e) ∨
    (Parser.parse input arena).1 = .panicked := by
  have hne : (Parser.parse input arena).1 ≠ .oof := by
    unfold Parser.parse
    apply parseLoop_suff
    show (Lexer.new input).remaining < input.length + 1
    simp [Lexer.new, Lexer.remaining]
  cases hres : (Parser.parse input arena).1 with
  | ok f => exact Or.inl ⟨f, rfl⟩
  | err e => exact Or.inr (Or.inl ⟨e, rfl⟩)
  | panicked => exact Or.inr (Or.inr rfl)
  | oof => exact absurd hres hne

/-- C2 counterexample: a declaration line headed by the keyword
`include` or `subninja` reaches the `todo!()` arm of the dispatch and
panics, against the claim that parse never aborts on any input. -/
theorem C2_todo_cex :
    (Parser.parse (bs "include x\n") Table.new).1 = .panicked ∧
    (Parser.parse (bs "subninja x\n") Table.new).1 = .panicked := by
  constructor
  · decide
  · decide
end NinjaRs
